import Mathlib

/-!
# OpenASIP / TCE: scheduler, TDGen and POM-builder verification

A shallow embedding of the parts of the repository that the verified
properties talk about.

* `TDGen.RegInfo`, `LLVMTCEPOMBuilder.*`, the ring buffer of `CompiledSimulation.hh`,
  the enumerations and small structs of `BF2Scheduler.hh` are translated from the
  source text; library and LLVM functions they call are parameters.
* The bodies of `BF2Scheduler` (`BF2Scheduler.cc`), of the dependence graph, of the
  resource manager and of the optimisation operators are not among the sources. Their
  contracts are modelled from the design specification and marked as such: a ledger
  of busy resources per cycle, a graph whose nodes and edges can be removed and put
  back, and operators that are lists of checked mutations with an undo record.
* The heuristics of the driver (which move, cycle, bus and operator comes next) are a
  parameter, `BF2Scheduler.Policy`; the theorems on the scheduler hold for every
  policy.

Machine `int`/`unsigned` values are embedded as `Int`/`Nat`.
-/

set_option autoImplicit false

/-! ## Part 1. Definitions -/

/-- Largest value of a C++ `int` (32 bit). -/
def INT_MAX : Int := 2147483647

namespace TDGen

/-- Source: `TDGen::RegInfo` (TDGen.hh): a register file name and a register index. -/
structure RegInfo where
  rf : String
  idx : Nat
  deriving DecidableEq, Repr

/-- Source: `TDGen::RegInfo::operator<` (TDGen.hh lines 97-105). -/
def RegInfo.lt (self other : RegInfo) : Bool :=
  if self.rf < other.rf ∨ (self.rf = other.rf ∧ self.idx < other.idx) then
    true
  else
    false

end TDGen

namespace LLVMTCEPOMBuilder

/-- Source: `LLVMTCEPOMBuilder::spDRegNum` (LLVMTCEPOMBuilder.cc lines 71-74). -/
def spDRegNum : Nat := 1000000

/-- Source: `LLVMTCEPOMBuilder::raPortDRegNum` (LLVMTCEPOMBuilder.cc lines 76-79). -/
def raPortDRegNum : Nat := 1000001

/-- Source: `abortWithError(msg)`: the call does not return; the embedding records the
message as the error of the computation. -/
def abortWithError {α : Type} (msg : String) : Except String α :=
  Except.error msg

/-- Source: `LLVMTCEPOMBuilder::registerFileName` (LLVMTCEPOMBuilder.cc lines 81-87). -/
def registerFileName (llvmRegNum : Nat) : Except String String :=
  if llvmRegNum = 1000000 then
    Except.ok "RF"
  else
    abortWithError "Unimplemented."

/-- Source: `LLVMTCEPOMBuilder::registerIndex` (LLVMTCEPOMBuilder.cc lines 89-95). -/
def registerIndex (llvmRegNum : Nat) : Except String Int :=
  if llvmRegNum = 1000000 then
    Except.ok 4
  else
    abortWithError "Unimplemented."

end LLVMTCEPOMBuilder

namespace BF2Scheduler

/-- Source: `BF2Scheduler::PreLoopOperandEnum` (BF2Scheduler.hh lines 135-140). -/
inductive PreLoopOperandEnum where
  | NO_PORT
  | SHARED
  | NOT_SHARED
  | NO_LOOP_INVARIANT
  deriving DecidableEq, Repr

/-- Numeric code of an enumerator of `PreLoopOperandEnum`. -/
def PreLoopOperandEnum.code : PreLoopOperandEnum → Int
  | .NO_PORT => 0
  | .SHARED => 1
  | .NOT_SHARED => 2
  | .NO_LOOP_INVARIANT => 3

/-- Source: `BF2Scheduler::PreLoopShareInfo` (BF2Scheduler.hh lines 143-154). The two
pointers are embedded as optional identities, `none` being `NULL`. -/
structure PreLoopShareInfo where
  state_ : PreLoopOperandEnum
  sharedMN_ : Option Nat
  sharedPort_ : Option Nat
  deriving DecidableEq, Repr

/-- Constructor `PreLoopShareInfo(PreLoopOperandEnum state)`. -/
def PreLoopShareInfo.ofState (state : PreLoopOperandEnum) : PreLoopShareInfo :=
  { state_ := state, sharedMN_ := none, sharedPort_ := none }

/-- Constructor `PreLoopShareInfo(MoveNode& mn, TTAMachine::FUPort& port)`. -/
def PreLoopShareInfo.ofShared (mn port : Nat) : PreLoopShareInfo :=
  { state_ := PreLoopOperandEnum.SHARED, sharedMN_ := some mn, sharedPort_ := some port }

/-- Source: `BF2Scheduler::SchedulingDirection` (BF2Scheduler.hh lines 156-161). -/
inductive SchedulingDirection where
  | EITHER
  | TOPDOWN
  | BOTTOMUP
  | EXACTCYCLE
  deriving DecidableEq, Repr

/-- Source: `BF2Scheduler::SchedulingLimits` (BF2Scheduler.hh lines 166-172). -/
structure SchedulingLimits where
  direction : SchedulingDirection
  earliestCycle : Int
  latestCycle : Int
  deriving DecidableEq, Repr

/-- Default constructor `SchedulingLimits()`. -/
def SchedulingLimits.default : SchedulingLimits :=
  { direction := SchedulingDirection.BOTTOMUP, earliestCycle := 0, latestCycle := INT_MAX }

/-- Source: `BF2Scheduler::PROLOG_CYCLE_BIAS` (BF2Scheduler.hh line 209). -/
def PROLOG_CYCLE_BIAS : Int := 1000

end BF2Scheduler

/-! ### Remaining declarations of `BF2Scheduler.hh` -/

namespace BF2Scheduler

/-- Source: `BF2Scheduler::LoopSchedulingMode` (BF2Scheduler.hh lines 129-133): the
enumeration lists the single enumerator `NO_LOOP_SCHEDULER`. -/
inductive LoopSchedulingMode where
  | NO_LOOP_SCHEDULER
  deriving DecidableEq, Repr

/-- Numeric code of an enumerator of `LoopSchedulingMode`. -/
def LoopSchedulingMode.code : LoopSchedulingMode → Int
  | .NO_LOOP_SCHEDULER => 0

/-- Numeric code of an enumerator of `SchedulingDirection`
(BF2Scheduler.hh lines 156-161). -/
def SchedulingDirection.code : SchedulingDirection → Int
  | .EITHER => 0
  | .TOPDOWN => 1
  | .BOTTOMUP => 2
  | .EXACTCYCLE => 3

end BF2Scheduler

/-! ### The scheduler core

`BF2Scheduler.hh` only declares the scheduler. The dependence graph, the resource
manager and the optimisation stack are modelled from the contracts of the design
specification. The heuristics of `BF2Scheduler.cc` (which move is taken next, which
cycle and bus are tried, which optimisation operator is applied or rolled back) are
not among the sources and are a parameter of the driver, its `Policy`: every decision
of a policy passes through the modelled contracts. -/

/-- Modelled from the spec: the transport resources of the resource-manager
ledger (§3, §4.2: bus, port, function-unit issue slot); `SimpleResourceManager`
itself is not among the sources. -/
inductive Resource where
  | bus (b : Nat)
  | port (p : Nat)
  | issueSlot (fu : Nat)
  deriving DecidableEq, Repr

/-- Modelled from the spec: how a move belongs to an operation (§3 "Belongs to at most
one Operation (as operand, trigger, or result move) or stands alone"). An input move is
an operand or the trigger; which of the two is decided by the port it writes
(`BF2Scheduler::isTrigger(unit, mn)`). `MoveNode` is not among the sources. -/
inductive MoveKind where
  | input
  | result
  | standalone
  deriving DecidableEq, Repr

/-- Modelled from the spec: a dependence-graph node wrapping one move (§3): the
resolved terminals (source unit, destination unit and port, destination register), the
operation it belongs to with the result port and latency of that operation, the
register-allocating copy of a result move (§4.4), and the mutable assignment
`(cycle, bus)`, `none` being the unscheduled sentinel. `MoveNode` is not among the
sources. -/
structure MoveNode where
  id : Nat
  srcUnit : Nat
  dstUnit : Nat
  dstPort : Nat
  dstReg : Option Nat
  po : Option Nat
  kind : MoveKind
  resultPort : Nat
  latency : Nat
  regCopy : Option Nat
  placement : Option (Int × Nat)
  deriving DecidableEq, Repr

namespace MoveNode

/-- Modelled from the spec: whether the move has an assigned cycle (§3).
`MoveNode` is not among the sources. -/
def isScheduled (mn : MoveNode) : Bool := mn.placement.isSome

/-- Modelled from the spec: the assigned cycle of the move (§3).
`MoveNode` is not among the sources. -/
def cycle (mn : MoveNode) : Option Int := mn.placement.map Prod.fst

/-- Modelled from the spec: the assigned bus of the move (§3).
`MoveNode` is not among the sources. -/
def bus (mn : MoveNode) : Option Nat := mn.placement.map Prod.snd

end MoveNode

/-- Modelled from the spec: the kinds of dependence edges (§3 "data, anti/output,
control, or memory-ordering"); `DataDependenceEdge` is not among the sources. -/
inductive EdgeKind where
  | data
  | anti
  | output
  | control
  | memory
  deriving DecidableEq, Repr

/-- Modelled from the spec: an edge `tail → head` with its kind, its latency
(minimum cycle distance) and the mark of a loop-carried edge (§3).
`DataDependenceEdge` is not among the sources. -/
structure DataDependenceEdge where
  tail : Nat
  head : Nat
  kind : EdgeKind
  latency : Int
  loopCarried : Bool
  deriving DecidableEq, Repr

/-- Modelled from the spec: the dependence graph of one scheduling unit (§3, §4.1).
The moves are an arena that the scheduler never reorders (§3 Lifecycle, §9); a removed
node stays in the arena and is recorded in `dropped`, from where it can be restored
(§4.1). `DataDependenceGraph` is not among the sources. -/
structure DataDependenceGraph where
  nodes : List MoveNode
  edges : Finset DataDependenceEdge
  dropped : Finset Nat
  deriving DecidableEq

namespace DataDependenceGraph

/-- Modelled from the spec: the node with a given identifier.
`DataDependenceGraph` is not among the sources. -/
def node (ddg : DataDependenceGraph) (id : Nat) : Option MoveNode :=
  ddg.nodes.find? (fun n => decide (n.id = id))

/-- Modelled from the spec: query of the cycle assigned to a node (§3).
`DataDependenceGraph` is not among the sources. -/
def cycleOf (ddg : DataDependenceGraph) (id : Nat) : Option Int :=
  (ddg.node id).bind MoveNode.cycle

/-- Modelled from the spec: change of the mutable attributes of the move with a
given identifier. `DataDependenceGraph` is not among the sources. -/
def modify (ddg : DataDependenceGraph) (id : Nat) (f : MoveNode → MoveNode) :
    DataDependenceGraph :=
  { ddg with nodes := ddg.nodes.map (fun n => if n.id = id then f n else n) }

/-- Modelled from the spec: mutation of the assignment of a node (§3).
`DataDependenceGraph` is not among the sources. -/
def setPlacement (ddg : DataDependenceGraph) (id : Nat) (p : Option (Int × Nat)) :
    DataDependenceGraph :=
  ddg.modify id (fun n => { n with placement := p })

/-- Modelled from the spec: the node is in the graph, not removed (§4.1).
`DataDependenceGraph` is not among the sources. -/
def isActive (ddg : DataDependenceGraph) (id : Nat) : Bool :=
  decide (id ∉ ddg.dropped)

/-- Modelled from the spec: removal of a node; the edges of a removed node put no
constraint while it is out of the graph ("automatic edge cleanup", §4.1).
`DataDependenceGraph` is not among the sources. -/
def dropNode (ddg : DataDependenceGraph) (id : Nat) : DataDependenceGraph :=
  { ddg with dropped := insert id ddg.dropped }

/-- Modelled from the spec: a removed node is put back into the graph (§4.1).
`DataDependenceGraph` is not among the sources. -/
def restoreNode (ddg : DataDependenceGraph) (id : Nat) : DataDependenceGraph :=
  { ddg with dropped := ddg.dropped.erase id }

/-- Modelled from the spec: the ready test of §4.1 and §4.3 for the bottom-up
direction, a consumer through an ordinary edge that is in the graph and not yet
scheduled; `hasUnscheduledSuccessors` is declared in BF2Scheduler.hh line 182, its body
is not among the sources. -/
def hasUnscheduledSuccessors (ddg : DataDependenceGraph) (mn : MoveNode) : Bool :=
  decide (∃ e ∈ ddg.edges, e.loopCarried = false ∧ e.tail = mn.id ∧
    ddg.isActive e.head = true ∧ ddg.cycleOf e.head = none)

/-- Modelled from the spec: every node of the graph has an assigned cycle (§4.4
`Done`). `DataDependenceGraph` is not among the sources. -/
def allScheduled (ddg : DataDependenceGraph) : Bool :=
  ddg.nodes.all (fun n => !ddg.isActive n.id || n.isScheduled)

/-- Modelled from the spec: the cycles of the scheduled nodes.
`DataDependenceGraph` is not among the sources. -/
def cycles (ddg : DataDependenceGraph) : List Int :=
  ddg.nodes.filterMap MoveNode.cycle

/-- Modelled from the spec: the largest assigned cycle, `0` for an empty schedule.
`DataDependenceGraph` is not among the sources. -/
def largestCycle (ddg : DataDependenceGraph) : Int :=
  match ddg.cycles with
  | [] => 0
  | c :: cs => cs.foldl max c

/-- Modelled from the spec: the length of the schedule, largest minus smallest
assigned cycle plus one, `0` for an empty schedule.
`DataDependenceGraph` is not among the sources. -/
def scheduleLength (ddg : DataDependenceGraph) : Int :=
  match ddg.cycles with
  | [] => 0
  | c :: cs => cs.foldl max c - cs.foldl min c + 1

end DataDependenceGraph

/-- Modelled from the spec: the machine model as consumed by the core (§6): the
buses, which bus connects which source unit to which destination unit, and which ports
of which units are triggering. `Machine` is not among the sources. -/
structure Machine where
  buses : List Nat
  connections : List (Nat × Nat × Nat)
  triggerPorts : List (Nat × Nat)
  deriving DecidableEq, Repr

/-- Modelled from the spec: the move fires its operation when it is written to the
unit: an input move whose destination port is a triggering port of that unit (§3
"trigger move", glossary). Body of `BF2Scheduler::isTrigger(unit, mn)`
(BF2Scheduler.hh line 180), which is not among the sources. -/
def Machine.isTrigger (m : Machine) (unit : Nat) (mn : MoveNode) : Bool :=
  decide (mn.kind = MoveKind.input) && decide ((unit, mn.dstPort) ∈ m.triggerPorts)

/-- Modelled from the spec: the move is the trigger of its operation on the unit it
is written to. `MoveNode` is not among the sources. -/
def MoveNode.triggers (mn : MoveNode) (m : Machine) : Bool :=
  m.isTrigger mn.dstUnit mn

/-- Modelled from the spec: the move is an operand move of its operation, an input
move that is not the trigger (§3). `MoveNode` is not among the sources. -/
def MoveNode.isOperand (mn : MoveNode) (m : Machine) : Bool :=
  decide (mn.kind = MoveKind.input) && !mn.triggers m

/-- Modelled from the spec: the per-cycle ledger of busy resources (§3, §4.2): the
move that occupies a resource in a cycle, if any, and the initiation interval of the
loop whose body is scheduled (`0` outside loop scheduling, §4.4 "software
pipelining"). `SimpleResourceManager` is not among the sources. -/
structure SimpleResourceManager where
  cell : Int → Resource → Option Nat
  initiationInterval : Int

namespace SimpleResourceManager

/-- Modelled from the spec: the ledger of a new scheduling unit, nothing busy (§3
Lifecycle). `SimpleResourceManager` is not among the sources. -/
def empty (ii : Int) : SimpleResourceManager :=
  { cell := fun _ _ => none, initiationInterval := ii }

/-- Modelled from the spec: what a move placed in `cycle` on `bus` occupies
(§4.2): the bus and the destination port in that cycle and, for a trigger, the
issue slot of the function unit in that cycle and the result port during
`[cycle, cycle + latency)`. `SimpleResourceManager` is not among the sources. -/
def neededResources (m : Machine) (mn : MoveNode) (cycle : Int) (bus : Nat) :
    List (Int × Resource) :=
  [(cycle, Resource.bus bus), (cycle, Resource.port mn.dstPort)] ++
    (if mn.triggers m = true then
      (cycle, Resource.issueSlot mn.dstUnit) ::
        (List.range mn.latency).map
          (fun (i : Nat) => (cycle + (i : Int), Resource.port mn.resultPort))
    else [])

/-- Modelled from the spec: the resource is idle in the cycle (§4.2).
`SimpleResourceManager` is not among the sources. -/
def isIdle (rm : SimpleResourceManager) (cycle : Int) (r : Resource) : Bool :=
  (rm.cell cycle r).isNone

/-- Modelled from the spec: feasibility of a move in a cycle on a given bus
(§4.2): the bus connects source and destination unit and everything the move
would occupy is idle. `SimpleResourceManager` is not among the sources. -/
def feasibleOn (m : Machine) (rm : SimpleResourceManager) (cycle : Int) (mn : MoveNode)
    (bus : Nat) : Bool :=
  decide ((bus, mn.srcUnit, mn.dstUnit) ∈ m.connections) &&
    (neededResources m mn cycle bus).all (fun cr => isIdle rm cr.1 cr.2)

/-- Modelled from the spec: the first bus of the machine on which the move is
feasible in the cycle. `SimpleResourceManager` is not among the sources. -/
def availableBus (m : Machine) (rm : SimpleResourceManager) (cycle : Int) (mn : MoveNode) :
    Option Nat :=
  m.buses.find? (fun b => feasibleOn m rm cycle mn b)

/-- Modelled from the spec: `canAssign(cycle, move)` of §4.2.
`SimpleResourceManager` is not among the sources. -/
def canAssign (m : Machine) (rm : SimpleResourceManager) (cycle : Int) (mn : MoveNode) : Bool :=
  (availableBus m rm cycle mn).isSome

/-- Modelled from the spec: `assign(cycle, move, resource)` of §4.2: the move
becomes the occupant of everything it needs. `SimpleResourceManager` is not among the
sources. -/
def assign (m : Machine) (rm : SimpleResourceManager) (cycle : Int) (mn : MoveNode)
    (bus : Nat) : SimpleResourceManager :=
  { rm with
    cell := fun c r =>
      if (c, r) ∈ neededResources m mn cycle bus then some mn.id else rm.cell c r }

/-- Modelled from the spec: `unassign(move)` of §4.2 for a move committed in `cycle`
on `bus`: what the move occupies becomes idle. `SimpleResourceManager` is not among
the sources. -/
def unassign (m : Machine) (rm : SimpleResourceManager) (cycle : Int) (mn : MoveNode)
    (bus : Nat) : SimpleResourceManager :=
  { rm with
    cell := fun c r =>
      if (c, r) ∈ neededResources m mn cycle bus then none else rm.cell c r }

/-- Modelled from the spec: the ledger records the move as the occupant of everything
it needs in `cycle` on `bus` (§3 ledger). `SimpleResourceManager` is not among the
sources. -/
def holds (m : Machine) (rm : SimpleResourceManager) (cycle : Int) (mn : MoveNode)
    (bus : Nat) : Bool :=
  (neededResources m mn cycle bus).all (fun cr => decide (rm.cell cr.1 cr.2 = some mn.id))

/-- Modelled from the spec: search downwards from `c` for a feasible cycle not
below `lo`; the range query "latest feasible cycle ≤ Y" of §4.2.
`SimpleResourceManager` is not among the sources. -/
def latestCycleFrom (m : Machine) (rm : SimpleResourceManager) (mn : MoveNode) (lo : Int) :
    Nat → Int → Option Int
  | 0, _ => none
  | fuel + 1, c =>
    if c < lo then none
    else if canAssign m rm c mn then some c
    else latestCycleFrom m rm mn lo fuel (c - 1)

/-- Modelled from the spec: the latest feasible cycle in `[lo, hi]` (§4.2).
`SimpleResourceManager` is not among the sources. -/
def latestCycle (m : Machine) (rm : SimpleResourceManager) (mn : MoveNode) (lo hi : Int) :
    Option Int :=
  latestCycleFrom m rm mn lo (hi - lo + 1).toNat hi

/-- Modelled from the spec: search upwards from `c` for a feasible cycle not
above `hi`; the range query "earliest feasible cycle ≥ X" of §4.2.
`SimpleResourceManager` is not among the sources. -/
def earliestCycleFrom (m : Machine) (rm : SimpleResourceManager) (mn : MoveNode) (hi : Int) :
    Nat → Int → Option Int
  | 0, _ => none
  | fuel + 1, c =>
    if hi < c then none
    else if canAssign m rm c mn then some c
    else earliestCycleFrom m rm mn hi fuel (c + 1)

/-- Modelled from the spec: the earliest feasible cycle in `[lo, hi]` (§4.2).
`SimpleResourceManager` is not among the sources. -/
def earliestCycle (m : Machine) (rm : SimpleResourceManager) (mn : MoveNode) (lo hi : Int) :
    Option Int :=
  earliestCycleFrom m rm mn hi (hi - lo + 1).toNat lo

end SimpleResourceManager

/-- Modelled from the spec: one entry of an undo record, plain data that says how to
reverse one mutation (§4.4 "Each operator pushes an undo record", §9); the undo code of
`BFOptimization` is not among the sources. -/
inductive Undo where
  | unassign (id : Nat)
  | assign (id : Nat) (cycle : Int) (bus : Nat)
  | resurrect (id : Nat)
  | insertEdge (e : DataDependenceEdge)
  | eraseEdge (e : DataDependenceEdge)
  | source (id : Nat) (unit : Nat)
  | destination (id : Nat) (unit port : Nat)
  | unshare (id port : Nat)
  | unrename (id : Nat) (old : Option Nat) (reg : Nat)
  deriving DecidableEq, Repr

/-- Modelled from the spec: the mutations out of which the optimisation operators of
§4.4 and §4.5 are made: commit and revert of a placement (§4.2), removal of a node
with or without its register-allocating copy (dead-result elimination), removal and
addition of an edge and redirection of the source of a move (bypass), a change of
the destination unit and port of a move (alternate resource, `swapToUntrigger`),
reservation of a function-unit port for an operand across the loop body (operand
sharing), and allocation of a temporary register for the destination of a move
(renaming). The operator bodies are not among the sources. -/
inductive Mutation where
  | assign (id : Nat) (cycle : Int) (bus : Nat)
  | unassign (id : Nat)
  | kill (id : Nat) (copyToo : Bool)
  | removeEdge (e : DataDependenceEdge)
  | addEdge (e : DataDependenceEdge)
  | setSource (id : Nat) (unit : Nat)
  | setDestination (id : Nat) (unit port : Nat)
  | sharePort (id port : Nat)
  | rename (id : Nat) (reg : Nat)
  deriving DecidableEq, Repr

/-- Modelled from the spec: the operator tags of the optimisation stack (§4.4,
§4.5, §9 "closed set of tagged variants"): the placement of a move, the operators
declared in BFPushMoveUp.hh and BFRescheduleResultsClose.hh and the other operators
the spec lists. `BFOptimization` is not among the sources. -/
inductive OptKind where
  | scheduleMove
  | pushMoveUp
  | pushMoveDown
  | rescheduleResultsClose
  | bypass
  | deadResultElimination
  | operandShare
  | rename
  | swapToUntrigger
  deriving DecidableEq, Repr

/-- Modelled from the spec: an entry of the optimisation stack, operator tag
plus undo record, most recent mutation first (§4.4, §9).
`BFOptimization` is not among the sources. -/
structure BFOptimization where
  kind : OptKind
  undo : List Undo
  deriving DecidableEq, Repr

/-- Modelled from the spec: the state of the scheduler driver. The members
`ddg_`, `rm_`, `prologRM_`, `latestCycle_`, `targetMachine_`, `tripCount_`,
`scheduledStack_`, `dreRemovedMoves_`, `removedMoves_`, `preLoopSharedOperands_` (move
and shared port) and `renamer_` are declared in BF2Scheduler.hh lines 233-325;
`minCycle_` holds the `minCycle` argument of `handleDDG`; of the renamer the state
holds the temporary registers that are free (§4.5). `BF2Scheduler.cc` is not among the
sources. -/
structure BF2Scheduler where
  ddg_ : DataDependenceGraph
  rm_ : SimpleResourceManager
  prologRM_ : Option SimpleResourceManager
  targetMachine_ : Machine
  minCycle_ : Int
  latestCycle_ : Int
  tripCount_ : Int
  scheduledStack_ : List BFOptimization
  dreRemovedMoves_ : Finset Nat
  removedMoves_ : Finset Nat
  preLoopSharedOperands_ : List (Nat × Nat)
  renamer_ : Finset Nat

namespace BF2Scheduler

open SimpleResourceManager DataDependenceGraph

/-- Modelled from the spec: `isTrigger(unit, mn)` (BF2Scheduler.hh line 180): whether
the move triggers its operation when written to the unit. `BF2Scheduler.cc` is not
among the sources. -/
def isTrigger (s : BF2Scheduler) (unit : Nat) (mn : MoveNode) : Bool :=
  s.targetMachine_.isTrigger unit mn

/-- Modelled from the spec: `getDstUnit(mn)` (BF2Scheduler.hh line 179), the unit the
move is written to. `BF2Scheduler.cc` is not among the sources. -/
def getDstUnit (_s : BF2Scheduler) (mn : MoveNode) : Nat := mn.dstUnit

/-- Modelled from the spec: the assignment of the move with the identifier (§3).
`BF2Scheduler.cc` is not among the sources. -/
def placementOf (s : BF2Scheduler) (id : Nat) : Option (Int × Nat) :=
  (s.ddg_.node id).bind MoveNode.placement

/-- Modelled from the spec: the register-allocating copy of the move with the
identifier (§4.4). `BF2Scheduler.cc` is not among the sources. -/
def copyOf (s : BF2Scheduler) (id : Nat) : Option Nat :=
  (s.ddg_.node id).bind MoveNode.regCopy

/-- Modelled from the spec: commit of a placement (§4.2 `assign`): the node gets
its cycle and bus, the ledger the reservations of the move and, during loop
scheduling, the prolog ledger those of the prolog copy, offset by
`PROLOG_CYCLE_BIAS` (§3, §4.4). `BF2Scheduler.cc` is not among the sources. -/
def assign (s : BF2Scheduler) (id : Nat) (cycle : Int) (bus : Nat) : BF2Scheduler :=
  match s.ddg_.node id with
  | none => s
  | some mn =>
    { s with
      ddg_ := s.ddg_.setPlacement id (some (cycle, bus))
      rm_ := SimpleResourceManager.assign s.targetMachine_ s.rm_ cycle mn bus
      prologRM_ := s.prologRM_.map (fun p =>
        SimpleResourceManager.assign s.targetMachine_ p (cycle + PROLOG_CYCLE_BIAS) mn bus) }

/-- Modelled from the spec: revert of a placement (§4.2 `unassign`).
`BF2Scheduler.cc` is not among the sources. -/
def unassign (s : BF2Scheduler) (id : Nat) : BF2Scheduler :=
  match s.ddg_.node id with
  | none => s
  | some mn =>
    match mn.placement with
    | none => s
    | some (c, b) =>
      { s with
        ddg_ := s.ddg_.setPlacement id none
        rm_ := SimpleResourceManager.unassign s.targetMachine_ s.rm_ c mn b
        prologRM_ := s.prologRM_.map (fun p =>
          SimpleResourceManager.unassign s.targetMachine_ p (c + PROLOG_CYCLE_BIAS) mn b) }

/-- Modelled from the spec: the body of `BF2Scheduler::nodeKilled` (declared at
BF2Scheduler.hh line 123, defined in BF2Scheduler.cc, which is not among the sources).
The removal of the node is recorded among the nodes whose copy is kept (§4.1, §4.4). -/
def nodeKilled (s : BF2Scheduler) (mn : Nat) : BF2Scheduler :=
  { s with removedMoves_ := insert mn s.removedMoves_ }

/-- Modelled from the spec: the body of `BF2Scheduler::nodeAndCopyKilled` (declared at
BF2Scheduler.hh line 125, defined in BF2Scheduler.cc, which is not among the sources).
The removal of the node is recorded among the nodes removed together with their
copy (§4.4). -/
def nodeAndCopyKilled (s : BF2Scheduler) (mn : Nat) : BF2Scheduler :=
  { s with dreRemovedMoves_ := insert mn s.dreRemovedMoves_ }

/-- Modelled from the spec: the body of `BF2Scheduler::nodeResurrected` (declared at
BF2Scheduler.hh line 124, defined in BF2Scheduler.cc, which is not among the sources).
A removed node is un-removed on rollback (§4.1): its record is dropped from the
bookkeeping. -/
def nodeResurrected (s : BF2Scheduler) (mn : Nat) : BF2Scheduler :=
  { s with
    dreRemovedMoves_ := s.dreRemovedMoves_.erase mn
    removedMoves_ := s.removedMoves_.erase mn }

/-- Modelled from the spec: the node is recorded as removed, with or without its
copy (§4.4). `BF2Scheduler.cc` is not among the sources. -/
def isRemoved (s : BF2Scheduler) (mn : Nat) : Bool :=
  decide (mn ∈ s.dreRemovedMoves_) || decide (mn ∈ s.removedMoves_)

/-- Modelled from the spec: the two removed-node sets have no node in common
(§4.4 "track separately"). `BF2Scheduler.cc` is not among the sources. -/
def RemovedDisjoint (s : BF2Scheduler) : Prop :=
  ∀ mn, ¬ (mn ∈ s.dreRemovedMoves_ ∧ mn ∈ s.removedMoves_)

/-- Modelled from the spec: removal of a dead result move (§4.4 "Dead-result
elimination"): the node leaves the graph, together with its register-allocating copy
unless that is preserved, and the removal is recorded in the set that says which of
the two it was. `BF2Scheduler.cc` is not among the sources. -/
def kill (s : BF2Scheduler) (id : Nat) (copyToo : Bool) : BF2Scheduler :=
  if copyToo = true then
    nodeAndCopyKilled
      { s with
        ddg_ :=
          match copyOf s id with
          | some c => (s.ddg_.dropNode c).dropNode id
          | none => s.ddg_.dropNode id } id
  else
    nodeKilled { s with ddg_ := s.ddg_.dropNode id } id

/-- Modelled from the spec: a removed node is put back on rollback; the bookkeeping
tells whether its copy comes back with it (§4.4 "so a later rollback restores the
correct subset"). `BF2Scheduler.cc` is not among the sources. -/
def resurrect (s : BF2Scheduler) (id : Nat) : BF2Scheduler :=
  if id ∈ s.dreRemovedMoves_ then
    nodeResurrected
      { s with
        ddg_ :=
          match copyOf s id with
          | some c => (s.ddg_.restoreNode id).restoreNode c
          | none => s.ddg_.restoreNode id } id
  else
    nodeResurrected { s with ddg_ := s.ddg_.restoreNode id } id

/-- Modelled from the spec: the constraint of one edge on the cycles of its two
ends (§3): an ordinary edge wants `cycle(tail) + latency ≤ cycle(head)`; a loop-carried
edge is no ordinary precedence and constrains loop scheduling only, where the head
belongs to the next iteration, one initiation interval later. `DataDependenceGraph`
is not among the sources. -/
def edgeOK (ii : Int) (e : DataDependenceEdge) (ct ch : Int) : Bool :=
  if e.loopCarried = true then decide (0 < ii → ct + e.latency ≤ ch + ii)
  else decide (ct + e.latency ≤ ch)

/-- Modelled from the spec: the edge is respected by a cycle assignment; it asks
nothing while one of its ends has no cycle (§3). `DataDependenceGraph` is not among
the sources. -/
def edgeHolds (ii : Int) (cyc : Nat → Option Int) (e : DataDependenceEdge) : Bool :=
  match cyc e.tail, cyc e.head with
  | some ct, some ch => edgeOK ii e ct ch
  | _, _ => true

/-- Modelled from the spec: the cycle assignment of the graph with move `id` placed
in cycle `c` (§4.4 `TryPlace`). `BF2Scheduler.cc` is not among the sources. -/
def cycleWith (s : BF2Scheduler) (id : Nat) (c : Int) (x : Nat) : Option Int :=
  if x = id then some c else s.ddg_.cycleOf x

/-- Modelled from the spec: cycle `c` for move `id` is consistent with the
dependence graph: every edge at the move is respected by the committed placements
of its neighbours (§4.4 `TryPlace`, "refuse cycles that would violate
already-committed placements"). `BF2Scheduler.cc` is not among the sources. -/
def depsAllow (s : BF2Scheduler) (id : Nat) (c : Int) : Bool :=
  decide (∀ e ∈ s.ddg_.edges, (e.tail = id ∨ e.head = id) →
    edgeHolds s.rm_.initiationInterval (cycleWith s id c) e = true)

/-- Modelled from the spec: cycle `c` for the move respects the operation it belongs
to: a trigger is not placed before a committed operand move of its operation and an
operand move not after the committed trigger (§3, §4.4 `TryPlace`).
`BF2Scheduler.cc` is not among the sources. -/
def triggerAllow (s : BF2Scheduler) (mn : MoveNode) (c : Int) : Bool :=
  s.ddg_.nodes.all (fun o =>
    match o.placement with
    | none => true
    | some (co, _) =>
      !(decide (o.po = mn.po) && decide (mn.po ≠ none)) ||
        ((!(mn.triggers s.targetMachine_ && o.isOperand s.targetMachine_) || decide (co ≤ c)) &&
          (!(mn.isOperand s.targetMachine_ && o.triggers s.targetMachine_) || decide (c ≤ co))))

/-- Modelled from the spec: the placement keeps off the function-unit ports that are
reserved for a loop-invariant operand of another move across the loop body (§4.4
"Operand pre-allocation / sharing"). `BF2Scheduler.cc` is not among the sources. -/
def sharedAllow (s : BF2Scheduler) (mn : MoveNode) (c : Int) (b : Nat) : Bool :=
  s.preLoopSharedOperands_.all (fun op =>
    decide (op.1 = mn.id) ||
      (neededResources s.targetMachine_ mn c b).all (fun cr => decide (cr.2 ≠ Resource.port op.2)))

/-- Modelled from the spec: the checks of a commit (§4.2, §4.4, §7): the move is in
the graph and unscheduled, the cycle is in the window, the bus connects the units and
everything the move needs is idle, in the ledger and for the prolog copy in the prolog
ledger, no shared port is taken, and the cycle is consistent with the dependence graph
and the operation. `BF2Scheduler.cc` is not among the sources. -/
def canCommit (s : BF2Scheduler) (id : Nat) (c : Int) (b : Nat) : Bool :=
  match s.ddg_.node id with
  | none => false
  | some mn =>
    s.ddg_.nodes.all (fun n => decide (n.id ≠ id) || n.placement.isNone) &&
      s.ddg_.isActive id &&
      decide (s.minCycle_ ≤ c) && decide (c ≤ s.latestCycle_) &&
      feasibleOn s.targetMachine_ s.rm_ c mn b &&
      (match s.prologRM_ with
       | none => true
       | some p => feasibleOn s.targetMachine_ p (c + PROLOG_CYCLE_BIAS) mn b) &&
      sharedAllow s mn c b && depsAllow s id c && triggerAllow s mn c

/-- Modelled from the spec: the checks of a revert (§4.2, §7): the move is committed
and the ledgers record it as the occupant of what it needs. `BF2Scheduler.cc` is not
among the sources. -/
def canRevert (s : BF2Scheduler) (id : Nat) : Bool :=
  match s.ddg_.node id with
  | none => false
  | some mn =>
    match mn.placement with
    | none => false
    | some (c, b) =>
      s.ddg_.nodes.all (fun n => decide (n.id ≠ id) || decide (n.placement = some (c, b))) &&
        holds s.targetMachine_ s.rm_ c mn b &&
        (match s.prologRM_ with
         | none => true
         | some p => holds s.targetMachine_ p (c + PROLOG_CYCLE_BIAS) mn b)

/-- Modelled from the spec: the checks of a removal (§4.1, §4.4, §9): the node is in
the graph, not recorded as removed and not scheduled, and so is its copy when that
goes with it. `BF2Scheduler.cc` is not among the sources. -/
def canKill (s : BF2Scheduler) (id : Nat) (copyToo : Bool) : Bool :=
  match s.ddg_.node id with
  | none => false
  | some mn =>
    s.ddg_.nodes.all (fun n => decide (n.id ≠ id) || n.placement.isNone) &&
      s.ddg_.isActive id && !s.isRemoved id &&
      (!copyToo ||
        (match mn.regCopy with
         | none => true
         | some c => s.ddg_.isActive c && decide (c ≠ id) && (s.ddg_.cycleOf c).isNone))

/-- Modelled from the spec: the checks of a new edge: it is not in the graph and the
committed placements respect it (§4.4 "refuse cycles that would violate
already-committed placements"). `BF2Scheduler.cc` is not among the sources. -/
def canAddEdge (s : BF2Scheduler) (e : DataDependenceEdge) : Bool :=
  decide (e ∉ s.ddg_.edges) && edgeHolds s.rm_.initiationInterval s.ddg_.cycleOf e

/-- Modelled from the spec: the terminals of a move change only while it is not
committed (§4.2: the reservations of a committed move are those of its terminals).
`BF2Scheduler.cc` is not among the sources. -/
def canRetarget (s : BF2Scheduler) (id : Nat) (same : MoveNode → MoveNode → Bool) : Bool :=
  match s.ddg_.node id with
  | none => false
  | some mn =>
    s.ddg_.nodes.all (fun n => decide (n.id ≠ id) || (n.placement.isNone && same mn n))

/-- Modelled from the spec: the checks of a port reservation across the loop body
(§4.4 "Operand pre-allocation / sharing"): the port is not reserved yet and no
committed move of another operand or operation occupies it.
`BF2Scheduler.cc` is not among the sources. -/
def canShare (s : BF2Scheduler) (id port : Nat) : Bool :=
  (s.ddg_.node id).isSome &&
    s.preLoopSharedOperands_.all (fun op => decide (op.2 ≠ port)) &&
    s.ddg_.nodes.all (fun n =>
      decide (n.id = id) ||
        (match n.placement with
         | none => true
         | some (c, b) =>
           (neededResources s.targetMachine_ n c b).all
             (fun cr => decide (cr.2 ≠ Resource.port port))))

/-- Modelled from the spec: the checks of a renaming (§4.5): the temporary register
is free and the move is not committed. `BF2Scheduler.cc` is not among the sources. -/
def canRename (s : BF2Scheduler) (id reg : Nat) : Bool :=
  decide (reg ∈ s.renamer_) && canRetarget s id (fun a n => decide (n.dstReg = a.dstReg))

/-- Modelled from the spec: one mutation of an operator together with the entry of
the undo record that reverses it; `none` when a check of the mutation fails (§4.4,
§7). `BF2Scheduler.cc` is not among the sources. -/
def applyMutation (s : BF2Scheduler) : Mutation → Option (BF2Scheduler × Undo)
  | Mutation.assign id c b =>
    if canCommit s id c b = true then some (assign s id c b, Undo.unassign id) else none
  | Mutation.unassign id =>
    match placementOf s id with
    | none => none
    | some (c, b) =>
      if canRevert s id = true then some (unassign s id, Undo.assign id c b) else none
  | Mutation.kill id copyToo =>
    if canKill s id copyToo = true then some (kill s id copyToo, Undo.resurrect id) else none
  | Mutation.removeEdge e =>
    if e ∈ s.ddg_.edges then
      some ({ s with ddg_ := { s.ddg_ with edges := s.ddg_.edges.erase e } }, Undo.insertEdge e)
    else none
  | Mutation.addEdge e =>
    if canAddEdge s e = true then
      some ({ s with ddg_ := { s.ddg_ with edges := insert e s.ddg_.edges } }, Undo.eraseEdge e)
    else none
  | Mutation.setSource id unit =>
    match s.ddg_.node id with
    | none => none
    | some mn =>
      if canRetarget s id (fun a n => decide (n.srcUnit = a.srcUnit)) = true then
        some ({ s with ddg_ := s.ddg_.modify id (fun n => { n with srcUnit := unit }) },
          Undo.source id mn.srcUnit)
      else none
  | Mutation.setDestination id unit port =>
    match s.ddg_.node id with
    | none => none
    | some mn =>
      if canRetarget s id
          (fun a n => decide (n.dstUnit = a.dstUnit) && decide (n.dstPort = a.dstPort)) = true then
        some ({ s with
                ddg_ := s.ddg_.modify id (fun n => { n with dstUnit := unit, dstPort := port }) },
          Undo.destination id mn.dstUnit mn.dstPort)
      else none
  | Mutation.sharePort id port =>
    if canShare s id port = true then
      some ({ s with preLoopSharedOperands_ := (id, port) :: s.preLoopSharedOperands_ },
        Undo.unshare id port)
    else none
  | Mutation.rename id reg =>
    match s.ddg_.node id with
    | none => none
    | some mn =>
      if canRename s id reg = true then
        some ({ s with
                ddg_ := s.ddg_.modify id (fun n => { n with dstReg := some reg })
                renamer_ := s.renamer_.erase reg },
          Undo.unrename id mn.dstReg reg)
      else none

/-- Modelled from the spec: reversal of one entry of an undo record (§4.4 "the
Driver pops and reverses records"). `BF2Scheduler.cc` is not among the sources. -/
def revertUndo (s : BF2Scheduler) : Undo → BF2Scheduler
  | Undo.unassign id => unassign s id
  | Undo.assign id c b => assign s id c b
  | Undo.resurrect id => resurrect s id
  | Undo.insertEdge e => { s with ddg_ := { s.ddg_ with edges := insert e s.ddg_.edges } }
  | Undo.eraseEdge e => { s with ddg_ := { s.ddg_ with edges := s.ddg_.edges.erase e } }
  | Undo.source id unit =>
    { s with ddg_ := s.ddg_.modify id (fun n => { n with srcUnit := unit }) }
  | Undo.destination id unit port =>
    { s with ddg_ := s.ddg_.modify id (fun n => { n with dstUnit := unit, dstPort := port }) }
  | Undo.unshare id port =>
    { s with preLoopSharedOperands_ := s.preLoopSharedOperands_.erase (id, port) }
  | Undo.unrename id old reg =>
    { s with
      ddg_ := s.ddg_.modify id (fun n => { n with dstReg := old })
      renamer_ := insert reg s.renamer_ }

/-- Modelled from the spec: the mutations of an operator, one after the other, the
undo record accumulated most recent first; the flag is `false` and the run stops at
the first mutation whose check fails. `BF2Scheduler.cc` is not among the sources. -/
def applyMutations : List Mutation → BF2Scheduler → List Undo → Bool × BF2Scheduler × List Undo
  | [], s, acc => (true, s, acc)
  | m :: ms, s, acc =>
    match applyMutation s m with
    | none => (false, s, acc)
    | some (s1, u) => applyMutations ms s1 (u :: acc)

/-- Modelled from the spec: application of an operator (§4.4, §5): when all its
mutations succeed its undo record is pushed on the optimisation stack; when one fails
the mutations done so far are reversed before control returns and the operator has
declined. `BF2Scheduler.cc` is not among the sources. -/
def applyOpt (kind : OptKind) (ms : List Mutation) (s : BF2Scheduler) : Bool × BF2Scheduler :=
  match applyMutations ms s [] with
  | (true, s1, log) =>
    (true, { s1 with scheduledStack_ := { kind := kind, undo := log } :: s.scheduledStack_ })
  | (false, s1, log) => (false, log.foldl revertUndo s1)

/-- Modelled from the spec: `revertTopOpt` (BF2Scheduler.hh line 273): pop the
top operator of the stack and reverse its record (§4.4).
`BF2Scheduler.cc` is not among the sources. -/
def revertTopOpt (s : BF2Scheduler) : BF2Scheduler :=
  match s.scheduledStack_ with
  | [] => s
  | opt :: rest => { opt.undo.foldl revertUndo s with scheduledStack_ := rest }

/-- Modelled from the spec: `n` times `revertTopOpt`, in stack order.
`BF2Scheduler.cc` is not among the sources. -/
def revertTopOpts : Nat → BF2Scheduler → BF2Scheduler
  | 0, s => s
  | n + 1, s => revertTopOpts n (revertTopOpt s)

/-- Modelled from the spec: `unschedule` (BF2Scheduler.hh line 217), the
rollback boundary of a unit: every operator of the stack is reverted (§3).
`BF2Scheduler.cc` is not among the sources. -/
def unschedule (s : BF2Scheduler) : BF2Scheduler :=
  revertTopOpts s.scheduledStack_.length s

/-- Modelled from the spec: `finalizeSchedule` (BF2Scheduler.hh line 215), the
commit boundary of a unit: the undo records are dropped (§3, §6).
`BF2Scheduler.cc` is not among the sources. -/
def finalizeSchedule (s : BF2Scheduler) : BF2Scheduler :=
  { s with scheduledStack_ := [] }

end BF2Scheduler

namespace BF2Scheduler

/-- Modelled from the spec: one decision of the driver (§4.4): an operator with its
mutations (the placement of a move, `TryPlace`, is the operator `scheduleMove`; the
local optimisations are the other operators), or the rollback of the operator on top
of the stack. `BF2Scheduler.cc` is not among the sources. -/
inductive Action where
  | opt (kind : OptKind) (ms : List Mutation)
  | revertTopOpt
  deriving DecidableEq, Repr

/-- The heuristics of `BF2Scheduler.cc`, which is not among the sources: the next
decision of the driver in a state, `none` when the driver stops, and a bound on the
number of decisions taken for one unit. -/
structure Policy where
  next : BF2Scheduler → Option Action
  budget : Nat

/-- Modelled from the spec: the driver carries out a decision (§4.4): an operator
whose checks fail has declined and leaves nothing behind (`RolledBack`), else it is
on the stack (`Committed`, `Accepted`). `BF2Scheduler.cc` is not among the sources. -/
def perform (s : BF2Scheduler) : Action → BF2Scheduler
  | Action.opt kind ms => (applyOpt kind ms s).2
  | Action.revertTopOpt => revertTopOpt s

/-- Modelled from the spec: the control loop of §4.4: decisions are taken and
carried out until the policy stops. `BF2Scheduler.cc` is not among the sources. -/
def scheduleLoop (next : BF2Scheduler → Option Action) : Nat → BF2Scheduler → BF2Scheduler
  | 0, s => s
  | n + 1, s =>
    match next s with
    | none => s
    | some a => scheduleLoop next n (perform s a)

/-- Modelled from the spec: `scheduleDDG` (BF2Scheduler.hh line 88): the control
loop; the flag is `true` for `Done`, every move of the graph scheduled, and `false`
for `Failed` (§4.4). `BF2Scheduler.cc` is not among the sources. -/
def scheduleDDG (policy : Policy) (s : BF2Scheduler) : Bool × BF2Scheduler :=
  ((scheduleLoop policy.next policy.budget s).ddg_.allScheduled,
    scheduleLoop policy.next policy.budget s)

/-- Modelled from the spec: the end of both entry points: the schedule length
is the result; a failed unit and a test-only run are rolled back with
`unschedule`, otherwise the schedule is committed with `finalizeSchedule`
(§3, §4.4, §5). A failure is reported as `-1`. `BF2Scheduler.cc` is not among the sources. -/
def finish (r : Bool × BF2Scheduler) (testOnly : Bool) : Int × BF2Scheduler :=
  if r.1 = true then
    if testOnly = true then (r.2.ddg_.scheduleLength, unschedule r.2)
    else (r.2.ddg_.scheduleLength, finalizeSchedule r.2)
  else (-1, unschedule r.2)

/-- Modelled from the spec: the state in which `handleDDG` starts the control loop:
the arguments are taken over and the optimisation stack is empty.
`BF2Scheduler.cc` is not among the sources. -/
def startState (self : BF2Scheduler) (ddg : DataDependenceGraph) (rm : SimpleResourceManager)
    (targetMachine : Machine) (minCycle : Int) : BF2Scheduler :=
  { self with
    ddg_ := ddg, rm_ := rm, prologRM_ := none, targetMachine_ := targetMachine
    minCycle_ := minCycle, tripCount_ := 0, scheduledStack_ := [] }

/-- Modelled from the spec: `handleDDG(ddg, rm, targetMachine, minCycle,
testOnly)` (BF2Scheduler.hh lines 83-86), the entry point for a basic block.
The returned state holds the graph and the ledger as the call leaves them.
`BF2Scheduler.cc` is not among the sources. -/
def handleDDG (self : BF2Scheduler) (policy : Policy) (ddg : DataDependenceGraph)
    (rm : SimpleResourceManager) (targetMachine : Machine) (minCycle : Int)
    (testOnly : Bool) : Int × BF2Scheduler :=
  finish (scheduleDDG policy (startState self ddg rm targetMachine minCycle)) testOnly

/-- Modelled from the spec: the state in which `handleLoopDDG` starts the control
loop. `BF2Scheduler.cc` is not among the sources. -/
def loopStartState (self : BF2Scheduler) (ddg : DataDependenceGraph)
    (rm : SimpleResourceManager) (targetMachine : Machine) (tripCount : Int)
    (prologRM : Option SimpleResourceManager) : BF2Scheduler :=
  { self with
    ddg_ := ddg, rm_ := rm, prologRM_ := prologRM, targetMachine_ := targetMachine
    minCycle_ := 0, tripCount_ := tripCount, scheduledStack_ := [] }

/-- Modelled from the spec: the number of iterations whose moves overlap the first
one in the schedule of a loop body (§4.4 "software pipelining"): the largest cycle
in initiation intervals. `BF2Scheduler.cc` is not among the sources. -/
def overlapCount (s : BF2Scheduler) : Int :=
  if 0 < s.rm_.initiationInterval then s.ddg_.largestCycle / s.rm_.initiationInterval else 0

/-- Modelled from the spec: the test "is this body safe to overlap" of §4.4: the
loop runs more iterations than the schedule overlaps. `BF2Scheduler.cc` is not among
the sources. -/
def safeToOverlap (s : BF2Scheduler) : Bool :=
  decide (overlapCount s < s.tripCount_)

/-- Modelled from the spec: `handleLoopDDG(ddg, rm, targetMachine, tripCount,
prologRM, testOnly)` (BF2Scheduler.hh lines 95-98), the entry point for a loop
body with its prolog (§4.4 "Loop scheduling"). The test whether the body is safe to
overlap is skipped in test-only mode; a body that fails it is treated as a failed
unit. `BF2Scheduler.cc` is not among the sources. -/
def handleLoopDDG (self : BF2Scheduler) (policy : Policy) (ddg : DataDependenceGraph)
    (rm : SimpleResourceManager) (targetMachine : Machine) (tripCount : Int)
    (prologRM : Option SimpleResourceManager) (testOnly : Bool) : Int × BF2Scheduler :=
  let r := scheduleDDG policy (loopStartState self ddg rm targetMachine tripCount prologRM)
  finish (r.1 && (testOnly || safeToOverlap r.2), r.2) testOnly

end BF2Scheduler

/-! ### Properties of ledgers, graphs and scheduler states -/

namespace BF2Scheduler

open SimpleResourceManager DataDependenceGraph

/-- The moves of the graph have distinct identifiers (§9 "stable identifiers"). -/
def DistinctIds (s : BF2Scheduler) : Prop :=
  (s.ddg_.nodes.map MoveNode.id).Nodup

/-- The ledger `rm`, read `shift` cycles later, records every committed move as the
occupant of everything it needs (§3 ledger). -/
def Records (s : BF2Scheduler) (shift : Int) (rm : SimpleResourceManager) : Prop :=
  ∀ n ∈ s.ddg_.nodes, ∀ c b, n.placement = some (c, b) →
    ∀ cr ∈ neededResources s.targetMachine_ n (c + shift) b, rm.cell cr.1 cr.2 = some n.id

/-- No committed move occupies a port that is reserved across the loop body for an
operand of another move (§4.4). -/
def SharedOK (s : BF2Scheduler) : Prop :=
  ∀ op ∈ s.preLoopSharedOperands_, ∀ n ∈ s.ddg_.nodes, n.id ≠ op.1 →
    ∀ c b, n.placement = some (c, b) →
      ∀ cr ∈ neededResources s.targetMachine_ n c b, cr.2 ≠ Resource.port op.2

/-- Ledger and graph fit together: distinct identifiers, every committed move
recorded in the ledger and, in loop scheduling, its prolog copy in the prolog
ledger, and the shared ports respected. -/
def LedgerOK (s : BF2Scheduler) : Prop :=
  DistinctIds s ∧ Records s 0 s.rm_ ∧
    (∀ p, s.prologRM_ = some p → Records s PROLOG_CYCLE_BIAS p) ∧ SharedOK s

/-- No committed operand move is later than the committed trigger of its operation
(§3, §8 "Trigger-after-operands"). -/
def TriggerOK (s : BF2Scheduler) : Prop :=
  ∀ t ∈ s.ddg_.nodes, ∀ o ∈ s.ddg_.nodes, t.po = o.po → t.po ≠ none →
    s.isTrigger (s.getDstUnit t) t = true → o.isOperand s.targetMachine_ = true →
    ∀ ct bt co bo, t.placement = some (ct, bt) → o.placement = some (co, bo) → co ≤ ct

/-- Two committed moves never need the same resource in the same cycle, and no
committed move needs a port that is reserved for another move across the loop body
(§8 "Resource exclusivity"). -/
def ScheduleExclusive (s : BF2Scheduler) : Prop :=
  (∀ a ∈ s.ddg_.nodes, ∀ b ∈ s.ddg_.nodes, a.id ≠ b.id →
    ∀ ca ba cb bb, a.placement = some (ca, ba) → b.placement = some (cb, bb) →
      ∀ cr ∈ neededResources s.targetMachine_ a ca ba,
        cr ∉ neededResources s.targetMachine_ b cb bb) ∧
  SharedOK s

/-- What resource exclusivity says of two committed moves `a` and `b` on the machine
(§4.2): in the same cycle they are on different buses and write different ports; two
triggers of the same function unit are in different cycles; while the operation of a
trigger is in flight no other move writes its result port, and the result windows of
two triggers with the same result port do not overlap. -/
def NoCollision (s : BF2Scheduler) : Prop :=
  ∀ a ∈ s.ddg_.nodes, ∀ b ∈ s.ddg_.nodes, a.id ≠ b.id →
    ∀ ca ba cb bb, a.placement = some (ca, ba) → b.placement = some (cb, bb) →
      (ca = cb → ba ≠ bb ∧ a.dstPort ≠ b.dstPort) ∧
      (a.triggers s.targetMachine_ = true → b.triggers s.targetMachine_ = true →
        a.dstUnit = b.dstUnit → ca ≠ cb) ∧
      (a.triggers s.targetMachine_ = true → ca ≤ cb → cb < ca + (a.latency : Int) →
        b.dstPort ≠ a.resultPort) ∧
      (a.triggers s.targetMachine_ = true → b.triggers s.targetMachine_ = true →
        a.resultPort = b.resultPort → 0 < b.latency → ca ≤ cb → cb < ca + (a.latency : Int) →
        False)

/-- The property holds in the state and in every state that a rollback of operators
of the stack leads to. -/
def Hist (P : BF2Scheduler → Prop) (s : BF2Scheduler) : Prop :=
  ∀ k, P (revertTopOpts k s)

/-- A property of the state that does not look at the optimisation stack. -/
def StackFree (P : BF2Scheduler → Prop) : Prop :=
  ∀ s k, P { s with scheduledStack_ := k } ↔ P s

/-- A property that every mutation whose checks pass keeps. -/
def Kept (P : BF2Scheduler → Prop) : Prop :=
  ∀ s m s1 u, P s → applyMutation s m = some (s1, u) → P s1

/-- A rollback of the whole stack leads to the state `s0`. -/
def RollsBackTo (s0 s : BF2Scheduler) : Prop :=
  revertTopOpts s.scheduledStack_.length s = s0

/-- Several operators applied in order, each with its mutations. -/
def applyOpts : List (OptKind × List Mutation) → BF2Scheduler → BF2Scheduler
  | [], s => s
  | o :: os, s => applyOpts os (applyOpt o.1 o.2 s).2

end BF2Scheduler

/-! ### The operators declared in `BFPushMoveUp.hh` and `BFRescheduleResultsClose.hh` -/

namespace BF2Scheduler

open SimpleResourceManager DataDependenceGraph

/-- Modelled from the spec: search downwards from `c` for a cycle of the window and a
bus that pass the checks of a commit (§4.2 "latest feasible cycle ≤ Y", §4.4
`TryPlace`). `BF2Scheduler.cc` is not among the sources. -/
def latestCommitBelow (s : BF2Scheduler) (id : Nat) : Nat → Int → Option (Int × Nat)
  | 0, _ => none
  | fuel + 1, c =>
    if c < s.minCycle_ then none
    else
      match s.targetMachine_.buses.find? (fun b => canCommit s id c b) with
      | some b => some (c, b)
      | none => latestCommitBelow s id fuel (c - 1)

/-- Modelled from the spec: search upwards from `c` for a cycle not above `hi` and a
bus that pass the checks of a commit (§4.2 "earliest feasible cycle ≥ X", §4.4
`TryPlace`). `BF2Scheduler.cc` is not among the sources. -/
def earliestCommitAbove (s : BF2Scheduler) (id : Nat) (hi : Int) :
    Nat → Int → Option (Int × Nat)
  | 0, _ => none
  | fuel + 1, c =>
    if hi < c then none
    else
      match s.targetMachine_.buses.find? (fun b => canCommit s id c b) with
      | some b => some (c, b)
      | none => earliestCommitAbove s id hi fuel (c + 1)

/-- Modelled from the spec: the plans of several moves one after the other, each on
the state the one before has left; `none` when one of them fails.
`BF2Scheduler.cc` is not among the sources. -/
def planAll (plan : BF2Scheduler → Nat → Option (List Mutation × BF2Scheduler))
    (ids : List Nat) (start : List Mutation × BF2Scheduler) :
    Option (List Mutation × BF2Scheduler) :=
  ids.foldl
    (fun acc id =>
      match acc with
      | none => none
      | some (ms, st) =>
        match plan st id with
        | none => none
        | some (ms1, st1) => some (ms ++ ms1, st1))
    (some start)

/-- Modelled from the spec: `swapToUntrigger(po, op, operandIndex, trig)`
(BF2Scheduler.hh lines 271-273), with the operand given by its move: the operand move
and the trigger of an operation exchange their destinations, so that the operand move
becomes the trigger. `BF2Scheduler.cc` is not among the sources. -/
def swapToUntrigger (s : BF2Scheduler) (operand trig : Nat) : Bool × BF2Scheduler :=
  match s.ddg_.node operand, s.ddg_.node trig with
  | some o, some t =>
    applyOpt OptKind.swapToUntrigger
      [Mutation.setDestination operand t.dstUnit t.dstPort,
        Mutation.setDestination trig o.dstUnit o.dstPort] s
  | _, _ => (false, s)

end BF2Scheduler

/-- Source: `BFPushMoveUp` (BFPushMoveUp.hh lines 48-56): the operator is constructed
for a move `mn` with a latest cycle `lc`. -/
structure BFPushMoveUp where
  mn : Nat
  lc_ : Int
  deriving DecidableEq, Repr

namespace BFPushMoveUp

open BF2Scheduler

/-- Modelled from the spec: the scheduled producers of move `id`, the tails of the
ordinary edges into it (§4.1 predecessors). `BFPushMoveUp.cc` is not among the
sources. -/
def producers (s : BF2Scheduler) (id : Nat) : List Nat :=
  (s.ddg_.nodes.filter (fun p =>
    p.isScheduled && s.ddg_.isActive p.id &&
      decide (∃ e ∈ s.ddg_.edges, e.tail = p.id ∧ e.head = id ∧ e.loopCarried = false))).map
    MoveNode.id

/-- Modelled from the spec: the latest cycle of producer `p` that lets move `id` be in
cycle `lc`: `lc` less the largest latency of an ordinary edge from `p` to `id` (§3).
`BFPushMoveUp.cc` is not among the sources. -/
def producerBound (s : BF2Scheduler) (p id : Nat) (lc : Int) : Int :=
  lc - ((s.ddg_.edges.filter
    (fun e => e.tail = p ∧ e.head = id ∧ e.loopCarried = false)).sup
      (fun e => e.latency.toNat) : Nat)

/-- Modelled from the spec: the mutations of the operator, with the state they lead
to (header comment of BFPushMoveUp.hh: "Tries to (recursively) reschedule move (and
it's predecessors) into earlier cycle"): a move that is later than `lc` is taken out
of its cycle, its scheduled producers are pushed up as far as its edges ask, and the
move is committed in the latest cycle not above `lc` that passes the checks; `none`
when a step fails. `BFPushMoveUp.cc` is not among the sources. -/
def plan : Nat → BF2Scheduler → Nat → Int → Option (List Mutation × BF2Scheduler)
  | 0, _, _, _ => none
  | fuel + 1, s, id, lc =>
    match placementOf s id with
    | none => none
    | some (c, _) =>
      if c ≤ lc then some ([], s)
      else
        match applyMutation s (Mutation.unassign id) with
        | none => none
        | some (s1, _) =>
          match planAll (fun st p => plan fuel st p (producerBound s p id lc))
              (producers s id) ([Mutation.unassign id], s1) with
          | none => none
          | some (ms, st) =>
            match latestCommitBelow st id (lc - st.minCycle_ + 1).toNat lc with
            | none => none
            | some (c1, b1) =>
              match applyMutation st (Mutation.assign id c1 b1) with
              | none => none
              | some (st1, _) => some (ms ++ [Mutation.assign id c1 b1], st1)

/-- Modelled from the spec: `BFPushMoveUp::operator()` (BFPushMoveUp.hh line 53): the
operator is applied with its undo record, or has declined and leaves the state as it
was (§4.4). `BFPushMoveUp.cc` is not among the sources. -/
def call (op : BFPushMoveUp) (s : BF2Scheduler) : Bool × BF2Scheduler :=
  match plan (s.ddg_.nodes.length + 1) s op.mn op.lc_ with
  | none => (false, s)
  | some (ms, _) => applyOpt OptKind.pushMoveUp ms s

end BFPushMoveUp

/-- Source: `BFRescheduleResultsClose` (BFRescheduleResultsClose.hh lines 48-58): the
operator is constructed for a program operation `po`. -/
structure BFRescheduleResultsClose where
  po_ : Nat
  deriving DecidableEq, Repr

namespace BFRescheduleResultsClose

open BF2Scheduler

/-- Modelled from the spec: the trigger of the operation is committed (header comment
of BFRescheduleResultsClose.hh: "After scheduling a trigger of operation").
`BFRescheduleResultsClose.cc` is not among the sources. -/
def triggerCommitted (s : BF2Scheduler) (po : Nat) : Bool :=
  s.ddg_.nodes.any (fun t =>
    decide (t.po = some po) && s.isTrigger (s.getDstUnit t) t && t.isScheduled)

/-- Modelled from the spec: the committed result moves of the operation.
`BFRescheduleResultsClose.cc` is not among the sources. -/
def results (s : BF2Scheduler) (po : Nat) : List Nat :=
  (s.ddg_.nodes.filter (fun n =>
    decide (n.po = some po) && decide (n.kind = MoveKind.result) && n.isScheduled &&
      s.ddg_.isActive n.id)).map MoveNode.id

/-- Modelled from the spec: one result move is taken out of its cycle and committed
in the earliest cycle not above its old one that passes the checks, the cycle nearest
to the trigger (header comment: "Calls BFScheduleResultClose for each result move").
`BFScheduleResultClose` is not among the sources. -/
def resultPlan (s : BF2Scheduler) (id : Nat) : Option (List Mutation × BF2Scheduler) :=
  match placementOf s id with
  | none => none
  | some (c, _) =>
    match applyMutation s (Mutation.unassign id) with
    | none => none
    | some (s1, _) =>
      match earliestCommitAbove s1 id c (c - s1.minCycle_ + 1).toNat s1.minCycle_ with
      | none => none
      | some (c1, b1) =>
        match applyMutation s1 (Mutation.assign id c1 b1) with
        | none => none
        | some (s2, _) => some ([Mutation.unassign id, Mutation.assign id c1 b1], s2)

/-- Modelled from the spec: `BFRescheduleResultsClose::operator()`
(BFRescheduleResultsClose.hh line 56; header comment: "try to reschedule it's results
closer to operands into more optimal position"): the operator is applied with its undo
record, or has declined and leaves the state as it was (§4.4).
`BFRescheduleResultsClose.cc` is not among the sources. -/
def call (op : BFRescheduleResultsClose) (s : BF2Scheduler) : Bool × BF2Scheduler :=
  if triggerCommitted s op.po_ = true then
    match planAll resultPlan (results s op.po_) ([], s) with
    | none => (false, s)
    | some (ms, _) => applyOpt OptKind.rescheduleResultsClose ms s
  else (false, s)

end BFRescheduleResultsClose

/-! ### `LLVMTCEPOMBuilder.cc`: terminals and trigger moves

The LLVM target tables, `TCEString::split`, `Conversion::toInt`, the machine
navigators and the base class `LLVMTCEBuilder` are not among the sources; the
functions below take them as parameters. -/

namespace LLVMTCEPOMBuilder

/-- The two ways `createFUTerminal` builds a `TerminalFUPort`: from a port alone, or
from a hardware operation and the operand index of the port in it. -/
inductive TerminalFUPort where
  | ofPort (fuPort : Nat)
  | ofOperation (hwOp : Nat) (io : Int)
  deriving DecidableEq, Repr

/-- A look-up in the machine made by `createFUTerminal`. -/
inductive Lookup where
  | functionUnit (fuName : String)
  | port (fu : Nat) (portName : String)
  | operation (fu : Nat) (operationName : String)
  deriving DecidableEq, Repr

/-- What `createFUTerminal` uses and the sources do not define. A failing call
(an exception that is not caught) is an `Except.error`; a `NULL` pointer is `none`. -/
structure FUTerminalEnv where
  /-- Member `TCEString::split(delim)`. -/
  split : String → String → List String
  /-- Function `Conversion::toInt`; `none` when it throws an `Exception`. -/
  toInt : String → Option Int
  /-- Call `mach_->functionUnitNavigator().item(fuName)`. -/
  functionUnit : String → Except String (Option Nat)
  /-- Call `dynamic_cast<TTAMachine::FUPort*>(fu->port(portName))`. -/
  port : Nat → String → Except String (Option Nat)
  /-- Call `fuPort->isTriggering()`. -/
  isTriggering : Nat → Bool
  /-- Call `*fu->operation(operationName)`. -/
  operation : Nat → String → Except String Nat
  /-- Call `hwOp.io(*fuPort)`. -/
  io : Nat → Nat → Except String Int

/-- Result of a call of `createFUTerminal`: the machine look-ups it made, in order,
and the returned pointer (`none` is `NULL`) or the failure that ended the call. -/
structure FUTerminalResult where
  lookups : List Lookup
  result : Except String (Option TerminalFUPort)

/-- Source: `LLVMTCEPOMBuilder::createFUTerminal`, lines 158-176: the look-up of the
function unit, of the port and, with an operation name, of the hardware operation. -/
def fuTerminalOf (env : FUTerminalEnv) (fuName portName operationName : String) :
    FUTerminalResult :=
  match env.functionUnit fuName with
  | Except.error e => { lookups := [Lookup.functionUnit fuName], result := Except.error e }
  | Except.ok none =>
    { lookups := [Lookup.functionUnit fuName]
      result := Except.error "Assertion failed: fu != NULL" }
  | Except.ok (some fu) =>
    match env.port fu portName with
    | Except.error e =>
      { lookups := [Lookup.functionUnit fuName, Lookup.port fu portName]
        result := Except.error e }
    | Except.ok none =>
      { lookups := [Lookup.functionUnit fuName, Lookup.port fu portName]
        result := Except.error "Assertion failed: fuPort != NULL" }
    | Except.ok (some fuPort) =>
      if operationName ≠ "" then
        if ¬ env.isTriggering fuPort = true then
          { lookups := [Lookup.functionUnit fuName, Lookup.port fu portName]
            result := Except.error "Assertion failed: fuPort->isTriggering()" }
        else
          match env.operation fu operationName with
          | Except.error e =>
            { lookups := [Lookup.functionUnit fuName, Lookup.port fu portName,
                Lookup.operation fu operationName]
              result := Except.error e }
          | Except.ok hwOp =>
            { lookups := [Lookup.functionUnit fuName, Lookup.port fu portName,
                Lookup.operation fu operationName]
              result := (env.io hwOp fuPort).map
                (fun io => some (TerminalFUPort.ofOperation hwOp io)) }
      else
        { lookups := [Lookup.functionUnit fuName, Lookup.port fu portName]
          result := Except.ok (some (TerminalFUPort.ofPort fuPort)) }

/-- Source: `LLVMTCEPOMBuilder::createFUTerminal` (LLVMTCEPOMBuilder.cc lines 130-177),
from the register name on. `pieces.at(i)` throws when `i` is not an index. -/
def createFUTerminal (env : FUTerminalEnv) (regName : String) : FUTerminalResult :=
  let pieces := env.split regName "_"
  if pieces.length = 2 ∧ ((pieces.get? 1).bind env.toInt).isSome = true then
    { lookups := [], result := Except.ok none }
  else if ¬ pieces.length > 0 then
    { lookups := [], result := Except.error "Assertion failed: pieces.size() > 0" }
  else
    match pieces.get? 0, pieces.get? 1 with
    | some fuName, some portName =>
      let operationName := if pieces.length = 3 then pieces.getD 2 "" else ""
      fuTerminalOf env fuName portName operationName
    | _, _ => { lookups := [], result := Except.error "std::out_of_range" }

/-- Source: `llvm::MachineInstr` as far as `emitMove` reads it: the opcode and the
operands, embedded by their identities. -/
structure MachineInstr where
  opcode : Nat
  operands : List Nat
  deriving DecidableEq, Repr

/-- Modelled from the spec: `TTAProgram::Move` is not among the sources; a move is one
data transport, a source terminal and a destination terminal over a bus (§3). -/
structure Move where
  source : Nat
  destination : Nat
  bus : Nat
  deriving DecidableEq, Repr

/-- Modelled from the spec: `LLVMTCEBuilder::createMove(src, dst, bus)` is not among the
sources; it makes the transport from `src` to `dst` over `bus` (§3). -/
def createMove (src dst bus : Nat) : Move :=
  { source := src, destination := dst, bus := bus }

/-- An instruction: its moves in the order they were added. `TTAProgram::Instruction`
is not among the sources. -/
structure Instruction where
  moves : List Move
  deriving DecidableEq, Repr

/-- Call `instr->addMove(move)`. -/
def Instruction.addMove (instr : Instruction) (move : Move) : Instruction :=
  { moves := instr.moves ++ [move] }

/-- A code snippet: its instructions in order. -/
abbrev CodeSnippet := List Instruction

/-- Call `proc->add(instr)`: the instruction becomes the last one of the snippet. -/
def CodeSnippet.add (proc : CodeSnippet) (instr : Instruction) : CodeSnippet :=
  proc ++ [instr]

/-- What `emitMove` uses and the sources do not define. -/
structure EmitEnv where
  /-- Name of an opcode in the target instruction table, `getInstrInfo()->getName`. -/
  getName : Nat → String
  /-- Call `createTerminal(operand)` of the base class. -/
  createTerminal : Nat → Except String Nat
  /-- Bus `result()->universalMachine().universalBus()`. -/
  universalBus : Nat
  /-- Base class `LLVMTCEBuilder::emitMove(mi, proc)`. -/
  baseEmitMove : MachineInstr → CodeSnippet → Except String (Instruction × CodeSnippet)

/-- Call `mi->getOperand(i)`: asserts that `i` is an operand index. -/
def MachineInstr.getOperand (mi : MachineInstr) (i : Nat) : Except String Nat :=
  match mi.operands.get? i with
  | some mo => Except.ok mo
  | none => Except.error "Assertion failed: i < getNumOperands()"

/-- Call `mi->getNumOperands()`, an `unsigned`. -/
def MachineInstr.getNumOperands (mi : MachineInstr) : Nat :=
  mi.operands.length % 2 ^ 32

/-- Source: `LLVMTCEPOMBuilder::emitMove` (LLVMTCEPOMBuilder.cc lines 97-122). The
result is the returned instruction and the code snippet after the call; the
subtractions are those of `unsigned`. -/
def emitMove (env : EmitEnv) (mi : MachineInstr) (proc : CodeSnippet) :
    Except String (Instruction × CodeSnippet) :=
  let opName := env.getName mi.opcode
  if opName = "MOVE" then
    env.baseEmitMove mi proc
  else
    match mi.getOperand ((mi.getNumOperands + 2 ^ 32 - 2) % 2 ^ 32) with
    | Except.error e => Except.error e
    | Except.ok srcOp =>
      match env.createTerminal srcOp with
      | Except.error e => Except.error e
      | Except.ok src =>
        match mi.getOperand ((mi.getNumOperands + 2 ^ 32 - 1) % 2 ^ 32) with
        | Except.error e => Except.error e
        | Except.ok dstOp =>
          match env.createTerminal dstOp with
          | Except.error e => Except.error e
          | Except.ok dst =>
            let bus := env.universalBus
            let move := createMove src dst bus
            let instr := (Instruction.mk []).addMove move
            Except.ok (instr, CodeSnippet.add proc instr)

end LLVMTCEPOMBuilder

/-! ### `CompiledSimulation.hh`: function-unit result ring buffer -/

namespace CompiledSimulation

/-- Source: `FUResultElementType` (CompiledSimulation.hh lines 36-48). `SimValue` is
not among the sources and is a parameter; `ClockCycleCount` is an unsigned count. -/
structure FUResultElementType (SimValue : Type) where
  cycles : Nat
  value : SimValue
  used : Bool

/-- Source: the constructor `FUResultElementType() : cycles(0), used(false)`; the
member `value` is default-constructed, `dflt` being the default `SimValue`. -/
def FUResultElementType.new {SimValue : Type} (dflt : SimValue) :
    FUResultElementType SimValue :=
  { cycles := 0, value := dflt, used := false }

/-- Source: `FUResultType` (CompiledSimulation.hh lines 51-63): the size and the array
of result elements. -/
structure FUResultType (SimValue : Type) where
  size : Int
  data : List (FUResultElementType SimValue)

/-- Source: the constructor `FUResultType(int maxLatency) : size(maxLatency),
data(new FUResultElementType[size])`. `size` is declared first and so is initialised
first; the array `new` of a negative length throws. -/
def FUResultType.new {SimValue : Type} (dflt : SimValue) (maxLatency : Int) :
    Except String (FUResultType SimValue) :=
  let size := maxLatency
  if size < 0 then
    Except.error "std::bad_array_new_length"
  else
    Except.ok { size := size
                data := List.replicate size.toNat (FUResultElementType.new dflt) }

end CompiledSimulation

/-! ### Sample inputs -/

namespace Sample

open BF2Scheduler

/-- A move of the given kind in an operation, from unit 0 to port `port` of unit 1. -/
def node (id : Nat) (kind : MoveKind) (po : Option Nat) (port : Nat) : MoveNode :=
  { id := id, srcUnit := 0, dstUnit := 1, dstPort := port, dstReg := none, po := po
    kind := kind, resultPort := 3, latency := 2, regCopy := none, placement := none }

/-- An ordinary data edge. -/
def edge (a b : Nat) (l : Int) : DataDependenceEdge :=
  { tail := a, head := b, kind := EdgeKind.data, latency := l, loopCarried := false }

/-- One bus from unit 0 to unit 1; port 2 of unit 1 is its triggering port. -/
def machine : Machine :=
  { buses := [0], connections := [(0, 0, 1)], triggerPorts := [(1, 2)] }

/-- Two buses from unit 0 to unit 1. -/
def machine2 : Machine :=
  { buses := [0, 1], connections := [(0, 0, 1), (1, 0, 1)], triggerPorts := [(1, 2)] }

/-- A scheduler between two units: nothing scheduled, window `0 .. 10`, temporary
registers 100 and 101 free. -/
def sched : BF2Scheduler :=
  { ddg_ := { nodes := [], edges := ∅, dropped := ∅ }
    rm_ := SimpleResourceManager.empty 0, prologRM_ := none, targetMachine_ := machine
    minCycle_ := 0, latestCycle_ := 10, tripCount_ := 0, scheduledStack_ := []
    dreRemovedMoves_ := ∅, removedMoves_ := ∅, preLoopSharedOperands_ := []
    renamer_ := {100, 101} }

/-- The ready set of the bottom-up direction (§4.3): the unscheduled moves of the
graph all of whose consumers are scheduled. -/
def readyList (s : BF2Scheduler) : List MoveNode :=
  s.ddg_.nodes.filter (fun n =>
    s.ddg_.isActive n.id && !n.isScheduled && !s.ddg_.hasUnscheduledSuccessors n)

/-- Search downwards from `c` for a cycle and a bus that pass the checks of a commit. -/
def latestCommitFrom (s : BF2Scheduler) (id : Nat) : Nat → Int → Option (Int × Nat)
  | 0, _ => none
  | fuel + 1, c =>
    if c < s.minCycle_ then none
    else
      match s.targetMachine_.buses.find? (fun b => canCommit s id c b) with
      | some b => some (c, b)
      | none => latestCommitFrom s id fuel (c - 1)

/-- The nearest feasible cycle of the bottom-up direction in the window (§4.4
`TryPlace`). -/
def latestCommit (s : BF2Scheduler) (id : Nat) : Option (Int × Nat) :=
  latestCommitFrom s id (s.latestCycle_ - s.minCycle_ + 1).toNat s.latestCycle_

/-- A basic bottom-up list-scheduling policy: the first ready move is placed in its
nearest feasible cycle; the driver stops when no move is ready or the move has no
feasible cycle. -/
def bottomUp (budget : Nat) : Policy :=
  { next := fun s =>
      match readyList s with
      | [] => none
      | mn :: _ =>
        match latestCommit s mn.id with
        | none => none
        | some (c, b) => some (Action.opt OptKind.scheduleMove [Mutation.assign mn.id c b])
    budget := budget }

/-- Two independent standalone moves. -/
def twoMoves : DataDependenceGraph :=
  { nodes := [node 1 MoveKind.standalone none 1, node 2 MoveKind.standalone none 4]
    edges := ∅, dropped := ∅ }

/-- An operation 7 with the operand move 1, the trigger move 2 and the result move 3,
and a standalone move 4 that reads the result. -/
def operation : DataDependenceGraph :=
  { nodes := [node 1 MoveKind.input (some 7) 1, node 2 MoveKind.input (some 7) 2,
      node 3 MoveKind.result (some 7) 5, node 4 MoveKind.standalone none 6]
    edges := {edge 1 2 0, edge 2 3 2, edge 3 4 1}, dropped := ∅ }

/-- A machine with two buses that connect the register file (unit 0) and the function
unit (unit 1) with each other and both with unit 2. -/
def machine3 : Machine :=
  { buses := [0, 1]
    connections := [(0, 0, 1), (1, 0, 1), (0, 1, 0), (1, 1, 0), (0, 0, 2), (1, 0, 2),
      (0, 1, 2), (1, 1, 2)]
    triggerPorts := [(1, 2)] }

/-- The result move 3 of operation 7 writes register 9 through port 5 of the register
file; move 5 is its register-allocating copy. -/
def resultMove : MoveNode :=
  { node 3 MoveKind.result (some 7) 5 with
    srcUnit := 1, dstUnit := 0, dstReg := some 9, regCopy := some 5 }

/-- A move from the register file to port `port` of unit 2. -/
def reader (id port : Nat) : MoveNode :=
  { node id MoveKind.standalone none port with dstUnit := 2 }

/-- Operation 7 (operand 1, trigger 2, result 3); move 4 reads the result from the
register, move 5 is the copy of the result. -/
def resultDDG : DataDependenceGraph :=
  { nodes := [node 1 MoveKind.input (some 7) 1, node 2 MoveKind.input (some 7) 2,
      resultMove, reader 4 6, reader 5 7]
    edges := {edge 1 2 0, edge 2 3 2, edge 3 4 1, edge 3 5 1}, dropped := ∅ }

/-- The scheduler on the sample machine with two buses, about to schedule
`resultDDG`. -/
def resultSched : BF2Scheduler :=
  { sched with ddg_ := resultDDG, targetMachine_ := machine3 }

/-- Bypass of the result of operation 7 to its reader 4 (§4.4): the reader takes the
value from the function unit, the edges through the register give way to a bypass
edge from the trigger, and the register moves 3 and 5 leave the graph. -/
def bypassOpt : List Mutation :=
  [Mutation.removeEdge (edge 3 4 1), Mutation.removeEdge (edge 3 5 1),
    Mutation.addEdge (edge 2 4 2), Mutation.setSource 4 1, Mutation.kill 3 true]

/-- Dead-result elimination that keeps the copy (§4.4). -/
def dreOpt : List Mutation := [Mutation.kill 3 false]

/-- Renaming of the destination register of the result move (§4.5). -/
def renameOpt : List Mutation := [Mutation.rename 3 100]

/-- Pre-allocation of port 1 of the function unit to the operand move 1 across the
loop body (§4.4). -/
def shareOpt : List Mutation := [Mutation.sharePort 1 1]

/-- Swap of the two input moves of operation 7, which makes move 1 the trigger
(`swapToUntrigger`). -/
def swapOpt : List Mutation :=
  [Mutation.setDestination 1 1 2, Mutation.setDestination 2 1 1]

/-- A policy that first applies the bypass and then schedules bottom-up. -/
def bypassThenBottomUp (budget : Nat) : Policy :=
  { next := fun s =>
      match s.scheduledStack_ with
      | [] => some (Action.opt OptKind.bypass bypassOpt)
      | _ :: _ => (bottomUp budget).next s
    budget := budget }

/-- The sample unit with the reader 4 committed in cycle 10 and the result move 3 in
cycle 9. -/
def placed : BF2Scheduler :=
  applyOpts [(OptKind.scheduleMove, [Mutation.assign 4 10 0]),
    (OptKind.scheduleMove, [Mutation.assign 3 9 0])] resultSched

/-- The sample unit with the result move 3 committed in cycle 10 and the trigger 2 in
cycle 5. -/
def triggered : BF2Scheduler :=
  applyOpts [(OptKind.scheduleMove, [Mutation.assign 3 10 0]),
    (OptKind.scheduleMove, [Mutation.assign 2 5 0])] resultSched

end Sample

namespace Sample

/-- A builder environment: opcode 0 is `MOVE`, every other opcode is `ADD`; the terminal
of operand `mo` is `mo + 100`; the universal bus is bus 7. -/
def emitEnv : LLVMTCEPOMBuilder.EmitEnv :=
  { getName := fun op => if op = 0 then "MOVE" else "ADD"
    createTerminal := fun mo => Except.ok (mo + 100)
    universalBus := 7
    baseEmitMove := fun _ proc => Except.ok ({ moves := [] }, proc) }

/-- A trigger move with three operands. -/
def triggerInstr : LLVMTCEPOMBuilder.MachineInstr :=
  { opcode := 1, operands := [10, 11, 12] }

/-- A machine environment for `createFUTerminal`: register names are split at the
first character of the delimiter, a piece converts to an integer when it is a
non-empty string of decimal digits, and the
machine has the unit `ALU` with the ports `in1t` (triggering) and `out1` and the
operation `ADD`. -/
def fuEnv : LLVMTCEPOMBuilder.FUTerminalEnv :=
  { split := fun s d => (s.data.splitOn (d.data.headD '_')).map String.mk
    toInt := fun s =>
      if s.data ≠ [] ∧ s.data.all Char.isDigit = true then
        some (Int.ofNat (s.data.foldl (fun n c => 10 * n + (c.toNat - 48)) 0))
      else
        none
    functionUnit := fun n => if n = "ALU" then Except.ok (some 0) else Except.ok none
    port := fun _ p =>
      if p = "in1t" then Except.ok (some 1)
      else if p = "out1" then Except.ok (some 2)
      else Except.ok none
    isTriggering := fun p => p == 1
    operation := fun _ n =>
      if n = "ADD" then Except.ok 0 else Except.error "KeyNotFound"
    io := fun _ p => Except.ok (Int.ofNat p) }

end Sample

/-! ## Part 2. Theorems -/

namespace TDGen

/-- C9: `RegInfo::operator<` is the lexicographic order on `(rf, idx)` and a
strict order: irreflexive, asymmetric and transitive. -/
theorem RegInfo.lt_lexicographic_strict (a b c : RegInfo) :
    (RegInfo.lt a b = true ↔ (a.rf < b.rf ∨ (a.rf = b.rf ∧ a.idx < b.idx))) ∧
    RegInfo.lt a a = false ∧
    (RegInfo.lt a b = true → RegInfo.lt b a = false) ∧
    (RegInfo.lt a b = true → RegInfo.lt b c = true → RegInfo.lt a c = true) := by
  have key : ∀ x y : RegInfo,
      (RegInfo.lt x y = true ↔ (x.rf < y.rf ∨ (x.rf = y.rf ∧ x.idx < y.idx))) := by
    intro x y
    unfold RegInfo.lt
    split <;> simp_all
  refine ⟨key a b, ?_, ?_, ?_⟩
  · rw [Bool.eq_false_iff]
    intro h
    rcases (key a a).1 h with h1 | ⟨_, h2⟩
    · exact lt_irrefl _ h1
    · exact Nat.lt_irrefl _ h2
  · intro h
    rw [Bool.eq_false_iff]
    intro h'
    rcases (key a b).1 h with h1 | ⟨e1, h2⟩ <;> rcases (key b a).1 h' with h3 | ⟨e3, h4⟩
    · exact lt_asymm h1 h3
    · rw [e3] at h1; exact lt_irrefl _ h1
    · rw [e1] at h3; exact lt_irrefl _ h3
    · omega
  · intro h h'
    apply (key a c).2
    rcases (key a b).1 h with h1 | ⟨e1, h2⟩ <;> rcases (key b c).1 h' with h3 | ⟨e3, h4⟩
    · exact Or.inl (lt_trans h1 h3)
    · exact Or.inl (e3 ▸ h1)
    · exact Or.inl (e1 ▸ h3)
    · exact Or.inr ⟨e1.trans e3, by omega⟩

end TDGen

namespace LLVMTCEPOMBuilder

/-- C10: `registerFileName n` returns `"RF"` and `registerIndex n` returns `4`
exactly when `n = 1000000 = spDRegNum()`; for every other `n`, also for
`raPortDRegNum() = 1000001`, both abort with `"Unimplemented."`. -/
theorem register_mapping (n : Nat) :
    spDRegNum = 1000000 ∧ raPortDRegNum = 1000001 ∧
    ((registerFileName n = Except.ok "RF" ∧ registerIndex n = Except.ok 4) ↔ n = 1000000) ∧
    (n = 1000000 ∨
      (registerFileName n = Except.error "Unimplemented." ∧
        registerIndex n = Except.error "Unimplemented.")) ∧
    registerFileName raPortDRegNum = Except.error "Unimplemented." ∧
    registerIndex raPortDRegNum = Except.error "Unimplemented." := by
  refine ⟨rfl, rfl, ?_, ?_, ?_, ?_⟩
  · constructor
    · intro h
      by_contra hn
      have := h.1
      simp [registerFileName, hn, abortWithError] at this
    · intro h
      subst h
      exact ⟨rfl, rfl⟩
  · by_cases hn : n = 1000000
    · exact Or.inl hn
    · right
      simp [registerFileName, registerIndex, hn, abortWithError]
  · simp [registerFileName, raPortDRegNum, abortWithError]
  · simp [registerIndex, raPortDRegNum, abortWithError]

end LLVMTCEPOMBuilder

namespace BF2Scheduler

/-- C8: the sharing decision is one of exactly four states with the pairwise
distinct codes 0, 1, 2, 3, and `PreLoopShareInfo(mn, port)` has state `SHARED`
and records that move node and that port. -/
theorem preLoopShareInfo_classification :
    (∀ s : PreLoopOperandEnum,
      s = PreLoopOperandEnum.NO_PORT ∨ s = PreLoopOperandEnum.SHARED ∨
      s = PreLoopOperandEnum.NOT_SHARED ∨ s = PreLoopOperandEnum.NO_LOOP_INVARIANT) ∧
    PreLoopOperandEnum.NO_PORT.code = 0 ∧ PreLoopOperandEnum.SHARED.code = 1 ∧
    PreLoopOperandEnum.NOT_SHARED.code = 2 ∧ PreLoopOperandEnum.NO_LOOP_INVARIANT.code = 3 ∧
    (∀ s t : PreLoopOperandEnum, s.code = t.code ↔ s = t) ∧
    (∀ mn port : Nat,
      (PreLoopShareInfo.ofShared mn port).state_ = PreLoopOperandEnum.SHARED ∧
      (PreLoopShareInfo.ofShared mn port).sharedMN_ = some mn ∧
      (PreLoopShareInfo.ofShared mn port).sharedPort_ = some port) := by
  refine ⟨?_, rfl, rfl, rfl, rfl, ?_, ?_⟩
  · intro s
    cases s <;> simp
  · intro s t
    cases s <;> cases t <;> simp [PreLoopOperandEnum.code]
  · intro mn port
    exact ⟨rfl, rfl, rfl⟩

/-- C5 (as stated) fails: with the default limits `0 .. INT_MAX` the loop-body
cycle `1000` is allowed, and it equals the biased prolog cycle `0 + 1000`. -/
theorem prolog_bias_collision :
    ¬ (∀ tripCount p c : Int, 1 ≤ tripCount → 0 ≤ p →
        SchedulingLimits.default.earliestCycle ≤ c →
        c ≤ SchedulingLimits.default.latestCycle →
        p + PROLOG_CYCLE_BIAS ≠ c) := by
  intro h
  exact h 1 0 1000 (by decide) (by decide) (by decide) (by decide) (by decide)

/-- C5 (amended): a biased prolog cycle `p + PROLOG_CYCLE_BIAS` with `p ≥ 0`
differs from every loop-body cycle `c` of the window that lies below the bias. -/
theorem prolog_bias_disjoint_below_bias (tripCount p c : Int) (_htc : 1 ≤ tripCount)
    (hp : 0 ≤ p) (_hlo : SchedulingLimits.default.earliestCycle ≤ c)
    (_hhi : c ≤ SchedulingLimits.default.latestCycle) (hc : c < PROLOG_CYCLE_BIAS) :
    p + PROLOG_CYCLE_BIAS ≠ c := by
  unfold PROLOG_CYCLE_BIAS at *
  omega

/-- Witness for `prolog_bias_disjoint_below_bias`: prolog cycle 3, body cycle 999. -/
theorem prolog_bias_disjoint_below_bias_witness :
    (3 : Int) + PROLOG_CYCLE_BIAS ≠ 999 :=
  prolog_bias_disjoint_below_bias 4 3 999 (by decide) (by decide) (by decide) (by decide)
    (by decide)

end BF2Scheduler

/-! ### Dependence-graph lemmas -/

namespace DataDependenceGraph

theorem node_id_eq {ddg : DataDependenceGraph} {id : Nat} {mn : MoveNode}
    (h : ddg.node id = some mn) : mn.id = id := by
  have := List.find?_some h
  simpa using this

theorem node_mem_nodes {ddg : DataDependenceGraph} {id : Nat} {mn : MoveNode}
    (h : ddg.node id = some mn) : mn ∈ ddg.nodes :=
  List.mem_of_find?_eq_some h

/-- A change of the attributes of one move is seen by the look-up of that move only. -/
theorem node_modify (ddg : DataDependenceGraph) (id x : Nat) (f : MoveNode → MoveNode)
    (hf : ∀ n, (f n).id = n.id) :
    (ddg.modify id f).node x = if x = id then (ddg.node id).map f else ddg.node x := by
  unfold node modify
  simp only
  induction ddg.nodes with
  | nil => simp
  | cons n ns ih =>
    simp only [List.map_cons, List.find?_cons]
    by_cases hx : x = id
    · subst hx
      simp only [if_true] at ih ⊢
      by_cases hn : n.id = x
      · simp [hn, hf]
      · simp [hn, ih]
    · simp only [if_neg hx] at ih ⊢
      by_cases hn : n.id = id
      · have hnx : ¬ id = x := fun h => hx h.symm
        simp [hn, hnx, ih, hf]
      · simp only [if_neg hn]
        rw [ih]

theorem node_setPlacement (ddg : DataDependenceGraph) (id x : Nat) (p : Option (Int × Nat)) :
    (ddg.setPlacement id p).node x =
      if x = id then (ddg.node id).map (fun n => { n with placement := p }) else ddg.node x :=
  node_modify ddg id x _ (fun _ => rfl)

theorem mem_modify {ddg : DataDependenceGraph} {id : Nat} {f : MoveNode → MoveNode}
    {n1 : MoveNode} (h : n1 ∈ (ddg.modify id f).nodes) :
    ∃ n ∈ ddg.nodes, n1 = if n.id = id then f n else n := by
  simp only [modify, List.mem_map] at h
  obtain ⟨n, hn, e⟩ := h
  exact ⟨n, hn, e.symm⟩

theorem ids_modify (ddg : DataDependenceGraph) (id : Nat) (f : MoveNode → MoveNode)
    (hf : ∀ n, (f n).id = n.id) :
    (ddg.modify id f).nodes.map MoveNode.id = ddg.nodes.map MoveNode.id := by
  simp only [modify, List.map_map]
  apply List.map_congr_left
  intro n _
  simp only [Function.comp_apply]
  split
  · exact hf n
  · rfl

theorem ids_setPlacement (ddg : DataDependenceGraph) (id : Nat) (p : Option (Int × Nat)) :
    (ddg.setPlacement id p).nodes.map MoveNode.id = ddg.nodes.map MoveNode.id :=
  ids_modify ddg id _ (fun _ => rfl)

/-- Two changes of the same move, the second of which gives every move with that
identifier its old attributes back, leave the graph as it was. -/
theorem modify_modify_cancel (ddg : DataDependenceGraph) (id : Nat) (f g : MoveNode → MoveNode)
    (hf : ∀ n, (f n).id = n.id) (hg : ∀ n ∈ ddg.nodes, n.id = id → g (f n) = n) :
    (ddg.modify id f).modify id g = ddg := by
  cases ddg with
  | mk nodes edges dropped =>
    simp only [modify, List.map_map, mk.injEq, and_true]
    conv_rhs => rw [← List.map_id nodes]
    apply List.map_congr_left
    intro n hn
    simp only [Function.comp_apply, id_eq]
    by_cases hid : n.id = id
    · simp only [if_pos hid, hf, hid, if_true]
      exact hg n hn hid
    · simp [hid]

/-- With distinct identifiers a node is determined by its identifier. -/
theorem eq_of_node_of_mem {ddg : DataDependenceGraph} {id : Nat} {mn n : MoveNode}
    (hnd : (ddg.nodes.map MoveNode.id).Nodup) (h : ddg.node id = some mn)
    (hn : n ∈ ddg.nodes) (hid : n.id = id) : n = mn :=
  List.inj_on_of_nodup_map hnd hn (node_mem_nodes h) (hid.trans (node_id_eq h).symm)

theorem node_of_mem {ddg : DataDependenceGraph} {n : MoveNode}
    (hnd : (ddg.nodes.map MoveNode.id).Nodup) (hn : n ∈ ddg.nodes) : ddg.node n.id = some n := by
  cases h : ddg.node n.id with
  | none =>
    have := List.find?_eq_none.1 h n hn
    simp at this
  | some mn =>
    rw [eq_of_node_of_mem hnd h hn rfl]

/-- The cycles of the nodes with a scheduled node look-up. -/
theorem cycleOf_of_mem {ddg : DataDependenceGraph} {n : MoveNode}
    (hnd : (ddg.nodes.map MoveNode.id).Nodup) (hn : n ∈ ddg.nodes) :
    ddg.cycleOf n.id = n.cycle := by
  unfold cycleOf
  rw [node_of_mem hnd hn]
  rfl

end DataDependenceGraph

/-! ### Ledger lemmas -/

namespace SimpleResourceManager

/-- What a move needs does not depend on its assignment. -/
theorem neededResources_placement (m : Machine) (mn : MoveNode) (p : Option (Int × Nat))
    (c : Int) (b : Nat) :
    neededResources m { mn with placement := p } c b = neededResources m mn c b := rfl

theorem cell_assign (m : Machine) (rm : SimpleResourceManager) (cycle : Int) (mn : MoveNode)
    (bus : Nat) (c : Int) (r : Resource) :
    (assign m rm cycle mn bus).cell c r =
      if (c, r) ∈ neededResources m mn cycle bus then some mn.id else rm.cell c r := rfl

theorem cell_unassign (m : Machine) (rm : SimpleResourceManager) (cycle : Int) (mn : MoveNode)
    (bus : Nat) (c : Int) (r : Resource) :
    (unassign m rm cycle mn bus).cell c r =
      if (c, r) ∈ neededResources m mn cycle bus then none else rm.cell c r := rfl

theorem feasibleOn_idle {m : Machine} {rm : SimpleResourceManager} {cycle : Int}
    {mn : MoveNode} {bus : Nat} (h : feasibleOn m rm cycle mn bus = true)
    {cr : Int × Resource} (hcr : cr ∈ neededResources m mn cycle bus) :
    rm.cell cr.1 cr.2 = none := by
  unfold feasibleOn at h
  simp only [Bool.and_eq_true, List.all_eq_true] at h
  have := h.2 cr hcr
  unfold isIdle at this
  simpa using this

theorem holds_cell {m : Machine} {rm : SimpleResourceManager} {cycle : Int}
    {mn : MoveNode} {bus : Nat} (h : holds m rm cycle mn bus = true)
    {cr : Int × Resource} (hcr : cr ∈ neededResources m mn cycle bus) :
    rm.cell cr.1 cr.2 = some mn.id := by
  unfold holds at h
  simp only [List.all_eq_true, decide_eq_true_eq] at h
  exact h cr hcr

/-- Reverting a commit that was feasible gives the ledger back. -/
theorem unassign_assign {m : Machine} {rm : SimpleResourceManager} {cycle : Int}
    {mn : MoveNode} {bus : Nat} (h : feasibleOn m rm cycle mn bus = true) :
    unassign m (assign m rm cycle mn bus) cycle mn bus = rm := by
  cases rm with
  | mk cell ii =>
    simp only [unassign, assign, mk.injEq, and_true]
    funext c r
    by_cases hm : (c, r) ∈ neededResources m mn cycle bus
    · simp only [if_pos hm]
      exact (feasibleOn_idle h hm).symm
    · simp only [if_neg hm]

/-- Committing again a move that the ledger recorded gives the ledger back. -/
theorem assign_unassign {m : Machine} {rm : SimpleResourceManager} {cycle : Int}
    {mn : MoveNode} {bus : Nat} (h : holds m rm cycle mn bus = true) :
    assign m (unassign m rm cycle mn bus) cycle mn bus = rm := by
  cases rm with
  | mk cell ii =>
    simp only [unassign, assign, mk.injEq, and_true]
    funext c r
    by_cases hm : (c, r) ∈ neededResources m mn cycle bus
    · simp only [if_pos hm]
      exact (holds_cell h hm).symm
    · simp only [if_neg hm]

end SimpleResourceManager

/-! ### Every mutation is reversed exactly by its undo entry -/

namespace BF2Scheduler

open SimpleResourceManager DataDependenceGraph

theorem canCommit_node {s : BF2Scheduler} {id : Nat} {c : Int} {b : Nat}
    (h : canCommit s id c b = true) :
    ∃ mn, s.ddg_.node id = some mn ∧
      (∀ n ∈ s.ddg_.nodes, n.id = id → n.placement = none) ∧
      s.ddg_.isActive id = true ∧ s.minCycle_ ≤ c ∧ c ≤ s.latestCycle_ ∧
      feasibleOn s.targetMachine_ s.rm_ c mn b = true ∧
      (∀ p, s.prologRM_ = some p →
        feasibleOn s.targetMachine_ p (c + PROLOG_CYCLE_BIAS) mn b = true) ∧
      sharedAllow s mn c b = true ∧ depsAllow s id c = true ∧ triggerAllow s mn c = true := by
  unfold canCommit at h
  cases hn : s.ddg_.node id with
  | none => rw [hn] at h; cases h
  | some mn =>
    rw [hn] at h
    simp only [Bool.and_eq_true, List.all_eq_true, Bool.or_eq_true, decide_eq_true_eq] at h
    obtain ⟨⟨⟨⟨⟨⟨⟨⟨h1, h2⟩, h3⟩, h4⟩, h5⟩, h6⟩, h7⟩, h8⟩, h9⟩ := h
    refine ⟨mn, rfl, ?_, h2, h3, h4, h5, ?_, h7, h8, h9⟩
    · intro n hn1 hid
      rcases h1 n hn1 with h | h
      · exact absurd hid h
      · simpa using h
    · intro p hp
      rw [hp] at h6
      exact h6

theorem canRevert_node {s : BF2Scheduler} {id : Nat} (h : canRevert s id = true) :
    ∃ mn c b, s.ddg_.node id = some mn ∧ mn.placement = some (c, b) ∧
      (∀ n ∈ s.ddg_.nodes, n.id = id → n.placement = some (c, b)) ∧
      holds s.targetMachine_ s.rm_ c mn b = true ∧
      (∀ p, s.prologRM_ = some p →
        holds s.targetMachine_ p (c + PROLOG_CYCLE_BIAS) mn b = true) := by
  unfold canRevert at h
  cases hn : s.ddg_.node id with
  | none => rw [hn] at h; cases h
  | some mn =>
    rw [hn] at h
    simp only at h
    cases hp : mn.placement with
    | none => rw [hp] at h; cases h
    | some cb =>
      obtain ⟨c, b⟩ := cb
      rw [hp] at h
      simp only [Bool.and_eq_true, List.all_eq_true, Bool.or_eq_true, decide_eq_true_eq] at h
      obtain ⟨⟨h1, h2⟩, h3⟩ := h
      refine ⟨mn, c, b, rfl, hp, ?_, h2, ?_⟩
      · intro n hn1 hid
        rcases h1 n hn1 with h | h
        · exact absurd hid h
        · exact h
      · intro p hpp
        rw [hpp] at h3
        exact h3

theorem canRetarget_node {s : BF2Scheduler} {id : Nat} {same : MoveNode → MoveNode → Bool}
    (h : canRetarget s id same = true) :
    ∃ mn, s.ddg_.node id = some mn ∧
      ∀ n ∈ s.ddg_.nodes, n.id = id → n.placement = none ∧ same mn n = true := by
  unfold canRetarget at h
  cases hn : s.ddg_.node id with
  | none => rw [hn] at h; cases h
  | some mn =>
    rw [hn] at h
    simp only [List.all_eq_true, Bool.or_eq_true, decide_eq_true_eq, Bool.and_eq_true] at h
    refine ⟨mn, rfl, ?_⟩
    intro n hn1 hid
    rcases h n hn1 with h | h
    · exact absurd hid h
    · exact ⟨by simpa using h.1, h.2⟩

/-- A revert after a commit gives the state back. -/
theorem unassign_assign_cancel {s : BF2Scheduler} {id : Nat} {c : Int} {b : Nat}
    (h : canCommit s id c b = true) : unassign (assign s id c b) id = s := by
  obtain ⟨mn, hn, hall, _, _, _, hf, hpf, _⟩ := canCommit_node h
  have hn1 : (s.ddg_.setPlacement id (some (c, b))).node id =
      some { mn with placement := some (c, b) } := by
    rw [node_setPlacement, if_pos rfl, hn]; rfl
  unfold assign
  rw [hn]
  unfold unassign
  simp only [hn1]
  cases s with
  | mk ddg rm prm tm mc lc tc st dre rem sh ren =>
    simp only [mk.injEq, and_true, true_and] at hall hf hpf ⊢
    refine ⟨?_, ?_, ?_⟩
    · exact modify_modify_cancel ddg id _ _ (fun _ => rfl) (fun n hn2 hid => by
        have := hall n hn2 hid
        cases n
        simp only at this
        subst this
        rfl)
    · exact unassign_assign hf
    · cases prm with
      | none => rfl
      | some p =>
        simp only [Option.map_some']
        exact congrArg some (unassign_assign (hpf p rfl))

/-- A commit in the old cycle on the old bus after a revert gives the state back. -/
theorem assign_unassign_cancel {s : BF2Scheduler} {id : Nat} {c : Int} {b : Nat}
    (hp : placementOf s id = some (c, b)) (h : canRevert s id = true) :
    assign (unassign s id) id c b = s := by
  obtain ⟨mn, c1, b1, hn, hpl, hall, hh, hph⟩ := canRevert_node h
  have hcb : (c1, b1) = (c, b) := by
    unfold placementOf at hp
    rw [hn] at hp
    simp only [Option.some_bind] at hp
    rw [hpl] at hp
    exact Option.some.inj hp
  cases hcb
  have hn1 : (s.ddg_.setPlacement id none).node id = some { mn with placement := none } := by
    rw [node_setPlacement, if_pos rfl, hn]; rfl
  unfold unassign
  rw [hn]
  simp only [hpl]
  unfold assign
  simp only [hn1]
  cases s with
  | mk ddg rm prm tm mc lc tc st dre rem sh ren =>
    simp only [mk.injEq, and_true, true_and] at hall hh hph ⊢
    refine ⟨?_, ?_, ?_⟩
    · exact modify_modify_cancel ddg id _ _ (fun _ => rfl) (fun n hn2 hid => by
        have := hall n hn2 hid
        cases n
        simp only at this
        subst this
        rfl)
    · exact assign_unassign hh
    · cases prm with
      | none => rfl
      | some p =>
        simp only [Option.map_some']
        exact congrArg some (assign_unassign (hph p rfl))

end BF2Scheduler

namespace BF2Scheduler

open SimpleResourceManager DataDependenceGraph

theorem canKill_node {s : BF2Scheduler} {id : Nat} {copyToo : Bool}
    (h : canKill s id copyToo = true) :
    ∃ mn, s.ddg_.node id = some mn ∧
      (∀ n ∈ s.ddg_.nodes, n.id = id → n.placement = none) ∧
      id ∉ s.ddg_.dropped ∧ id ∉ s.dreRemovedMoves_ ∧ id ∉ s.removedMoves_ ∧
      (copyToo = true → ∀ c, mn.regCopy = some c → c ∉ s.ddg_.dropped ∧ c ≠ id) := by
  unfold canKill at h
  cases hn : s.ddg_.node id with
  | none => rw [hn] at h; cases h
  | some mn =>
    rw [hn] at h
    simp only [Bool.and_eq_true, List.all_eq_true, Bool.or_eq_true, decide_eq_true_eq,
      isActive, isRemoved, Bool.not_eq_true', Bool.or_eq_false_iff, decide_eq_false_iff_not] at h
    obtain ⟨⟨⟨h1, h2⟩, h3, h4⟩, h5⟩ := h
    refine ⟨mn, rfl, ?_, h2, h3, h4, ?_⟩
    · intro n hn1 hid
      rcases h1 n hn1 with h | h
      · exact absurd hid h
      · simpa using h
    · intro hc c hcopy
      rcases h5 with h5 | h5
      · rw [hc] at h5; cases h5
      · rw [hcopy] at h5
        simp only [Bool.and_eq_true, decide_eq_true_eq] at h5
        exact ⟨h5.1.1, h5.1.2⟩

/-- The resurrection of a node that was just removed gives the state back. -/
theorem resurrect_kill_cancel {s : BF2Scheduler} {id : Nat} {copyToo : Bool}
    (h : canKill s id copyToo = true) : resurrect (kill s id copyToo) id = s := by
  obtain ⟨mn, hn, _, hd, hdre, hrem, hcopy⟩ := canKill_node h
  cases s with
  | mk ddg rm prm tm mc lc tc st dre rem sh ren =>
    cases ddg with
    | mk nodes edges dropped =>
      simp only at hn hd hdre hrem hcopy
      cases copyToo with
      | false =>
        simp only [kill, resurrect, nodeKilled, nodeResurrected, dropNode, restoreNode,
          Bool.false_eq_true, if_false, if_neg hdre]
        simp only [mk.injEq, DataDependenceGraph.mk.injEq, and_true, true_and]
        exact ⟨Finset.erase_insert hd, Finset.erase_eq_of_not_mem hdre, Finset.erase_insert hrem⟩
      | true =>
        simp only [node] at hn
        cases hr : mn.regCopy with
        | none =>
          simp only [kill, resurrect, nodeAndCopyKilled, nodeResurrected, dropNode, restoreNode,
            if_true, copyOf, node, hn, Option.some_bind, hr, Finset.mem_insert, true_or]
          simp only [mk.injEq, DataDependenceGraph.mk.injEq, and_true, true_and]
          exact ⟨Finset.erase_insert hd, Finset.erase_insert hdre,
            Finset.erase_eq_of_not_mem hrem⟩
        | some c =>
          obtain ⟨hcd, hci⟩ := hcopy rfl c hr
          simp only [kill, resurrect, nodeAndCopyKilled, nodeResurrected, dropNode, restoreNode,
            if_true, copyOf, node, hn, Option.some_bind, hr, Finset.mem_insert, true_or]
          simp only [mk.injEq, DataDependenceGraph.mk.injEq, and_true, true_and]
          refine ⟨?_, Finset.erase_insert hdre, Finset.erase_eq_of_not_mem hrem⟩
          have h1 : id ∉ insert c dropped := by
            simp only [Finset.mem_insert, not_or]
            exact ⟨fun e => hci e.symm, hd⟩
          rw [Finset.erase_insert h1, Finset.erase_insert hcd]

/-- Every mutation whose checks pass is reversed exactly by its undo entry. -/
theorem revertUndo_applyMutation {s s1 : BF2Scheduler} {m : Mutation} {u : Undo}
    (h : applyMutation s m = some (s1, u)) : revertUndo s1 u = s := by
  cases m with
  | assign id c b =>
    simp only [applyMutation] at h
    split at h
    · rename_i hc
      simp only [Option.some.injEq, Prod.mk.injEq] at h
      obtain ⟨rfl, rfl⟩ := h
      exact unassign_assign_cancel hc
    · cases h
  | unassign id =>
    simp only [applyMutation] at h
    split at h
    · cases h
    · rename_i c b hp
      split at h
      · rename_i hc
        simp only [Option.some.injEq, Prod.mk.injEq] at h
        obtain ⟨rfl, rfl⟩ := h
        exact assign_unassign_cancel hp hc
      · cases h
  | kill id copyToo =>
    simp only [applyMutation] at h
    split at h
    · rename_i hc
      simp only [Option.some.injEq, Prod.mk.injEq] at h
      obtain ⟨rfl, rfl⟩ := h
      exact resurrect_kill_cancel hc
    · cases h
  | removeEdge e =>
    simp only [applyMutation] at h
    split at h
    · rename_i hc
      simp only [Option.some.injEq, Prod.mk.injEq] at h
      obtain ⟨rfl, rfl⟩ := h
      simp only [revertUndo, Finset.insert_erase hc]
    · cases h
  | addEdge e =>
    simp only [applyMutation] at h
    split at h
    · rename_i hc
      simp only [Option.some.injEq, Prod.mk.injEq] at h
      obtain ⟨rfl, rfl⟩ := h
      simp only [canAddEdge, Bool.and_eq_true, decide_eq_true_eq] at hc
      simp only [revertUndo, Finset.erase_insert hc.1]
    · cases h
  | setSource id unit =>
    simp only [applyMutation] at h
    split at h
    · cases h
    · rename_i mn hn
      split at h
      · rename_i hc
        simp only [Option.some.injEq, Prod.mk.injEq] at h
        obtain ⟨rfl, rfl⟩ := h
        obtain ⟨mn1, hn1, hall⟩ := canRetarget_node hc
        rw [hn] at hn1
        cases hn1
        simp only [revertUndo]
        rw [modify_modify_cancel s.ddg_ id (fun n => { n with srcUnit := unit })
          (fun n => { n with srcUnit := mn.srcUnit }) (fun _ => rfl) (fun n hn2 hid => by
          have := (hall n hn2 hid).2
          simp only [decide_eq_true_eq] at this
          cases n
          simp only at this
          subst this
          rfl)]
      · cases h
  | setDestination id unit port =>
    simp only [applyMutation] at h
    split at h
    · cases h
    · rename_i mn hn
      split at h
      · rename_i hc
        simp only [Option.some.injEq, Prod.mk.injEq] at h
        obtain ⟨rfl, rfl⟩ := h
        obtain ⟨mn1, hn1, hall⟩ := canRetarget_node hc
        rw [hn] at hn1
        cases hn1
        simp only [revertUndo]
        rw [modify_modify_cancel s.ddg_ id (fun n => { n with dstUnit := unit, dstPort := port })
          (fun n => { n with dstUnit := mn.dstUnit, dstPort := mn.dstPort })
          (fun _ => rfl) (fun n hn2 hid => by
          have := (hall n hn2 hid).2
          simp only [Bool.and_eq_true, decide_eq_true_eq] at this
          obtain ⟨e1, e2⟩ := this
          cases n
          simp only at e1 e2
          subst e1
          subst e2
          rfl)]
      · cases h
  | sharePort id port =>
    simp only [applyMutation] at h
    split at h
    · simp only [Option.some.injEq, Prod.mk.injEq] at h
      obtain ⟨rfl, rfl⟩ := h
      simp only [revertUndo, List.erase_cons_head]
    · cases h
  | rename id reg =>
    simp only [applyMutation] at h
    split at h
    · cases h
    · rename_i mn hn
      split at h
      · rename_i hc
        simp only [Option.some.injEq, Prod.mk.injEq] at h
        obtain ⟨rfl, rfl⟩ := h
        simp only [canRename, Bool.and_eq_true, decide_eq_true_eq] at hc
        obtain ⟨mn1, hn1, hall⟩ := canRetarget_node hc.2
        rw [hn] at hn1
        cases hn1
        simp only [revertUndo, Finset.insert_erase hc.1]
        rw [modify_modify_cancel s.ddg_ id (fun n => { n with dstReg := some reg })
          (fun n => { n with dstReg := mn.dstReg }) (fun _ => rfl) (fun n hn2 hid => by
          have := (hall n hn2 hid).2
          simp only [decide_eq_true_eq] at this
          cases n
          simp only at this
          subst this
          rfl)]
      · cases h

end BF2Scheduler

/-! ### Operators, the optimisation stack and rollback -/

namespace BF2Scheduler

open SimpleResourceManager DataDependenceGraph

theorem stack_assign (s : BF2Scheduler) (id : Nat) (c : Int) (b : Nat) :
    (assign s id c b).scheduledStack_ = s.scheduledStack_ := by
  unfold assign
  split <;> rfl

theorem stack_unassign (s : BF2Scheduler) (id : Nat) :
    (unassign s id).scheduledStack_ = s.scheduledStack_ := by
  unfold unassign
  split
  · rfl
  · split <;> rfl

theorem stack_applyMutation {s s1 : BF2Scheduler} {m : Mutation} {u : Undo}
    (h : applyMutation s m = some (s1, u)) : s1.scheduledStack_ = s.scheduledStack_ := by
  cases m with
  | assign id c b =>
    simp only [applyMutation] at h
    split at h
    · simp only [Option.some.injEq, Prod.mk.injEq] at h
      rw [← h.1]; exact stack_assign s id c b
    · cases h
  | unassign id =>
    simp only [applyMutation] at h
    split at h
    · cases h
    · split at h
      · simp only [Option.some.injEq, Prod.mk.injEq] at h
        rw [← h.1]; exact stack_unassign s id
      · cases h
  | kill id copyToo =>
    simp only [applyMutation] at h
    split at h
    · simp only [Option.some.injEq, Prod.mk.injEq] at h
      rw [← h.1]
      unfold kill
      split <;> rfl
    · cases h
  | removeEdge e =>
    simp only [applyMutation] at h
    split at h
    · simp only [Option.some.injEq, Prod.mk.injEq] at h
      rw [← h.1]
    · cases h
  | addEdge e =>
    simp only [applyMutation] at h
    split at h
    · simp only [Option.some.injEq, Prod.mk.injEq] at h
      rw [← h.1]
    · cases h
  | setSource id unit =>
    simp only [applyMutation] at h
    split at h
    · cases h
    · split at h
      · simp only [Option.some.injEq, Prod.mk.injEq] at h
        rw [← h.1]
      · cases h
  | setDestination id unit port =>
    simp only [applyMutation] at h
    split at h
    · cases h
    · split at h
      · simp only [Option.some.injEq, Prod.mk.injEq] at h
        rw [← h.1]
      · cases h
  | sharePort id port =>
    simp only [applyMutation] at h
    split at h
    · simp only [Option.some.injEq, Prod.mk.injEq] at h
      rw [← h.1]
    · cases h
  | rename id reg =>
    simp only [applyMutation] at h
    split at h
    · cases h
    · split at h
      · simp only [Option.some.injEq, Prod.mk.injEq] at h
        rw [← h.1]
      · cases h

/-- The reversal of an undo entry does not look at the optimisation stack. -/
theorem revertUndo_setStack (s : BF2Scheduler) (k : List BFOptimization) (u : Undo) :
    revertUndo { s with scheduledStack_ := k } u =
      { revertUndo s u with scheduledStack_ := k } := by
  cases u with
  | unassign id =>
    simp only [revertUndo, unassign]
    split
    · rfl
    · split <;> rfl
  | assign id c b =>
    simp only [revertUndo, assign]
    split <;> rfl
  | resurrect id =>
    simp only [revertUndo, resurrect]
    split <;> rfl
  | insertEdge e => rfl
  | eraseEdge e => rfl
  | source id unit => rfl
  | destination id unit port => rfl
  | unshare id port => rfl
  | unrename id old reg => rfl

theorem foldl_revertUndo_setStack (us : List Undo) :
    ∀ (s : BF2Scheduler) (k : List BFOptimization),
      us.foldl revertUndo { s with scheduledStack_ := k } =
        { us.foldl revertUndo s with scheduledStack_ := k } := by
  induction us with
  | nil => intro s k; rfl
  | cons u us ih =>
    intro s k
    simp only [List.foldl_cons]
    rw [revertUndo_setStack, ih]

/-- The mutations of an operator, as far as they were done, are reversed exactly by
the undo record they left, most recent first. -/
theorem applyMutations_reversible (ms : List Mutation) :
    ∀ (s : BF2Scheduler) (acc : List Undo) (ok : Bool) (s1 : BF2Scheduler) (log : List Undo),
      applyMutations ms s acc = (ok, s1, log) →
      ∃ new, log = new ++ acc ∧ new.foldl revertUndo s1 = s ∧
        s1.scheduledStack_ = s.scheduledStack_ := by
  induction ms with
  | nil =>
    intro s acc ok s1 log h
    simp only [applyMutations, Prod.mk.injEq] at h
    obtain ⟨_, rfl, rfl⟩ := h
    exact ⟨[], rfl, rfl, rfl⟩
  | cons m ms ih =>
    intro s acc ok s1 log h
    simp only [applyMutations] at h
    cases hm : applyMutation s m with
    | none =>
      rw [hm] at h
      simp only [Prod.mk.injEq] at h
      obtain ⟨_, rfl, rfl⟩ := h
      exact ⟨[], rfl, rfl, rfl⟩
    | some r =>
      obtain ⟨s2, u⟩ := r
      rw [hm] at h
      simp only at h
      obtain ⟨new, hlog, hrev, hst⟩ := ih s2 (u :: acc) ok s1 log h
      refine ⟨new ++ [u], ?_, ?_, ?_⟩
      · rw [hlog]; simp
      · rw [List.foldl_append, hrev]
        simp only [List.foldl_cons, List.foldl_nil]
        exact revertUndo_applyMutation hm
      · rw [hst]; exact stack_applyMutation hm

/-- An operator one of whose checks fails leaves the state as it was. -/
theorem applyOpt_declined {kind : OptKind} {ms : List Mutation} {s : BF2Scheduler}
    (h : (applyOpt kind ms s).1 = false) : (applyOpt kind ms s).2 = s := by
  unfold applyOpt at h ⊢
  cases hr : applyMutations ms s [] with
  | mk ok r =>
    obtain ⟨s1, log⟩ := r
    rw [hr] at h
    cases ok with
    | true => simp at h
    | false =>
      simp only
      obtain ⟨new, hlog, hrev, _⟩ := applyMutations_reversible ms s [] false s1 log hr
      rw [List.append_nil] at hlog
      rw [hlog]
      exact hrev

/-- The rollback of an operator that was applied gives the state back. -/
theorem revertTopOpt_applyOpt {kind : OptKind} {ms : List Mutation} {s : BF2Scheduler}
    (h : (applyOpt kind ms s).1 = true) : revertTopOpt (applyOpt kind ms s).2 = s := by
  unfold applyOpt at h ⊢
  cases hr : applyMutations ms s [] with
  | mk ok r =>
    obtain ⟨s1, log⟩ := r
    rw [hr] at h
    cases ok with
    | false => simp at h
    | true =>
      simp only
      obtain ⟨new, hlog, hrev, hst⟩ := applyMutations_reversible ms s [] true s1 log hr
      rw [List.append_nil] at hlog
      subst hlog
      unfold revertTopOpt
      simp only
      rw [foldl_revertUndo_setStack, hrev]

/-- An operator that was applied is on top of the stack. -/
theorem stack_applyOpt {kind : OptKind} {ms : List Mutation} {s : BF2Scheduler}
    (h : (applyOpt kind ms s).1 = true) :
    ∃ log, (applyOpt kind ms s).2.scheduledStack_ =
      { kind := kind, undo := log } :: s.scheduledStack_ := by
  unfold applyOpt at h ⊢
  cases hr : applyMutations ms s [] with
  | mk ok r =>
    obtain ⟨s1, log⟩ := r
    rw [hr] at h
    cases ok with
    | false => simp at h
    | true => exact ⟨log, rfl⟩

theorem revertTopOpts_succ_applyOpt {kind : OptKind} {ms : List Mutation} {s : BF2Scheduler}
    (h : (applyOpt kind ms s).1 = true) (k : Nat) :
    revertTopOpts (k + 1) (applyOpt kind ms s).2 = revertTopOpts k s := by
  simp only [revertTopOpts]
  rw [revertTopOpt_applyOpt h]

theorem revertTopOpts_nil {s : BF2Scheduler} (h : s.scheduledStack_ = []) (k : Nat) :
    revertTopOpts k s = s := by
  induction k with
  | zero => rfl
  | succ k ih =>
    simp only [revertTopOpts]
    have : revertTopOpt s = s := by
      unfold revertTopOpt
      rw [h]
    rw [this, ih]

/-- Mutations whose checks pass keep a kept property, as far as they are done. -/
theorem kept_applyMutations {P : BF2Scheduler → Prop} (hP : Kept P) (ms : List Mutation) :
    ∀ (s : BF2Scheduler) (acc : List Undo), P s → P (applyMutations ms s acc).2.1 := by
  induction ms with
  | nil => intro s acc h; exact h
  | cons m ms ih =>
    intro s acc h
    simp only [applyMutations]
    cases hm : applyMutation s m with
    | none => exact h
    | some r =>
      obtain ⟨s2, u⟩ := r
      exact ih s2 (u :: acc) (hP s m s2 u h hm)

/-- A decision of the driver keeps a kept property, in the state and in every state
a rollback leads to. -/
theorem hist_perform {P : BF2Scheduler → Prop} (hP : Kept P) (hS : StackFree P)
    {s : BF2Scheduler} (h : Hist P s) (a : Action) : Hist P (perform s a) := by
  cases a with
  | revertTopOpt =>
    intro k
    exact h (k + 1)
  | opt kind ms =>
    simp only [perform]
    cases hok : (applyOpt kind ms s).1 with
    | false => rw [applyOpt_declined hok]; exact h
    | true =>
      intro k
      cases k with
      | succ k => rw [revertTopOpts_succ_applyOpt hok]; exact h k
      | zero =>
        simp only [revertTopOpts]
        have h0 : P s := h 0
        have := kept_applyMutations hP ms s [] h0
        unfold applyOpt
        cases hr : applyMutations ms s [] with
        | mk ok r =>
          obtain ⟨s1, log⟩ := r
          rw [hr] at this
          unfold applyOpt at hok
          rw [hr] at hok
          cases ok with
          | false => simp at hok
          | true => exact (hS s1 _).2 this

theorem hist_scheduleLoop {P : BF2Scheduler → Prop} (hP : Kept P) (hS : StackFree P)
    (next : BF2Scheduler → Option Action) (n : Nat) :
    ∀ s, Hist P s → Hist P (scheduleLoop next n s) := by
  induction n with
  | zero => intro s h; exact h
  | succ n ih =>
    intro s h
    simp only [scheduleLoop]
    cases next s with
    | none => exact h
    | some a => exact ih _ (hist_perform hP hS h a)

theorem hist_of_stack_nil {P : BF2Scheduler → Prop} {s : BF2Scheduler}
    (hs : s.scheduledStack_ = []) (h : P s) : Hist P s := by
  intro k
  rw [revertTopOpts_nil hs]
  exact h

theorem rollsBackTo_perform {s0 s : BF2Scheduler} (h : RollsBackTo s0 s) (a : Action) :
    RollsBackTo s0 (perform s a) := by
  cases a with
  | revertTopOpt =>
    simp only [perform]
    unfold RollsBackTo at h ⊢
    cases hst : s.scheduledStack_ with
    | nil =>
      have : revertTopOpt s = s := by
        unfold revertTopOpt
        rw [hst]
      rw [this]
      exact h
    | cons o rest =>
      have hl : (revertTopOpt s).scheduledStack_ = rest := by
        unfold revertTopOpt
        rw [hst]
      rw [hl]
      rw [hst] at h
      exact h
  | opt kind ms =>
    simp only [perform]
    cases hok : (applyOpt kind ms s).1 with
    | false => rw [applyOpt_declined hok]; exact h
    | true =>
      unfold RollsBackTo at h ⊢
      obtain ⟨log, hst⟩ := stack_applyOpt hok
      rw [hst, List.length_cons, revertTopOpts_succ_applyOpt hok]
      exact h

theorem rollsBackTo_scheduleLoop {s0 : BF2Scheduler} (next : BF2Scheduler → Option Action)
    (n : Nat) : ∀ s, RollsBackTo s0 s → RollsBackTo s0 (scheduleLoop next n s) := by
  induction n with
  | zero => intro s h; exact h
  | succ n ih =>
    intro s h
    simp only [scheduleLoop]
    cases next s with
    | none => exact h
    | some a => exact ih _ (rollsBackTo_perform h a)

theorem rollsBackTo_self {s : BF2Scheduler} (hs : s.scheduledStack_ = []) : RollsBackTo s s := by
  unfold RollsBackTo
  rw [hs]
  rfl

end BF2Scheduler

/-! ### The checks of a mutation keep ledger and graph together -/

namespace BF2Scheduler

open SimpleResourceManager DataDependenceGraph

theorem assign_eq {s : BF2Scheduler} {id : Nat} {mn : MoveNode} (c : Int) (b : Nat)
    (hn : s.ddg_.node id = some mn) :
    assign s id c b =
      { s with
        ddg_ := s.ddg_.setPlacement id (some (c, b))
        rm_ := SimpleResourceManager.assign s.targetMachine_ s.rm_ c mn b
        prologRM_ := s.prologRM_.map (fun p =>
          SimpleResourceManager.assign s.targetMachine_ p (c + PROLOG_CYCLE_BIAS) mn b) } := by
  unfold assign
  rw [hn]

theorem unassign_eq {s : BF2Scheduler} {id : Nat} {mn : MoveNode} {c : Int} {b : Nat}
    (hn : s.ddg_.node id = some mn) (hp : mn.placement = some (c, b)) :
    unassign s id =
      { s with
        ddg_ := s.ddg_.setPlacement id none
        rm_ := SimpleResourceManager.unassign s.targetMachine_ s.rm_ c mn b
        prologRM_ := s.prologRM_.map (fun p =>
          SimpleResourceManager.unassign s.targetMachine_ p (c + PROLOG_CYCLE_BIAS) mn b) } := by
  unfold unassign
  rw [hn]
  simp only [hp]

/-- A committed move of a graph in which an uncommitted move was changed is a
committed move of the graph before the change. -/
theorem scheduled_mem_modify {ddg : DataDependenceGraph} {id : Nat} {f : MoveNode → MoveNode}
    (hp : ∀ n, (f n).placement = n.placement)
    (hall : ∀ n ∈ ddg.nodes, n.id = id → n.placement = none)
    {n1 : MoveNode} (h : n1 ∈ (ddg.modify id f).nodes) {p : Int × Nat}
    (hs : n1.placement = some p) : n1 ∈ ddg.nodes := by
  obtain ⟨n, hn, e⟩ := mem_modify h
  by_cases hid : n.id = id
  · rw [if_pos hid] at e
    rw [e, hp, hall n hn hid] at hs
    cases hs
  · rw [if_neg hid] at e
    rw [e]; exact hn

/-- What is recorded for the committed moves depends on the moves, the machine and
the ledger only. -/
theorem records_congr {s s1 : BF2Scheduler} {shift : Int} {rm : SimpleResourceManager}
    (hn : ∀ n ∈ s1.ddg_.nodes, ∀ p, n.placement = some p → n ∈ s.ddg_.nodes)
    (hm : s1.targetMachine_ = s.targetMachine_) (h : Records s shift rm) :
    Records s1 shift rm := by
  intro n hn1 c b hp cr hcr
  rw [hm] at hcr
  exact h n (hn n hn1 _ hp) c b hp cr hcr

theorem sharedOK_congr {s s1 : BF2Scheduler}
    (hn : ∀ n ∈ s1.ddg_.nodes, ∀ p, n.placement = some p → n ∈ s.ddg_.nodes)
    (hm : s1.targetMachine_ = s.targetMachine_)
    (hsh : s1.preLoopSharedOperands_ = s.preLoopSharedOperands_) (h : SharedOK s) :
    SharedOK s1 := by
  intro op hop n hn1 hne c b hp cr hcr
  rw [hm] at hcr
  rw [hsh] at hop
  exact h op hop n (hn n hn1 _ hp) hne c b hp cr hcr

/-- A step that leaves the committed moves, the machine, the ledgers and the shared
ports alone keeps ledger and graph together. -/
theorem ledgerOK_congr {s s1 : BF2Scheduler}
    (hid : s1.ddg_.nodes.map MoveNode.id = s.ddg_.nodes.map MoveNode.id)
    (hn : ∀ n ∈ s1.ddg_.nodes, ∀ p, n.placement = some p → n ∈ s.ddg_.nodes)
    (hm : s1.targetMachine_ = s.targetMachine_) (hrm : s1.rm_ = s.rm_)
    (hprm : s1.prologRM_ = s.prologRM_)
    (hsh : s1.preLoopSharedOperands_ = s.preLoopSharedOperands_) (h : LedgerOK s) :
    LedgerOK s1 := by
  obtain ⟨h1, h2, h3, h4⟩ := h
  refine ⟨?_, ?_, ?_, sharedOK_congr hn hm hsh h4⟩
  · unfold DistinctIds; rw [hid]; exact h1
  · rw [hrm]; exact records_congr hn hm h2
  · intro p hp
    rw [hprm] at hp
    exact records_congr hn hm (h3 p hp)

/-- A commit into idle resources keeps the ledger a record of the committed moves. -/
theorem records_assign {s : BF2Scheduler} {id : Nat} {mn : MoveNode} {c : Int} {b : Nat}
    {shift : Int} {rm : SimpleResourceManager}
    (hd : DistinctIds s) (hn : s.ddg_.node id = some mn)
    (hf : feasibleOn s.targetMachine_ rm (c + shift) mn b = true)
    (h : Records s shift rm) :
    Records { s with ddg_ := s.ddg_.setPlacement id (some (c, b)) } shift
      (SimpleResourceManager.assign s.targetMachine_ rm (c + shift) mn b) := by
  intro n1 hn1 c1 b1 hp cr hcr
  obtain ⟨n, hnn, e⟩ := mem_modify hn1
  simp only at hcr
  rw [cell_assign]
  by_cases hid : n.id = id
  · rw [if_pos hid] at e
    have hnm : n = mn := eq_of_node_of_mem hd hn hnn hid
    subst hnm
    rw [e] at hp hcr ⊢
    simp only [Option.some.injEq, Prod.mk.injEq] at hp
    obtain ⟨rfl, rfl⟩ := hp
    rw [neededResources_placement] at hcr
    rw [if_pos hcr]
  · rw [if_neg hid] at e
    subst e
    have hold := h n1 hnn c1 b1 hp cr hcr
    by_cases hm : (cr.1, cr.2) ∈ neededResources s.targetMachine_ mn (c + shift) b
    · have := feasibleOn_idle hf hm
      rw [this] at hold
      cases hold
    · rw [if_neg hm]; exact hold

/-- A revert of a move that the ledger records keeps the ledger a record of the
committed moves. -/
theorem records_unassign {s : BF2Scheduler} {id : Nat} {mn : MoveNode} {c : Int} {b : Nat}
    {shift : Int} {rm : SimpleResourceManager}
    (hn : s.ddg_.node id = some mn)
    (hh : holds s.targetMachine_ rm (c + shift) mn b = true)
    (h : Records s shift rm) :
    Records { s with ddg_ := s.ddg_.setPlacement id none } shift
      (SimpleResourceManager.unassign s.targetMachine_ rm (c + shift) mn b) := by
  intro n1 hn1 c1 b1 hp cr hcr
  obtain ⟨n, hnn, e⟩ := mem_modify hn1
  simp only at hcr
  rw [cell_unassign]
  by_cases hid : n.id = id
  · rw [if_pos hid] at e
    rw [e] at hp
    cases hp
  · rw [if_neg hid] at e
    subst e
    have hold := h n1 hnn c1 b1 hp cr hcr
    by_cases hm : (cr.1, cr.2) ∈ neededResources s.targetMachine_ mn (c + shift) b
    · have := holds_cell hh hm
      rw [this] at hold
      have e1 : mn.id = n1.id := Option.some.inj hold
      rw [node_id_eq hn] at e1
      exact absurd e1.symm hid
    · rw [if_neg hm]; exact hold

theorem ledgerOK_assign {s : BF2Scheduler} {id : Nat} {c : Int} {b : Nat}
    (hc : canCommit s id c b = true) (h : LedgerOK s) : LedgerOK (assign s id c b) := by
  obtain ⟨mn, hn, _, _, _, _, hf, hpf, hsa, _, _⟩ := canCommit_node hc
  obtain ⟨h1, h2, h3, h4⟩ := h
  rw [assign_eq c b hn]
  refine ⟨?_, ?_, ?_, ?_⟩
  · show (List.map MoveNode.id (s.ddg_.setPlacement id (some (c, b))).nodes).Nodup
    rw [ids_setPlacement]
    exact h1
  · have hf0 : feasibleOn s.targetMachine_ s.rm_ (c + 0) mn b = true := by
      rw [Int.add_zero]; exact hf
    have := records_assign h1 hn hf0 h2
    rw [Int.add_zero] at this
    exact this
  · intro p hp
    simp only at hp
    cases hprm : s.prologRM_ with
    | none => rw [hprm] at hp; cases hp
    | some p0 =>
      rw [hprm] at hp
      simp only [Option.map_some', Option.some.injEq] at hp
      subst hp
      exact records_assign h1 hn (hpf p0 hprm) (h3 p0 hprm)
  · intro op hop n1 hn1 hne c1 b1 hp cr hcr
    obtain ⟨n, hnn, e⟩ := mem_modify hn1
    simp only at hcr hop
    by_cases hid : n.id = id
    · rw [if_pos hid] at e
      have hnm : n = mn := eq_of_node_of_mem h1 hn hnn hid
      subst hnm
      rw [e] at hp hcr hne
      simp only [Option.some.injEq, Prod.mk.injEq] at hp
      obtain ⟨rfl, rfl⟩ := hp
      rw [neededResources_placement] at hcr
      unfold sharedAllow at hsa
      simp only [List.all_eq_true, Bool.or_eq_true, decide_eq_true_eq] at hsa
      rcases hsa op hop with h | h
      · exact absurd h.symm hne
      · exact h cr hcr
    · rw [if_neg hid] at e
      subst e
      exact h4 op hop n1 hnn hne c1 b1 hp cr hcr

theorem ledgerOK_unassign {s : BF2Scheduler} {id : Nat}
    (hc : canRevert s id = true) (h : LedgerOK s) : LedgerOK (unassign s id) := by
  obtain ⟨mn, c, b, hn, hpl, _, hh, hph⟩ := canRevert_node hc
  obtain ⟨h1, h2, h3, h4⟩ := h
  rw [unassign_eq hn hpl]
  refine ⟨?_, ?_, ?_, ?_⟩
  · show (List.map MoveNode.id (s.ddg_.setPlacement id none).nodes).Nodup
    rw [ids_setPlacement]
    exact h1
  · have hh0 : holds s.targetMachine_ s.rm_ (c + 0) mn b = true := by
      rw [Int.add_zero]; exact hh
    have := records_unassign hn hh0 h2
    rw [Int.add_zero] at this
    exact this
  · intro p hp
    simp only at hp
    cases hprm : s.prologRM_ with
    | none => rw [hprm] at hp; cases hp
    | some p0 =>
      rw [hprm] at hp
      simp only [Option.map_some', Option.some.injEq] at hp
      subst hp
      exact records_unassign hn (hph p0 hprm) (h3 p0 hprm)
  · intro op hop n1 hn1 hne c1 b1 hp cr hcr
    obtain ⟨n, hnn, e⟩ := mem_modify hn1
    simp only at hcr hop
    by_cases hid : n.id = id
    · rw [if_pos hid] at e
      rw [e] at hp
      cases hp
    · rw [if_neg hid] at e
      subst e
      exact h4 op hop n1 hnn hne c1 b1 hp cr hcr

end BF2Scheduler

namespace BF2Scheduler

open SimpleResourceManager DataDependenceGraph

theorem kill_frame (s : BF2Scheduler) (id : Nat) (copyToo : Bool) :
    (kill s id copyToo).ddg_.nodes = s.ddg_.nodes ∧
    (kill s id copyToo).ddg_.edges = s.ddg_.edges ∧
    (kill s id copyToo).rm_ = s.rm_ ∧
    (kill s id copyToo).prologRM_ = s.prologRM_ ∧
    (kill s id copyToo).targetMachine_ = s.targetMachine_ ∧
    (kill s id copyToo).preLoopSharedOperands_ = s.preLoopSharedOperands_ := by
  unfold kill nodeAndCopyKilled nodeKilled
  split
  · split <;> simp [dropNode]
  · simp [dropNode]

/-- A change of the terminals of an uncommitted move keeps ledger and graph
together. -/
theorem ledgerOK_modify {s : BF2Scheduler} {id : Nat} (f : MoveNode → MoveNode)
    (hf : ∀ n, (f n).id = n.id) (hp : ∀ n, (f n).placement = n.placement)
    (hall : ∀ n ∈ s.ddg_.nodes, n.id = id → n.placement = none)
    {s1 : BF2Scheduler} (hd : s1.ddg_ = s.ddg_.modify id f)
    (hm : s1.targetMachine_ = s.targetMachine_) (hrm : s1.rm_ = s.rm_)
    (hprm : s1.prologRM_ = s.prologRM_)
    (hsh : s1.preLoopSharedOperands_ = s.preLoopSharedOperands_) (h : LedgerOK s) :
    LedgerOK s1 := by
  refine ledgerOK_congr ?_ ?_ hm hrm hprm hsh h
  · rw [hd]; exact ids_modify _ _ _ hf
  · intro n hn p hpl
    rw [hd] at hn
    exact scheduled_mem_modify hp hall hn hpl

/-- Every mutation whose checks pass keeps ledger and graph together. -/
theorem kept_ledgerOK : Kept LedgerOK := by
  intro s m s1 u hL h
  cases m with
  | assign id c b =>
    simp only [applyMutation] at h
    split at h
    · rename_i hc
      simp only [Option.some.injEq, Prod.mk.injEq] at h
      rw [← h.1]; exact ledgerOK_assign hc hL
    · cases h
  | unassign id =>
    simp only [applyMutation] at h
    split at h
    · cases h
    · split at h
      · rename_i hc
        simp only [Option.some.injEq, Prod.mk.injEq] at h
        rw [← h.1]; exact ledgerOK_unassign hc hL
      · cases h
  | kill id copyToo =>
    simp only [applyMutation] at h
    split at h
    · simp only [Option.some.injEq, Prod.mk.injEq] at h
      rw [← h.1]
      obtain ⟨k1, _, k3, k4, k5, k6⟩ := kill_frame s id copyToo
      exact ledgerOK_congr (by rw [k1]) (fun n hn _ _ => by rw [k1] at hn; exact hn)
        k5 k3 k4 k6 hL
    · cases h
  | removeEdge e =>
    simp only [applyMutation] at h
    split at h
    · simp only [Option.some.injEq, Prod.mk.injEq] at h
      rw [← h.1]
      exact ledgerOK_congr rfl (fun n hn _ _ => hn) rfl rfl rfl rfl hL
    · cases h
  | addEdge e =>
    simp only [applyMutation] at h
    split at h
    · simp only [Option.some.injEq, Prod.mk.injEq] at h
      rw [← h.1]
      exact ledgerOK_congr rfl (fun n hn _ _ => hn) rfl rfl rfl rfl hL
    · cases h
  | setSource id unit =>
    simp only [applyMutation] at h
    split at h
    · cases h
    · split at h
      · rename_i hc
        simp only [Option.some.injEq, Prod.mk.injEq] at h
        rw [← h.1]
        obtain ⟨_, _, hall⟩ := canRetarget_node hc
        exact ledgerOK_modify (fun n => { n with srcUnit := unit }) (fun _ => rfl) (fun _ => rfl) (fun n hn hid => (hall n hn hid).1)
          rfl rfl rfl rfl rfl hL
      · cases h
  | setDestination id unit port =>
    simp only [applyMutation] at h
    split at h
    · cases h
    · split at h
      · rename_i hc
        simp only [Option.some.injEq, Prod.mk.injEq] at h
        rw [← h.1]
        obtain ⟨_, _, hall⟩ := canRetarget_node hc
        exact ledgerOK_modify (fun n => { n with dstUnit := unit, dstPort := port }) (fun _ => rfl) (fun _ => rfl) (fun n hn hid => (hall n hn hid).1)
          rfl rfl rfl rfl rfl hL
      · cases h
  | sharePort id port =>
    simp only [applyMutation] at h
    split at h
    · rename_i hc
      simp only [Option.some.injEq, Prod.mk.injEq] at h
      rw [← h.1]
      obtain ⟨h1, h2, h3, h4⟩ := hL
      refine ⟨h1, h2, h3, ?_⟩
      intro op hop n hn hne c b hp cr hcr
      simp only [List.mem_cons] at hop
      rcases hop with rfl | hop
      · simp only [canShare, Bool.and_eq_true, List.all_eq_true, Bool.or_eq_true,
          decide_eq_true_eq] at hc
        rcases hc.2 n hn with h | h
        · exact absurd h hne
        · rw [hp] at h
          simp only [List.all_eq_true, decide_eq_true_eq] at h
          exact h cr hcr
      · exact h4 op hop n hn hne c b hp cr hcr
    · cases h
  | rename id reg =>
    simp only [applyMutation] at h
    split at h
    · cases h
    · split at h
      · rename_i hc
        simp only [Option.some.injEq, Prod.mk.injEq] at h
        rw [← h.1]
        simp only [canRename, Bool.and_eq_true] at hc
        obtain ⟨_, _, hall⟩ := canRetarget_node hc.2
        exact ledgerOK_modify (fun n => { n with dstReg := some reg }) (fun _ => rfl) (fun _ => rfl) (fun n hn hid => (hall n hn hid).1)
          rfl rfl rfl rfl rfl hL
      · cases h

theorem stackFree_ledgerOK : StackFree LedgerOK := fun _ _ => Iff.rfl

end BF2Scheduler

/-! ### The checks of a mutation keep the dependences and the trigger rule -/

namespace BF2Scheduler

open SimpleResourceManager DataDependenceGraph

end BF2Scheduler

namespace BF2Scheduler

open SimpleResourceManager DataDependenceGraph

theorem ids_assign {s : BF2Scheduler} {id : Nat} {mn : MoveNode} (c : Int) (b : Nat)
    (hn : s.ddg_.node id = some mn) :
    (assign s id c b).ddg_.nodes.map MoveNode.id = s.ddg_.nodes.map MoveNode.id := by
  rw [assign_eq c b hn]
  exact ids_setPlacement _ _ _

theorem ids_unassign {s : BF2Scheduler} {id : Nat} {mn : MoveNode} {c : Int} {b : Nat}
    (hn : s.ddg_.node id = some mn) (hp : mn.placement = some (c, b)) :
    (unassign s id).ddg_.nodes.map MoveNode.id = s.ddg_.nodes.map MoveNode.id := by
  rw [unassign_eq hn hp]
  exact ids_setPlacement _ _ _

/-- The committed moves after a revert are committed moves before it. -/
theorem scheduled_mem_unassign {s : BF2Scheduler} {id : Nat} {mn : MoveNode} {c : Int} {b : Nat}
    (hn : s.ddg_.node id = some mn) (hp : mn.placement = some (c, b))
    {n1 : MoveNode} (h : n1 ∈ (unassign s id).ddg_.nodes) {p : Int × Nat}
    (hs : n1.placement = some p) : n1 ∈ s.ddg_.nodes := by
  rw [unassign_eq hn hp] at h
  obtain ⟨n, hnn, e⟩ := mem_modify h
  by_cases hid : n.id = id
  · rw [if_pos hid] at e
    rw [e] at hs
    cases hs
  · rw [if_neg hid] at e
    rw [e]; exact hnn

theorem triggerAllow_spec {s : BF2Scheduler} {mn : MoveNode} {c : Int}
    (h : triggerAllow s mn c = true) {o : MoveNode} (ho : o ∈ s.ddg_.nodes) {co : Int} {bo : Nat}
    (hp : o.placement = some (co, bo)) (hpo : o.po = mn.po) (hne : mn.po ≠ none) :
    (mn.triggers s.targetMachine_ = true → o.isOperand s.targetMachine_ = true → co ≤ c) ∧
    (mn.isOperand s.targetMachine_ = true → o.triggers s.targetMachine_ = true → c ≤ co) := by
  unfold triggerAllow at h
  simp only [List.all_eq_true] at h
  have := h o ho
  rw [hp] at this
  simp only [Bool.or_eq_true, Bool.not_eq_true', Bool.and_eq_false_iff, Bool.and_eq_true,
    decide_eq_false_iff_not, decide_eq_true_eq] at this
  rcases this with h1 | h1
  · rcases h1 with h1 | h1
    · exact absurd hpo h1
    · exact absurd hne h1
  · constructor
    · intro ht hop
      rcases h1.1 with h2 | h2
      · rcases h2 with h2 | h2
        · rw [ht] at h2; cases h2
        · rw [hop] at h2; cases h2
      · exact h2
    · intro hop ht
      rcases h1.2 with h2 | h2
      · rcases h2 with h2 | h2
        · rw [hop] at h2; cases h2
        · rw [ht] at h2; cases h2
      · exact h2

/-- A step that leaves the committed moves and the machine alone keeps the trigger
rule. -/
theorem triggerOK_congr {s s1 : BF2Scheduler}
    (hn : ∀ n ∈ s1.ddg_.nodes, ∀ p, n.placement = some p → n ∈ s.ddg_.nodes)
    (hm : s1.targetMachine_ = s.targetMachine_) (h : TriggerOK s) : TriggerOK s1 := by
  intro t ht o ho hpo hne htr hop ct bt co bo hpt hpo2
  unfold isTrigger at htr
  rw [hm] at htr hop
  exact h t (hn t ht _ hpt) o (hn o ho _ hpo2) hpo hne htr hop ct bt co bo hpt hpo2

/-- A node of the graph after a change of one assignment, and the node it was. -/
theorem mem_setPlacement_cases {ddg : DataDependenceGraph} {id : Nat} {p : Option (Int × Nat)}
    (m : Machine) {n1 : MoveNode} (h : n1 ∈ (ddg.setPlacement id p).nodes) :
    ∃ n ∈ ddg.nodes, n1.po = n.po ∧ n1.triggers m = n.triggers m ∧
      n1.isOperand m = n.isOperand m ∧
      ((n.id = id ∧ n1.placement = p) ∨ (n.id ≠ id ∧ n1 = n)) := by
  obtain ⟨n, hn, e⟩ := mem_modify h
  refine ⟨n, hn, ?_⟩
  by_cases hid : n.id = id
  · rw [if_pos hid] at e
    subst e
    exact ⟨rfl, rfl, rfl, Or.inl ⟨hid, rfl⟩⟩
  · rw [if_neg hid] at e
    subst e
    exact ⟨rfl, rfl, rfl, Or.inr ⟨hid, rfl⟩⟩

theorem not_trigger_and_operand (m : Machine) (n : MoveNode) (h1 : n.triggers m = true)
    (h2 : n.isOperand m = true) : False := by
  unfold MoveNode.isOperand at h2
  rw [h1] at h2
  simp at h2

theorem triggerOK_assign {s : BF2Scheduler} {id : Nat} {c : Int} {b : Nat}
    (hc : canCommit s id c b = true) (hd : DistinctIds s) (h : TriggerOK s) :
    TriggerOK (assign s id c b) := by
  obtain ⟨mn, hn, _, _, _, _, _, _, _, _, hta⟩ := canCommit_node hc
  rw [assign_eq c b hn]
  intro t1 ht1 o1 ho1 hpo hne htr hop ct bt co bo hpt hpo2
  obtain ⟨t, htn, tpo, ttr, _, tcase⟩ := mem_setPlacement_cases s.targetMachine_ ht1
  obtain ⟨o, hon, opo, _, oop, ocase⟩ := mem_setPlacement_cases s.targetMachine_ ho1
  have htr1 : t.triggers s.targetMachine_ = true := by rw [← ttr]; exact htr
  have hop1 : o.isOperand s.targetMachine_ = true := by rw [← oop]; exact hop
  have hpo1 : t.po = o.po := by rw [← tpo, ← opo]; exact hpo
  have hne1 : t.po ≠ none := by rw [← tpo]; exact hne
  rcases tcase with ⟨htid, htp⟩ | ⟨htid, rfl⟩
  · have htm : t = mn := eq_of_node_of_mem hd hn htn htid
    rw [htp] at hpt
    simp only [Option.some.injEq, Prod.mk.injEq] at hpt
    obtain ⟨rfl, rfl⟩ := hpt
    rcases ocase with ⟨hoid, _⟩ | ⟨hoid, rfl⟩
    · have hom : o = mn := eq_of_node_of_mem hd hn hon hoid
      rw [htm] at htr1
      rw [hom] at hop1
      exact (not_trigger_and_operand _ _ htr1 hop1).elim
    · rw [htm] at htr1 hpo1 hne1
      exact (triggerAllow_spec hta hon hpo2 hpo1.symm hne1).1 htr1 hop1
  · rcases ocase with ⟨hoid, hop2⟩ | ⟨hoid, rfl⟩
    · have hom : o = mn := eq_of_node_of_mem hd hn hon hoid
      rw [hop2] at hpo2
      simp only [Option.some.injEq, Prod.mk.injEq] at hpo2
      obtain ⟨rfl, rfl⟩ := hpo2
      rw [hom] at hop1 hpo1
      have hne2 : mn.po ≠ none := by rw [← hpo1]; exact hne1
      exact (triggerAllow_spec hta htn hpt hpo1 hne2).2 hop1 htr1
    · exact h t1 htn o1 hon hpo1 hne1 htr1 hop1 ct bt co bo hpt hpo2

/-- A change of the terminals of an uncommitted move keeps distinct identifiers and
the trigger rule. -/
theorem triggerInv_modify {s : BF2Scheduler} {id : Nat} (f : MoveNode → MoveNode)
    (hf : ∀ n, (f n).id = n.id) (hp : ∀ n, (f n).placement = n.placement)
    (hall : ∀ n ∈ s.ddg_.nodes, n.id = id → n.placement = none)
    {s1 : BF2Scheduler} (hd1 : s1.ddg_ = s.ddg_.modify id f)
    (hm : s1.targetMachine_ = s.targetMachine_) (h : DistinctIds s ∧ TriggerOK s) :
    DistinctIds s1 ∧ TriggerOK s1 := by
  refine ⟨?_, triggerOK_congr ?_ hm h.2⟩
  · unfold DistinctIds
    rw [hd1, ids_modify _ _ _ hf]
    exact h.1
  · intro n hn p hpl
    rw [hd1] at hn
    exact scheduled_mem_modify hp hall hn hpl

/-- Distinct identifiers and the trigger rule together. -/
theorem kept_triggerOK : Kept (fun s => DistinctIds s ∧ TriggerOK s) := by
  intro s m s1 u hT h
  obtain ⟨hd, hT⟩ := hT
  cases m with
  | assign id c b =>
    simp only [applyMutation] at h
    split at h
    · rename_i hc
      simp only [Option.some.injEq, Prod.mk.injEq] at h
      rw [← h.1]
      obtain ⟨mn, hn, _⟩ := canCommit_node hc
      refine ⟨?_, triggerOK_assign hc hd hT⟩
      unfold DistinctIds
      rw [ids_assign c b hn]
      exact hd
    · cases h
  | unassign id =>
    simp only [applyMutation] at h
    split at h
    · cases h
    · split at h
      · rename_i hc
        simp only [Option.some.injEq, Prod.mk.injEq] at h
        rw [← h.1]
        obtain ⟨mn, c, b, hn, hpl, _⟩ := canRevert_node hc
        refine ⟨?_, triggerOK_congr (fun n hn1 p hp => scheduled_mem_unassign hn hpl hn1 hp)
          (by rw [unassign_eq hn hpl]) hT⟩
        unfold DistinctIds
        rw [ids_unassign hn hpl]
        exact hd
      · cases h
  | kill id copyToo =>
    simp only [applyMutation] at h
    split at h
    · simp only [Option.some.injEq, Prod.mk.injEq] at h
      rw [← h.1]
      obtain ⟨k1, _, _, _, k5, _⟩ := kill_frame s id copyToo
      refine ⟨?_, triggerOK_congr (fun n hn _ _ => by rw [k1] at hn; exact hn) k5 hT⟩
      unfold DistinctIds
      rw [k1]
      exact hd
    · cases h
  | removeEdge e =>
    simp only [applyMutation] at h
    split at h
    · simp only [Option.some.injEq, Prod.mk.injEq] at h
      rw [← h.1]
      exact ⟨hd, hT⟩
    · cases h
  | addEdge e =>
    simp only [applyMutation] at h
    split at h
    · simp only [Option.some.injEq, Prod.mk.injEq] at h
      rw [← h.1]
      exact ⟨hd, hT⟩
    · cases h
  | setSource id unit =>
    simp only [applyMutation] at h
    split at h
    · cases h
    · split at h
      · rename_i hc
        simp only [Option.some.injEq, Prod.mk.injEq] at h
        rw [← h.1]
        obtain ⟨_, _, hall⟩ := canRetarget_node hc
        exact triggerInv_modify (fun n => { n with srcUnit := unit }) (fun _ => rfl) (fun _ => rfl)
          (fun n hn hid => (hall n hn hid).1) rfl rfl ⟨hd, hT⟩
      · cases h
  | setDestination id unit port =>
    simp only [applyMutation] at h
    split at h
    · cases h
    · split at h
      · rename_i hc
        simp only [Option.some.injEq, Prod.mk.injEq] at h
        rw [← h.1]
        obtain ⟨_, _, hall⟩ := canRetarget_node hc
        exact triggerInv_modify (fun n => { n with dstUnit := unit, dstPort := port }) (fun _ => rfl) (fun _ => rfl)
          (fun n hn hid => (hall n hn hid).1) rfl rfl ⟨hd, hT⟩
      · cases h
  | sharePort id port =>
    simp only [applyMutation] at h
    split at h
    · simp only [Option.some.injEq, Prod.mk.injEq] at h
      rw [← h.1]
      exact ⟨hd, hT⟩
    · cases h
  | rename id reg =>
    simp only [applyMutation] at h
    split at h
    · cases h
    · split at h
      · rename_i hc
        simp only [Option.some.injEq, Prod.mk.injEq] at h
        rw [← h.1]
        simp only [canRename, Bool.and_eq_true] at hc
        obtain ⟨_, _, hall⟩ := canRetarget_node hc.2
        exact triggerInv_modify (fun n => { n with dstReg := some reg }) (fun _ => rfl) (fun _ => rfl)
          (fun n hn hid => (hall n hn hid).1) rfl rfl ⟨hd, hT⟩
      · cases h

theorem stackFree_triggerOK : StackFree (fun s => DistinctIds s ∧ TriggerOK s) :=
  fun _ _ => Iff.rfl

/-- Every mutation whose checks pass keeps the two removed-node sets disjoint. -/
theorem kept_removedDisjoint : Kept RemovedDisjoint := by
  intro s m s1 u hR h
  cases m with
  | assign id c b =>
    simp only [applyMutation] at h
    split at h
    · rename_i hc
      simp only [Option.some.injEq, Prod.mk.injEq] at h
      rw [← h.1]
      obtain ⟨mn, hn, _⟩ := canCommit_node hc
      rw [assign_eq c b hn]
      exact hR
    · cases h
  | unassign id =>
    simp only [applyMutation] at h
    split at h
    · cases h
    · split at h
      · rename_i hc
        simp only [Option.some.injEq, Prod.mk.injEq] at h
        rw [← h.1]
        obtain ⟨mn, c, b, hn, hpl, _⟩ := canRevert_node hc
        rw [unassign_eq hn hpl]
        exact hR
      · cases h
  | kill id copyToo =>
    simp only [applyMutation] at h
    split at h
    · rename_i hc
      simp only [Option.some.injEq, Prod.mk.injEq] at h
      rw [← h.1]
      obtain ⟨_, _, _, _, hdre, hrem, _⟩ := canKill_node hc
      intro x hx
      cases copyToo with
      | true =>
        simp only [kill, nodeAndCopyKilled, if_true, Finset.mem_insert] at hx
        rcases hx.1 with rfl | h1
        · exact hrem hx.2
        · exact hR x ⟨h1, hx.2⟩
      | false =>
        simp only [kill, nodeKilled, Bool.false_eq_true, if_false, Finset.mem_insert] at hx
        rcases hx.2 with rfl | h1
        · exact hdre hx.1
        · exact hR x ⟨hx.1, h1⟩
    · cases h
  | removeEdge e =>
    simp only [applyMutation] at h
    split at h
    · simp only [Option.some.injEq, Prod.mk.injEq] at h
      rw [← h.1]; exact hR
    · cases h
  | addEdge e =>
    simp only [applyMutation] at h
    split at h
    · simp only [Option.some.injEq, Prod.mk.injEq] at h
      rw [← h.1]; exact hR
    · cases h
  | setSource id unit =>
    simp only [applyMutation] at h
    split at h
    · cases h
    · split at h
      · simp only [Option.some.injEq, Prod.mk.injEq] at h
        rw [← h.1]; exact hR
      · cases h
  | setDestination id unit port =>
    simp only [applyMutation] at h
    split at h
    · cases h
    · split at h
      · simp only [Option.some.injEq, Prod.mk.injEq] at h
        rw [← h.1]; exact hR
      · cases h
  | sharePort id port =>
    simp only [applyMutation] at h
    split at h
    · simp only [Option.some.injEq, Prod.mk.injEq] at h
      rw [← h.1]; exact hR
    · cases h
  | rename id reg =>
    simp only [applyMutation] at h
    split at h
    · cases h
    · split at h
      · simp only [Option.some.injEq, Prod.mk.injEq] at h
        rw [← h.1]; exact hR
      · cases h

theorem stackFree_removedDisjoint : StackFree RemovedDisjoint := fun _ _ => Iff.rfl

end BF2Scheduler

/-! ### The two entry points -/

namespace BF2Scheduler

open SimpleResourceManager DataDependenceGraph

/-- A kept property of the start state holds after the control loop, in the state
and in every state a rollback leads to. -/
theorem hist_scheduleDDG {P : BF2Scheduler → Prop} (hP : Kept P) (hS : StackFree P)
    (policy : Policy) {s : BF2Scheduler} (hs : s.scheduledStack_ = []) (h : P s) :
    Hist P (scheduleDDG policy s).2 :=
  hist_scheduleLoop hP hS policy.next policy.budget s (hist_of_stack_nil hs h)

theorem unschedule_scheduleDDG (policy : Policy) {s : BF2Scheduler}
    (hs : s.scheduledStack_ = []) : unschedule (scheduleDDG policy s).2 = s :=
  rollsBackTo_scheduleLoop policy.next policy.budget s (rollsBackTo_self hs)

/-- Whatever the end of an entry point does, commit or rollback, a kept property
holds in the state it leaves. -/
theorem finish_keeps {P : BF2Scheduler → Prop} (hS : StackFree P) {s : BF2Scheduler}
    (h : Hist P s) (ok testOnly : Bool) : P (finish (ok, s) testOnly).2 := by
  unfold finish
  simp only
  split
  · split
    · exact h _
    · exact (hS s []).2 (h 0)
  · exact h _

/-- A committing call that does not report a failure has reached `Done` and has
committed the schedule. -/
theorem finish_committed {ok : Bool} {s : BF2Scheduler} (h : (finish (ok, s) false).1 ≠ -1) :
    ok = true ∧ (finish (ok, s) false).2 = finalizeSchedule s := by
  unfold finish at h ⊢
  simp only at h ⊢
  cases ok with
  | false => simp at h
  | true => simp

theorem handleDDG_keeps {P : BF2Scheduler → Prop} (hP : Kept P) (hS : StackFree P)
    (self : BF2Scheduler) (policy : Policy) (ddg : DataDependenceGraph)
    (rm : SimpleResourceManager) (targetMachine : Machine) (minCycle : Int) (testOnly : Bool)
    (h : P (startState self ddg rm targetMachine minCycle)) :
    P (handleDDG self policy ddg rm targetMachine minCycle testOnly).2 :=
  finish_keeps hS (hist_scheduleDDG hP hS policy rfl h) _ testOnly

theorem handleLoopDDG_keeps {P : BF2Scheduler → Prop} (hP : Kept P) (hS : StackFree P)
    (self : BF2Scheduler) (policy : Policy) (ddg : DataDependenceGraph)
    (rm : SimpleResourceManager) (targetMachine : Machine) (tripCount : Int)
    (prologRM : Option SimpleResourceManager) (testOnly : Bool)
    (h : P (loopStartState self ddg rm targetMachine tripCount prologRM)) :
    P (handleLoopDDG self policy ddg rm targetMachine tripCount prologRM testOnly).2 :=
  finish_keeps hS (hist_scheduleDDG hP hS policy rfl h) _ testOnly

theorem handleDDG_committed {self : BF2Scheduler} {policy : Policy} {ddg : DataDependenceGraph}
    {rm : SimpleResourceManager} {targetMachine : Machine} {minCycle : Int}
    (h : (handleDDG self policy ddg rm targetMachine minCycle false).1 ≠ -1) :
    (handleDDG self policy ddg rm targetMachine minCycle false).2.ddg_.allScheduled = true ∧
    (handleDDG self policy ddg rm targetMachine minCycle false).2.scheduledStack_ = [] := by
  unfold handleDDG scheduleDDG at h ⊢
  obtain ⟨hok, hst⟩ := finish_committed h
  rw [hst]
  exact ⟨hok, rfl⟩

theorem handleLoopDDG_committed {self : BF2Scheduler} {policy : Policy}
    {ddg : DataDependenceGraph} {rm : SimpleResourceManager} {targetMachine : Machine}
    {tripCount : Int} {prologRM : Option SimpleResourceManager}
    (h : (handleLoopDDG self policy ddg rm targetMachine tripCount prologRM false).1 ≠ -1) :
    (handleLoopDDG self policy ddg rm targetMachine tripCount prologRM
      false).2.ddg_.allScheduled = true ∧
    (handleLoopDDG self policy ddg rm targetMachine tripCount prologRM
      false).2.scheduledStack_ = [] ∧
    safeToOverlap (scheduleDDG policy
      (loopStartState self ddg rm targetMachine tripCount prologRM)).2 = true := by
  unfold handleLoopDDG scheduleDDG at h ⊢
  simp only at h ⊢
  obtain ⟨hok, hst⟩ := finish_committed h
  rw [hst]
  simp only [Bool.and_eq_true, Bool.false_or] at hok
  exact ⟨hok.1, rfl, hok.2⟩

/-- A unit none of whose moves is committed fits every ledger. -/
theorem ledgerOK_of_unscheduled {s : BF2Scheduler} (hd : DistinctIds s)
    (hu : ∀ n ∈ s.ddg_.nodes, n.placement = none) : LedgerOK s := by
  refine ⟨hd, ?_, ?_, ?_⟩
  · intro n hn c b hp
    rw [hu n hn] at hp
    cases hp
  · intro p _ n hn c b hp
    rw [hu n hn] at hp
    cases hp
  · intro op _ n hn _ c b hp
    rw [hu n hn] at hp
    cases hp

/-- When ledger and graph fit together, two committed moves never need the same
resource in the same cycle. -/
theorem scheduleExclusive_of_ledgerOK {s : BF2Scheduler} (h : LedgerOK s) :
    ScheduleExclusive s := by
  obtain ⟨_, h2, _, h4⟩ := h
  refine ⟨?_, h4⟩
  intro a ha b hb hne ca ba cb bb hpa hpb cr hcra hcrb
  have e1 := h2 a ha ca ba hpa cr (by rw [Int.add_zero]; exact hcra)
  have e2 := h2 b hb cb bb hpb cr (by rw [Int.add_zero]; exact hcrb)
  rw [e1] at e2
  exact hne (Option.some.inj e2)

theorem bus_mem_needed (m : Machine) (mn : MoveNode) (c : Int) (b : Nat) :
    (c, Resource.bus b) ∈ neededResources m mn c b := by
  simp [neededResources]

theorem port_mem_needed (m : Machine) (mn : MoveNode) (c : Int) (b : Nat) :
    (c, Resource.port mn.dstPort) ∈ neededResources m mn c b := by
  simp [neededResources]

theorem issueSlot_mem_needed (m : Machine) (mn : MoveNode) (c : Int) (b : Nat)
    (h : mn.triggers m = true) :
    (c, Resource.issueSlot mn.dstUnit) ∈ neededResources m mn c b := by
  simp [neededResources, h]

theorem resultPort_mem_needed (m : Machine) (mn : MoveNode) (c : Int) (b : Nat)
    (h : mn.triggers m = true) (c1 : Int) (h1 : c ≤ c1) (h2 : c1 < c + (mn.latency : Int)) :
    (c1, Resource.port mn.resultPort) ∈ neededResources m mn c b := by
  have hlt : (c1 - c).toNat < mn.latency := by omega
  have he : c + ((c1 - c).toNat : Int) = c1 := by omega
  simp only [neededResources, h, if_true, List.mem_append, List.mem_cons]
  right
  right
  exact List.mem_map.2 ⟨(c1 - c).toNat, List.mem_range.2 hlt, by rw [he]⟩

/-- Exclusive needs, spelled out for buses, ports, issue slots and result windows. -/
theorem noCollision_of_exclusive {s : BF2Scheduler} (h : ScheduleExclusive s) :
    NoCollision s := by
  intro a ha b hb hne ca ba cb bb hpa hpb
  have hx := h.1 a ha b hb hne ca ba cb bb hpa hpb
  refine ⟨?_, ?_, ?_, ?_⟩
  · intro hc
    subst hc
    constructor
    · intro hbus
      subst hbus
      exact hx _ (bus_mem_needed _ a ca ba) (bus_mem_needed _ b ca ba)
    · intro hport
      have := port_mem_needed s.targetMachine_ b ca bb
      rw [← hport] at this
      exact hx _ (port_mem_needed _ a ca ba) this
  · intro hta htb hu hc
    subst hc
    have := issueSlot_mem_needed s.targetMachine_ b ca bb htb
    rw [← hu] at this
    exact hx _ (issueSlot_mem_needed _ a ca ba hta) this
  · intro hta h1 h2 hport
    have := port_mem_needed s.targetMachine_ b cb bb
    rw [hport] at this
    exact hx _ (resultPort_mem_needed _ a ca ba hta cb h1 h2) this
  · intro hta htb hport hlat h1 h2
    have := resultPort_mem_needed s.targetMachine_ b cb bb htb cb (le_refl _) (by omega)
    rw [← hport] at this
    exact hx _ (resultPort_mem_needed _ a ca ba hta cb h1 h2) this

end BF2Scheduler

/-! ### Resource exclusivity, dependence preservation, trigger after operands -/

namespace BF2Scheduler

open SimpleResourceManager DataDependenceGraph

theorem triggerOK_of_unscheduled {s : BF2Scheduler}
    (hu : ∀ n ∈ s.ddg_.nodes, n.placement = none) : TriggerOK s := by
  intro t ht o _ _ _ _ _ ct bt co bo hpt _
  rw [hu t ht] at hpt
  cases hpt

/-- C1: resource exclusivity. Whatever the policy of the driver, in the schedule that
`handleDDG` or `handleLoopDDG` commits with `finalizeSchedule` on a unit whose ledger
and graph fit together (a new unit in particular), every move of the graph is
scheduled, two moves never need the same resource (bus, port, issue slot) in the same
cycle (in one cycle they are on different buses and write different ports, two
triggers of one function unit are in different cycles, the result port of an
operation in flight is written by no other move), no move needs a port reserved for
another move across the loop body, and the ledger names each move as the one
occupant of what it needs. -/
theorem committed_schedule_resource_exclusive (self : BF2Scheduler) (policy : Policy)
    (ddg : DataDependenceGraph) (rm : SimpleResourceManager) (targetMachine : Machine)
    (minCycle tripCount : Int) (prologRM : Option SimpleResourceManager) :
    (LedgerOK (startState self ddg rm targetMachine minCycle) →
      (handleDDG self policy ddg rm targetMachine minCycle false).1 ≠ -1 →
      (handleDDG self policy ddg rm targetMachine minCycle false).2.ddg_.allScheduled = true ∧
      ScheduleExclusive (handleDDG self policy ddg rm targetMachine minCycle false).2 ∧
      NoCollision (handleDDG self policy ddg rm targetMachine minCycle false).2 ∧
      LedgerOK (handleDDG self policy ddg rm targetMachine minCycle false).2) ∧
    (LedgerOK (loopStartState self ddg rm targetMachine tripCount prologRM) →
      (handleLoopDDG self policy ddg rm targetMachine tripCount prologRM false).1 ≠ -1 →
      (handleLoopDDG self policy ddg rm targetMachine tripCount prologRM
        false).2.ddg_.allScheduled = true ∧
      ScheduleExclusive
        (handleLoopDDG self policy ddg rm targetMachine tripCount prologRM false).2 ∧
      NoCollision (handleLoopDDG self policy ddg rm targetMachine tripCount prologRM false).2 ∧
      LedgerOK (handleLoopDDG self policy ddg rm targetMachine tripCount prologRM false).2) := by
  constructor
  · intro h hne
    have hL := handleDDG_keeps kept_ledgerOK stackFree_ledgerOK self policy ddg rm
      targetMachine minCycle false h
    exact ⟨(handleDDG_committed hne).1, scheduleExclusive_of_ledgerOK hL,
      noCollision_of_exclusive (scheduleExclusive_of_ledgerOK hL), hL⟩
  · intro h hne
    have hL := handleLoopDDG_keeps kept_ledgerOK stackFree_ledgerOK self policy ddg rm
      targetMachine tripCount prologRM false h
    exact ⟨(handleLoopDDG_committed hne).1, scheduleExclusive_of_ledgerOK hL,
      noCollision_of_exclusive (scheduleExclusive_of_ledgerOK hL), hL⟩

set_option maxRecDepth 100000 in
/-- Witness of C1: two independent moves on a machine with one bus are committed by
the bottom-up policy, and the committed schedule is exclusive. -/
theorem committed_schedule_resource_exclusive_witness :
    (handleDDG Sample.sched (Sample.bottomUp 10) Sample.twoMoves
      (SimpleResourceManager.empty 0) Sample.machine 0 false).1 ≠ -1 ∧
    ScheduleExclusive (handleDDG Sample.sched (Sample.bottomUp 10) Sample.twoMoves
      (SimpleResourceManager.empty 0) Sample.machine 0 false).2 :=
  ⟨by decide,
   ((committed_schedule_resource_exclusive Sample.sched (Sample.bottomUp 10) Sample.twoMoves
      (SimpleResourceManager.empty 0) Sample.machine 0 0 none).1
      (ledgerOK_of_unscheduled (by unfold DistinctIds; decide) (by decide)) (by decide)).2.1⟩

/-- C3: trigger after operands. Whatever the policy of the driver, in the schedule
that `handleDDG` or `handleLoopDDG` commits on a unit with distinct move identifiers
whose committed placements respect the rule (a new unit in particular), every move is
scheduled and for every operation the cycle of its trigger move, the input move
that `isTrigger` accepts on its destination unit, is at least the cycle of each of
its operand moves. -/
theorem trigger_after_operands (self : BF2Scheduler) (policy : Policy)
    (ddg : DataDependenceGraph) (rm : SimpleResourceManager) (targetMachine : Machine)
    (minCycle tripCount : Int) (prologRM : Option SimpleResourceManager) :
    (DistinctIds (startState self ddg rm targetMachine minCycle) ∧
        TriggerOK (startState self ddg rm targetMachine minCycle) →
      (handleDDG self policy ddg rm targetMachine minCycle false).1 ≠ -1 →
      (handleDDG self policy ddg rm targetMachine minCycle false).2.ddg_.allScheduled = true ∧
      TriggerOK (handleDDG self policy ddg rm targetMachine minCycle false).2) ∧
    (DistinctIds (loopStartState self ddg rm targetMachine tripCount prologRM) ∧
        TriggerOK (loopStartState self ddg rm targetMachine tripCount prologRM) →
      (handleLoopDDG self policy ddg rm targetMachine tripCount prologRM false).1 ≠ -1 →
      (handleLoopDDG self policy ddg rm targetMachine tripCount prologRM
        false).2.ddg_.allScheduled = true ∧
      TriggerOK (handleLoopDDG self policy ddg rm targetMachine tripCount prologRM false).2) := by
  constructor
  · intro h hne
    exact ⟨(handleDDG_committed hne).1,
      (handleDDG_keeps kept_triggerOK stackFree_triggerOK self policy ddg rm
        targetMachine minCycle false h).2⟩
  · intro h hne
    exact ⟨(handleLoopDDG_committed hne).1,
      (handleLoopDDG_keeps kept_triggerOK stackFree_triggerOK self policy ddg rm
        targetMachine tripCount prologRM false h).2⟩

set_option maxRecDepth 100000 in
/-- Witness of C3 on the sample operation: the operand move 1 is committed in cycle 6
and the trigger move 2 in cycle 7. -/
theorem trigger_after_operands_witness :
    (handleDDG Sample.sched (Sample.bottomUp 10) Sample.operation
      (SimpleResourceManager.empty 0) Sample.machine 0 false).1 ≠ -1 ∧
    (handleDDG Sample.sched (Sample.bottomUp 10) Sample.operation
      (SimpleResourceManager.empty 0) Sample.machine 0 false).2.ddg_.cycleOf 1 = some 6 ∧
    (handleDDG Sample.sched (Sample.bottomUp 10) Sample.operation
      (SimpleResourceManager.empty 0) Sample.machine 0 false).2.ddg_.cycleOf 2 = some 7 ∧
    TriggerOK (handleDDG Sample.sched (Sample.bottomUp 10) Sample.operation
      (SimpleResourceManager.empty 0) Sample.machine 0 false).2 :=
  ⟨by decide, by decide, by decide,
   ((trigger_after_operands Sample.sched (Sample.bottomUp 10) Sample.operation
      (SimpleResourceManager.empty 0) Sample.machine 0 0 none).1
      ⟨by unfold DistinctIds; decide, triggerOK_of_unscheduled (by decide)⟩ (by decide)).2⟩

end BF2Scheduler

/-! ### Rollback, test-only mode and the removed-node bookkeeping -/

namespace BF2Scheduler

open SimpleResourceManager DataDependenceGraph

theorem revertTopOpts_add (a : Nat) :
    ∀ (b : Nat) (s : BF2Scheduler),
      revertTopOpts (a + b) s = revertTopOpts b (revertTopOpts a s) := by
  induction a with
  | zero => intro b s; simp [revertTopOpts]
  | succ a ih =>
    intro b s
    have : a + 1 + b = (a + b) + 1 := by omega
    rw [this]
    simp only [revertTopOpts]
    exact ih b _

/-- Operators applied in order are rolled back, most recent first, to the state they
started from. -/
theorem revertTopOpts_applyOpts (ops : List (OptKind × List Mutation)) :
    ∀ s : BF2Scheduler,
      s.scheduledStack_.length ≤ (applyOpts ops s).scheduledStack_.length ∧
      revertTopOpts ((applyOpts ops s).scheduledStack_.length - s.scheduledStack_.length)
        (applyOpts ops s) = s := by
  induction ops with
  | nil =>
    intro s
    simp [applyOpts, revertTopOpts]
  | cons o os ih =>
    intro s
    simp only [applyOpts]
    obtain ⟨hle, hrev⟩ := ih (applyOpt o.1 o.2 s).2
    cases hok : (applyOpt o.1 o.2 s).1 with
    | false =>
      rw [applyOpt_declined hok] at hle hrev ⊢
      exact ⟨hle, hrev⟩
    | true =>
      obtain ⟨log, hst⟩ := stack_applyOpt hok
      rw [hst, List.length_cons] at hle hrev
      refine ⟨by omega, ?_⟩
      have : (applyOpts os (applyOpt o.1 o.2 s).2).scheduledStack_.length -
          s.scheduledStack_.length =
          ((applyOpts os (applyOpt o.1 o.2 s).2).scheduledStack_.length -
            (s.scheduledStack_.length + 1)) + 1 := by omega
      rw [this, revertTopOpts_add, hrev]
      simp only [revertTopOpts]
      exact revertTopOpt_applyOpt hok

/-- The window of the unit is not changed by a mutation. -/
theorem latestCycle_applyMutation {s s1 : BF2Scheduler} {m : Mutation} {u : Undo}
    (h : applyMutation s m = some (s1, u)) : s1.latestCycle_ = s.latestCycle_ := by
  cases m with
  | assign id c b =>
    simp only [applyMutation] at h
    split at h
    · rename_i hc
      simp only [Option.some.injEq, Prod.mk.injEq] at h
      rw [← h.1]
      obtain ⟨mn, hn, _⟩ := canCommit_node hc
      rw [assign_eq c b hn]
    · cases h
  | unassign id =>
    simp only [applyMutation] at h
    split at h
    · cases h
    · split at h
      · rename_i hc
        simp only [Option.some.injEq, Prod.mk.injEq] at h
        rw [← h.1]
        obtain ⟨mn, c, b, hn, hpl, _⟩ := canRevert_node hc
        rw [unassign_eq hn hpl]
      · cases h
  | kill id copyToo =>
    simp only [applyMutation] at h
    split at h
    · simp only [Option.some.injEq, Prod.mk.injEq] at h
      rw [← h.1]
      unfold kill nodeAndCopyKilled nodeKilled
      split <;> rfl
    · cases h
  | removeEdge e =>
    simp only [applyMutation] at h
    split at h
    · simp only [Option.some.injEq, Prod.mk.injEq] at h
      rw [← h.1]
    · cases h
  | addEdge e =>
    simp only [applyMutation] at h
    split at h
    · simp only [Option.some.injEq, Prod.mk.injEq] at h
      rw [← h.1]
    · cases h
  | setSource id unit =>
    simp only [applyMutation] at h
    split at h
    · cases h
    · split at h
      · simp only [Option.some.injEq, Prod.mk.injEq] at h
        rw [← h.1]
      · cases h
  | setDestination id unit port =>
    simp only [applyMutation] at h
    split at h
    · cases h
    · split at h
      · simp only [Option.some.injEq, Prod.mk.injEq] at h
        rw [← h.1]
      · cases h
  | sharePort id port =>
    simp only [applyMutation] at h
    split at h
    · simp only [Option.some.injEq, Prod.mk.injEq] at h
      rw [← h.1]
    · cases h
  | rename id reg =>
    simp only [applyMutation] at h
    split at h
    · cases h
    · split at h
      · simp only [Option.some.injEq, Prod.mk.injEq] at h
        rw [← h.1]
      · cases h

/-- An operator that places a move beyond `latestCycle` does not get through. -/
theorem applyMutations_beyond_window {id : Nat} {c : Int} {b : Nat} (ms : List Mutation) :
    ∀ (s : BF2Scheduler) (acc : List Undo), Mutation.assign id c b ∈ ms →
      s.latestCycle_ < c → (applyMutations ms s acc).1 = false := by
  induction ms with
  | nil => intro s acc hm; cases hm
  | cons m ms ih =>
    intro s acc hm hlc
    simp only [applyMutations]
    cases hap : applyMutation s m with
    | none => rfl
    | some r =>
      obtain ⟨s1, u⟩ := r
      simp only
      simp only [List.mem_cons] at hm
      rcases hm with rfl | hm
      · exfalso
        simp only [applyMutation] at hap
        split at hap
        · rename_i hc
          obtain ⟨_, _, _, _, _, hle, _⟩ := canCommit_node hc
          omega
        · cases hap
      · exact ih s1 (u :: acc) hm (by rw [latestCycle_applyMutation hap]; exact hlc)

theorem pushMoveUp_call_cases (up : BFPushMoveUp) (s : BF2Scheduler) :
    ((up.call s).1 = true → revertTopOpt (up.call s).2 = s) ∧
    ((up.call s).1 = false → (up.call s).2 = s) := by
  unfold BFPushMoveUp.call
  cases BFPushMoveUp.plan (s.ddg_.nodes.length + 1) s up.mn up.lc_ with
  | none => exact ⟨fun h => Bool.noConfusion h, fun _ => rfl⟩
  | some r => exact ⟨revertTopOpt_applyOpt, applyOpt_declined⟩

theorem rescheduleResultsClose_call_cases (close : BFRescheduleResultsClose)
    (s : BF2Scheduler) :
    ((close.call s).1 = true → revertTopOpt (close.call s).2 = s) ∧
    ((close.call s).1 = false → (close.call s).2 = s) := by
  unfold BFRescheduleResultsClose.call
  split
  · cases planAll BFRescheduleResultsClose.resultPlan
        (BFRescheduleResultsClose.results s close.po_) ([], s) with
    | none => exact ⟨fun h => Bool.noConfusion h, fun _ => rfl⟩
    | some r => exact ⟨revertTopOpt_applyOpt, applyOpt_declined⟩
  · exact ⟨fun h => Bool.noConfusion h, fun _ => rfl⟩

theorem swapToUntrigger_cases (s : BF2Scheduler) (operand trig : Nat) :
    ((swapToUntrigger s operand trig).1 = true →
      revertTopOpt (swapToUntrigger s operand trig).2 = s) ∧
    ((swapToUntrigger s operand trig).1 = false → (swapToUntrigger s operand trig).2 = s) := by
  unfold swapToUntrigger
  split
  · exact ⟨revertTopOpt_applyOpt, applyOpt_declined⟩
  · exact ⟨fun h => Bool.noConfusion h, fun _ => rfl⟩

/-- C4: rollback idempotence. For every optimisation operator, whatever its tag and
its mutations (placements and their reverts, removal of nodes, removal and addition
of edges, redirection of terminals, port sharing, renaming), and in every state of
the scheduler: an operator that was applied and is then undone with `revertTopOpt`
leaves the whole state, dependence graph, resource manager and stack, equal to the
state before it ran, so that no query can tell them apart; an operator that declines
leaves the state as it was; operators applied in order are undone in LIFO order back
to the first state; an operator that pushes a node beyond `latestCycle` declines,
so that the node keeps its prior cycle exactly; and the same holds of `BFPushMoveUp`
and `BFRescheduleResultsClose`, for every move, latest cycle and operation. -/
theorem rollback_restores_state (s : BF2Scheduler) (kind : OptKind) (ms : List Mutation)
    (ops : List (OptKind × List Mutation)) (up : BFPushMoveUp)
    (close : BFRescheduleResultsClose) :
    ((applyOpt kind ms s).1 = true → revertTopOpt (applyOpt kind ms s).2 = s) ∧
    ((applyOpt kind ms s).1 = false → (applyOpt kind ms s).2 = s) ∧
    revertTopOpts ((applyOpts ops s).scheduledStack_.length - s.scheduledStack_.length)
      (applyOpts ops s) = s ∧
    (∀ id c b, Mutation.assign id c b ∈ ms → s.latestCycle_ < c →
      (applyOpt kind ms s).1 = false ∧ (applyOpt kind ms s).2 = s ∧
      (applyOpt kind ms s).2.ddg_.cycleOf id = s.ddg_.cycleOf id) ∧
    ((up.call s).1 = true → revertTopOpt (up.call s).2 = s) ∧
    ((up.call s).1 = false → (up.call s).2 = s) ∧
    ((close.call s).1 = true → revertTopOpt (close.call s).2 = s) ∧
    ((close.call s).1 = false → (close.call s).2 = s) := by
  refine ⟨revertTopOpt_applyOpt, applyOpt_declined, (revertTopOpts_applyOpts ops s).2, ?_,
    (pushMoveUp_call_cases up s).1, (pushMoveUp_call_cases up s).2,
    (rescheduleResultsClose_call_cases close s).1,
    (rescheduleResultsClose_call_cases close s).2⟩
  intro id c b hm hlc
  have hf : (applyOpt kind ms s).1 = false := by
    have := applyMutations_beyond_window ms s [] hm hlc
    unfold applyOpt
    cases hr : applyMutations ms s [] with
    | mk ok r =>
      obtain ⟨s1, log⟩ := r
      rw [hr] at this
      simp only at this
      subst this
      rfl
  exact ⟨hf, applyOpt_declined hf, by rw [applyOpt_declined hf]⟩

/-- C6: test-only mode retains no mutation. For every scheduler, every policy of the
driver, every dependence graph and every resource manager, `handleDDG` and
`handleLoopDDG` with `testOnly = true` leave the state in which the control loop
started, so the dependence graph and the ledgers are equal to those before the call,
and return the length of the schedule that was tried, or `-1` when the try failed. -/
theorem testOnly_retains_no_mutation (self : BF2Scheduler) (policy : Policy)
    (ddg : DataDependenceGraph) (rm : SimpleResourceManager) (targetMachine : Machine)
    (minCycle tripCount : Int) (prologRM : Option SimpleResourceManager) :
    ((handleDDG self policy ddg rm targetMachine minCycle true).2 =
        startState self ddg rm targetMachine minCycle ∧
      (handleDDG self policy ddg rm targetMachine minCycle true).2.ddg_ = ddg ∧
      (handleDDG self policy ddg rm targetMachine minCycle true).2.rm_ = rm ∧
      (handleDDG self policy ddg rm targetMachine minCycle true).1 =
        if (scheduleDDG policy (startState self ddg rm targetMachine minCycle)).1 = true then
          (scheduleDDG policy
            (startState self ddg rm targetMachine minCycle)).2.ddg_.scheduleLength
        else -1) ∧
    ((handleLoopDDG self policy ddg rm targetMachine tripCount prologRM true).2 =
        loopStartState self ddg rm targetMachine tripCount prologRM ∧
      (handleLoopDDG self policy ddg rm targetMachine tripCount prologRM true).2.ddg_ = ddg ∧
      (handleLoopDDG self policy ddg rm targetMachine tripCount prologRM true).2.rm_ = rm ∧
      (handleLoopDDG self policy ddg rm targetMachine tripCount prologRM true).2.prologRM_ =
        prologRM ∧
      (handleLoopDDG self policy ddg rm targetMachine tripCount prologRM true).1 =
        if (scheduleDDG policy
            (loopStartState self ddg rm targetMachine tripCount prologRM)).1 = true then
          (scheduleDDG policy
            (loopStartState self ddg rm targetMachine tripCount prologRM)).2.ddg_.scheduleLength
        else -1) := by
  have h1 : (handleDDG self policy ddg rm targetMachine minCycle true).2 =
      startState self ddg rm targetMachine minCycle := by
    unfold handleDDG finish
    split
    · simp only [if_true]
      exact unschedule_scheduleDDG policy rfl
    · exact unschedule_scheduleDDG policy rfl
  have h2 : (handleLoopDDG self policy ddg rm targetMachine tripCount prologRM true).2 =
      loopStartState self ddg rm targetMachine tripCount prologRM := by
    unfold handleLoopDDG finish
    simp only
    split
    · simp only [if_true]
      exact unschedule_scheduleDDG policy rfl
    · exact unschedule_scheduleDDG policy rfl
  refine ⟨⟨h1, by rw [h1]; rfl, by rw [h1]; rfl, ?_⟩, ⟨h2, by rw [h2]; rfl, by rw [h2]; rfl,
    by rw [h2]; rfl, ?_⟩⟩
  · unfold handleDDG finish
    split <;> simp
  · unfold handleLoopDDG finish
    simp only [Bool.true_or, Bool.and_true]
    split <;> simp

/-- C14: kill/resurrect duality. For every move node that is not recorded as removed,
`nodeKilled` records it in `removedMoves_` only and `nodeAndCopyKilled` in
`dreRemovedMoves_` only, and a following `nodeResurrected` leaves the scheduler as it
was before the kill; after `nodeResurrected` the node is not recorded as removed; the
removal of a node by an operator followed by its rollback gives the whole state back;
and from disjoint sets, `dreRemovedMoves_` and `removedMoves_` are disjoint at every
point: between the mutations of any operator, after any number of decisions of the
driver, whatever its policy, after a kill of either kind of a node that is not
recorded as removed, and after `nodeResurrected`. -/
theorem kill_resurrect_duality (s : BF2Scheduler) (mn : Nat) (copyToo : Bool)
    (policy : Policy) (ms : List Mutation) (n : Nat) :
    (isRemoved s mn = false →
      nodeResurrected (nodeKilled s mn) mn = s ∧
      nodeResurrected (nodeAndCopyKilled s mn) mn = s ∧
      mn ∈ (nodeKilled s mn).removedMoves_ ∧ mn ∉ (nodeKilled s mn).dreRemovedMoves_ ∧
      mn ∈ (nodeAndCopyKilled s mn).dreRemovedMoves_ ∧
      mn ∉ (nodeAndCopyKilled s mn).removedMoves_) ∧
    isRemoved (nodeResurrected s mn) mn = false ∧
    (canKill s mn copyToo = true →
      isRemoved (kill s mn copyToo) mn = true ∧ resurrect (kill s mn copyToo) mn = s) ∧
    (RemovedDisjoint s → RemovedDisjoint (applyMutations ms s []).2.1) ∧
    (RemovedDisjoint s → s.scheduledStack_ = [] →
      RemovedDisjoint (scheduleLoop policy.next n s)) ∧
    (RemovedDisjoint s → isRemoved s mn = false →
      RemovedDisjoint (nodeKilled s mn) ∧ RemovedDisjoint (nodeAndCopyKilled s mn)) ∧
    (RemovedDisjoint s → RemovedDisjoint (nodeResurrected s mn)) := by
  refine ⟨?_, ?_, ?_, ?_, ?_, ?_, ?_⟩
  · intro h
    simp only [isRemoved, Bool.or_eq_false_iff, decide_eq_false_iff_not] at h
    obtain ⟨h1, h2⟩ := h
    refine ⟨?_, ?_, ?_, ?_, ?_, ?_⟩
    · cases s
      simp only [nodeResurrected, nodeKilled, mk.injEq, true_and, and_true] at h1 h2 ⊢
      exact ⟨Finset.erase_eq_of_not_mem h1, Finset.erase_insert h2⟩
    · cases s
      simp only [nodeResurrected, nodeAndCopyKilled, mk.injEq, true_and, and_true] at h1 h2 ⊢
      exact ⟨Finset.erase_insert h1, Finset.erase_eq_of_not_mem h2⟩
    · simp [nodeKilled]
    · exact h1
    · simp [nodeAndCopyKilled]
    · exact h2
  · simp [isRemoved, nodeResurrected]
  · intro h
    refine ⟨?_, resurrect_kill_cancel h⟩
    cases copyToo with
    | true => simp [isRemoved, kill, nodeAndCopyKilled]
    | false => simp [isRemoved, kill, nodeKilled]
  · intro h
    exact kept_applyMutations kept_removedDisjoint ms s [] h
  · intro h hs
    exact hist_scheduleLoop kept_removedDisjoint stackFree_removedDisjoint policy.next n s
      (hist_of_stack_nil hs h) 0
  · intro h hr
    simp only [isRemoved, Bool.or_eq_false_iff, decide_eq_false_iff_not] at hr
    obtain ⟨h1, h2⟩ := hr
    constructor
    · intro x hx
      simp only [nodeKilled, Finset.mem_insert] at hx
      rcases hx.2 with hx2 | hx2
      · rw [hx2] at hx
        exact h1 hx.1
      · exact h x ⟨hx.1, hx2⟩
    · intro x hx
      simp only [nodeAndCopyKilled, Finset.mem_insert] at hx
      rcases hx.1 with hx1 | hx1
      · rw [hx1] at hx
        exact h2 hx.2
      · exact h x ⟨hx1, hx.2⟩
  · intro h x hx
    simp only [nodeResurrected, Finset.mem_erase] at hx
    exact h x ⟨hx.1.2, hx.2.2⟩

end BF2Scheduler

/-! ### Sample runs of the operators -/

namespace BF2Scheduler

open SimpleResourceManager DataDependenceGraph

set_option maxRecDepth 100000 in
/-- The operators of §4.4 and §4.5 on the sample unit: bypass, dead-result
elimination, renaming, operand sharing and the swap of the trigger are applied; a
push of move 4 from cycle 10 up to cycle 8 is applied and a push down beyond
`latestCycle` declines and leaves the move in cycle 10; a port that is shared across
the loop body is refused to another move. -/
theorem sample_operators :
    (applyOpt OptKind.bypass Sample.bypassOpt Sample.resultSched).1 = true ∧
    (applyOpt OptKind.bypass Sample.bypassOpt Sample.resultSched).2.ddg_.isActive 3 = false ∧
    (applyOpt OptKind.bypass Sample.bypassOpt Sample.resultSched).2.ddg_.isActive 5 = false ∧
    (applyOpt OptKind.deadResultElimination Sample.dreOpt Sample.resultSched).1 = true ∧
    (applyOpt OptKind.deadResultElimination Sample.dreOpt
      Sample.resultSched).2.ddg_.isActive 5 = true ∧
    (applyOpt OptKind.rename Sample.renameOpt Sample.resultSched).1 = true ∧
    (applyOpt OptKind.operandShare Sample.shareOpt Sample.resultSched).1 = true ∧
    (applyOpt OptKind.swapToUntrigger Sample.swapOpt Sample.resultSched).1 = true ∧
    (applyOpts [(OptKind.scheduleMove, [Mutation.assign 4 10 0]),
      (OptKind.pushMoveUp, [Mutation.unassign 4, Mutation.assign 4 8 1])]
      Sample.resultSched).ddg_.cycleOf 4 = some 8 ∧
    (applyOpt OptKind.pushMoveDown [Mutation.unassign 4, Mutation.assign 4 11 1]
      (applyOpts [(OptKind.scheduleMove, [Mutation.assign 4 10 0])]
        Sample.resultSched)).1 = false ∧
    (applyOpt OptKind.pushMoveDown [Mutation.unassign 4, Mutation.assign 4 11 1]
      (applyOpts [(OptKind.scheduleMove, [Mutation.assign 4 10 0])]
        Sample.resultSched)).2.ddg_.cycleOf 4 = some 10 ∧
    (applyOpt OptKind.scheduleMove [Mutation.assign 1 10 0]
      (applyOpts [(OptKind.operandShare, [Mutation.sharePort 2 1])]
        Sample.resultSched)).1 = false := by
  decide

set_option maxRecDepth 100000 in
/-- The sample unit scheduled with the bypass: the register moves 3 and 5 are absent
from the committed schedule, the reader is committed in cycle 10 and the trigger two
cycles before it. -/
theorem sample_bypass_schedule :
    (handleDDG Sample.sched (Sample.bypassThenBottomUp 10) Sample.resultDDG
      (SimpleResourceManager.empty 0) Sample.machine3 0 false).1 = 3 ∧
    (handleDDG Sample.sched (Sample.bypassThenBottomUp 10) Sample.resultDDG
      (SimpleResourceManager.empty 0) Sample.machine3 0 false).2.ddg_.nodes.map
        (fun n => (n.id, n.cycle)) =
      [(1, some 8), (2, some 8), (3, none), (4, some 10), (5, none)] ∧
    (handleDDG Sample.sched (Sample.bypassThenBottomUp 10) Sample.resultDDG
      (SimpleResourceManager.empty 0) Sample.machine3 0 false).2.rm_.cell 9
        (Resource.port 5) = none := by
  decide

set_option maxRecDepth 100000 in
/-- The operators of the two headers on the sample unit. `BFPushMoveUp` for the reader
4 with latest cycle 8 takes the reader out of cycle 10, pushes its producer 3 from
cycle 9 up to cycle 7 and commits the reader in cycle 8; with latest cycle 0 it
declines. `BFRescheduleResultsClose` for operation 7, whose trigger is committed in
cycle 5, brings the result move from cycle 10 to cycle 7, and declines while the
trigger is not committed. `swapToUntrigger` makes the operand move 1 the trigger. -/
theorem sample_header_operators :
    (BFPushMoveUp.plan 6 Sample.placed 4 8).map Prod.fst =
      some [Mutation.unassign 4, Mutation.unassign 3, Mutation.assign 3 7 0,
        Mutation.assign 4 8 0] ∧
    (BFPushMoveUp.call { mn := 4, lc_ := 8 } Sample.placed).1 = true ∧
    (BFPushMoveUp.call { mn := 4, lc_ := 8 } Sample.placed).2.ddg_.nodes.map
        (fun n => (n.id, n.cycle)) =
      [(1, none), (2, none), (3, some 7), (4, some 8), (5, none)] ∧
    (BFPushMoveUp.call { mn := 4, lc_ := 0 } Sample.placed).1 = false ∧
    (BFRescheduleResultsClose.call { po_ := 7 } Sample.triggered).1 = true ∧
    (BFRescheduleResultsClose.call { po_ := 7 } Sample.triggered).2.ddg_.nodes.map
        (fun n => (n.id, n.cycle)) =
      [(1, none), (2, some 5), (3, some 7), (4, none), (5, none)] ∧
    (BFRescheduleResultsClose.call { po_ := 7 } Sample.placed).1 = false ∧
    (swapToUntrigger Sample.resultSched 1 2).1 = true ∧
    (swapToUntrigger Sample.resultSched 1 2).2.ddg_.nodes.map
        (fun n => (n.id, n.triggers Sample.machine3)) =
      [(1, true), (2, false), (3, false), (4, false), (5, false)] := by
  decide

set_option maxRecDepth 100000 in
/-- Witness of C4: the bypass of the sample unit is applied and its rollback gives the
state back; `BFPushMoveUp` of the reader 4 to cycle 8, which moves two nodes, is
applied and its rollback gives the state back; a push of the reader beyond
`latestCycle = 10` declines and leaves the state as it was. -/
theorem rollback_restores_state_witness :
    (applyOpt OptKind.bypass Sample.bypassOpt Sample.resultSched).1 = true ∧
    revertTopOpt (applyOpt OptKind.bypass Sample.bypassOpt Sample.resultSched).2 =
      Sample.resultSched ∧
    (BFPushMoveUp.call { mn := 4, lc_ := 8 } Sample.placed).1 = true ∧
    revertTopOpt (BFPushMoveUp.call { mn := 4, lc_ := 8 } Sample.placed).2 = Sample.placed ∧
    (applyOpt OptKind.pushMoveDown [Mutation.unassign 4, Mutation.assign 4 11 1]
      Sample.placed).2 = Sample.placed :=
  ⟨by decide,
   (rollback_restores_state Sample.resultSched OptKind.bypass Sample.bypassOpt []
      { mn := 4, lc_ := 8 } { po_ := 7 }).1 (by decide),
   by decide,
   (rollback_restores_state Sample.placed OptKind.bypass Sample.bypassOpt []
      { mn := 4, lc_ := 8 } { po_ := 7 }).2.2.2.2.1 (by decide),
   ((rollback_restores_state Sample.placed
      OptKind.pushMoveDown [Mutation.unassign 4, Mutation.assign 4 11 1] []
      { mn := 4, lc_ := 8 } { po_ := 7 }).2.2.2.1
      4 11 1 (by decide) (by decide)).2.1⟩

set_option maxRecDepth 100000 in
/-- Witness of C6 on a unit that is not new: move 4 of the sample unit is already
committed in cycle 10 when the test-only call is made; the call returns the length 4
of the schedule it tried and leaves graph and ledger as they were. -/
theorem testOnly_retains_no_mutation_witness :
    (handleDDG Sample.sched (Sample.bottomUp 10)
      (applyOpts [(OptKind.scheduleMove, [Mutation.assign 4 10 0])] Sample.resultSched).ddg_
      (applyOpts [(OptKind.scheduleMove, [Mutation.assign 4 10 0])] Sample.resultSched).rm_
      Sample.machine3 0 true).1 = 4 ∧
    (handleDDG Sample.sched (Sample.bottomUp 10)
      (applyOpts [(OptKind.scheduleMove, [Mutation.assign 4 10 0])] Sample.resultSched).ddg_
      (applyOpts [(OptKind.scheduleMove, [Mutation.assign 4 10 0])] Sample.resultSched).rm_
      Sample.machine3 0 true).2.ddg_ =
      (applyOpts [(OptKind.scheduleMove, [Mutation.assign 4 10 0])] Sample.resultSched).ddg_ ∧
    (handleDDG Sample.sched (Sample.bottomUp 10)
      (applyOpts [(OptKind.scheduleMove, [Mutation.assign 4 10 0])] Sample.resultSched).ddg_
      (applyOpts [(OptKind.scheduleMove, [Mutation.assign 4 10 0])] Sample.resultSched).rm_
      Sample.machine3 0 true).2.rm_ =
      (applyOpts [(OptKind.scheduleMove, [Mutation.assign 4 10 0])] Sample.resultSched).rm_ :=
  ⟨by decide,
   (testOnly_retains_no_mutation Sample.sched (Sample.bottomUp 10)
      (applyOpts [(OptKind.scheduleMove, [Mutation.assign 4 10 0])] Sample.resultSched).ddg_
      (applyOpts [(OptKind.scheduleMove, [Mutation.assign 4 10 0])] Sample.resultSched).rm_
      Sample.machine3 0 0 none).1.2.1,
   (testOnly_retains_no_mutation Sample.sched (Sample.bottomUp 10)
      (applyOpts [(OptKind.scheduleMove, [Mutation.assign 4 10 0])] Sample.resultSched).ddg_
      (applyOpts [(OptKind.scheduleMove, [Mutation.assign 4 10 0])] Sample.resultSched).rm_
      Sample.machine3 0 0 none).1.2.2.1⟩

set_option maxRecDepth 100000 in
/-- Witness of C14 on the sample unit: the result move 3 is not recorded as removed;
killed with its copy it is recorded in `dreRemovedMoves_` only, and its resurrection
gives the scheduler back; the removal by the operator and its rollback give the whole
state back. -/
theorem kill_resurrect_duality_witness :
    nodeResurrected (nodeAndCopyKilled Sample.resultSched 3) 3 = Sample.resultSched ∧
    3 ∈ (nodeAndCopyKilled Sample.resultSched 3).dreRemovedMoves_ ∧
    3 ∉ (nodeAndCopyKilled Sample.resultSched 3).removedMoves_ ∧
    resurrect (kill Sample.resultSched 3 true) 3 = Sample.resultSched :=
  ⟨((kill_resurrect_duality Sample.resultSched 3 true (Sample.bottomUp 0) [] 0).1
      (by decide)).2.1,
   ((kill_resurrect_duality Sample.resultSched 3 true (Sample.bottomUp 0) [] 0).1
      (by decide)).2.2.2.2.1,
   ((kill_resurrect_duality Sample.resultSched 3 true (Sample.bottomUp 0) [] 0).1
      (by decide)).2.2.2.2.2,
   ((kill_resurrect_duality Sample.resultSched 3 true (Sample.bottomUp 0) [] 0).2.2.1
      (by decide)).2⟩

end BF2Scheduler

/-! ### Small declarations: schedule window, loop mode, register order, ring buffer -/

namespace BF2Scheduler

/-- C15: a default-constructed `SchedulingLimits` has direction `BOTTOMUP`,
`earliestCycle = 0` and `latestCycle = INT_MAX`; so `earliestCycle <= latestCycle`, and
every non-negative `int` cycle lies in the window. -/
theorem SchedulingLimits.default_window :
    SchedulingLimits.default.direction = SchedulingDirection.BOTTOMUP ∧
    SchedulingLimits.default.earliestCycle = 0 ∧
    SchedulingLimits.default.latestCycle = INT_MAX ∧
    INT_MAX = 2 ^ 31 - 1 ∧
    SchedulingLimits.default.earliestCycle ≤ SchedulingLimits.default.latestCycle ∧
    ∀ c : Int, 0 ≤ c → c ≤ INT_MAX →
      SchedulingLimits.default.earliestCycle ≤ c ∧
        c ≤ SchedulingLimits.default.latestCycle := by
  refine ⟨rfl, rfl, rfl, by decide, by decide, ?_⟩
  intro c h0 h1
  exact ⟨h0, h1⟩

/-- C16: `LoopSchedulingMode` has the single value `NO_LOOP_SCHEDULER = 0`: any two
values of the enumeration are equal, and whatever is selected by the mode is selected
the same way for any two modes. -/
theorem LoopSchedulingMode.single_value (a b : LoopSchedulingMode) :
    a = LoopSchedulingMode.NO_LOOP_SCHEDULER ∧ a.code = 0 ∧ a = b ∧
    ∀ (α : Type) (strategy : LoopSchedulingMode → α), strategy a = strategy b := by
  cases a
  cases b
  exact ⟨rfl, rfl, rfl, fun _ _ => rfl⟩

end BF2Scheduler

namespace TDGen

/-- Characterisation of `RegInfo::operator<` as the lexicographic comparison. -/
theorem RegInfo.lt_eq_true_iff (x y : RegInfo) :
    RegInfo.lt x y = true ↔ (x.rf < y.rf ∨ (x.rf = y.rf ∧ x.idx < y.idx)) := by
  unfold RegInfo.lt
  split <;> simp_all

/-- C17: trichotomy of `RegInfo::operator<`: exactly one of `a < b`, `b < a` and
"same register file and same index" holds; so neither of two values is less than the
other exactly when they name the same register file and the same index. -/
theorem RegInfo.operator_lt_trichotomy (a b : RegInfo) :
    (RegInfo.lt a b = true ∨ RegInfo.lt b a = true ∨ (a.rf = b.rf ∧ a.idx = b.idx)) ∧
    ¬ (RegInfo.lt a b = true ∧ RegInfo.lt b a = true) ∧
    ¬ (RegInfo.lt a b = true ∧ (a.rf = b.rf ∧ a.idx = b.idx)) ∧
    ¬ (RegInfo.lt b a = true ∧ (a.rf = b.rf ∧ a.idx = b.idx)) ∧
    ((RegInfo.lt a b = false ∧ RegInfo.lt b a = false) ↔
      (a.rf = b.rf ∧ a.idx = b.idx)) := by
  have hab := RegInfo.lt_eq_true_iff a b
  have hba := RegInfo.lt_eq_true_iff b a
  have hnab : ¬ (RegInfo.lt a b = true ∧ (a.rf = b.rf ∧ a.idx = b.idx)) := by
    rintro ⟨h, e1, e2⟩
    rcases hab.1 h with h1 | ⟨_, h2⟩
    · rw [e1] at h1; exact lt_irrefl _ h1
    · omega
  have hnba : ¬ (RegInfo.lt b a = true ∧ (a.rf = b.rf ∧ a.idx = b.idx)) := by
    rintro ⟨h, e1, e2⟩
    rcases hba.1 h with h1 | ⟨_, h2⟩
    · rw [e1] at h1; exact lt_irrefl _ h1
    · omega
  have htri : RegInfo.lt a b = true ∨ RegInfo.lt b a = true ∨
      (a.rf = b.rf ∧ a.idx = b.idx) := by
    rcases lt_trichotomy a.rf b.rf with h | h | h
    · exact Or.inl (hab.2 (Or.inl h))
    · rcases Nat.lt_trichotomy a.idx b.idx with k | k | k
      · exact Or.inl (hab.2 (Or.inr ⟨h, k⟩))
      · exact Or.inr (Or.inr ⟨h, k⟩)
      · exact Or.inr (Or.inl (hba.2 (Or.inr ⟨h.symm, k⟩)))
    · exact Or.inr (Or.inl (hba.2 (Or.inl h)))
  refine ⟨htri, ?_, hnab, hnba, ?_⟩
  · rintro ⟨h, h'⟩
    rcases hab.1 h with h1 | ⟨e1, h2⟩ <;> rcases hba.1 h' with h3 | ⟨e3, h4⟩
    · exact lt_asymm h1 h3
    · rw [e3] at h1; exact lt_irrefl _ h1
    · rw [e1] at h3; exact lt_irrefl _ h3
    · omega
  · constructor
    · rintro ⟨h1, h2⟩
      rcases htri with h | h | h
      · rw [h1] at h; cases h
      · rw [h2] at h; cases h
      · exact h
    · intro h
      constructor
      · rw [Bool.eq_false_iff]; exact fun h' => hnab ⟨h', h⟩
      · rw [Bool.eq_false_iff]; exact fun h' => hnba ⟨h', h⟩

end TDGen

namespace CompiledSimulation

/-- C13: for every `maxLatency >= 0` the constructor `FUResultType(maxLatency)` returns
a buffer with `size = maxLatency` that holds exactly `maxLatency` result elements, each
with `cycles = 0` and `used = false`. -/
theorem FUResultType.new_initialised {SimValue : Type} (dflt : SimValue)
    (maxLatency : Int) (h : 0 ≤ maxLatency) :
    ∃ r : FUResultType SimValue,
      FUResultType.new dflt maxLatency = Except.ok r ∧
      r.size = maxLatency ∧
      (r.data.length : Int) = maxLatency ∧
      ∀ e ∈ r.data, e.cycles = 0 ∧ e.used = false := by
  refine ⟨{ size := maxLatency
            data := List.replicate maxLatency.toNat (FUResultElementType.new dflt) },
    ?_, rfl, ?_, ?_⟩
  · unfold FUResultType.new
    simp only
    rw [if_neg (by omega)]
  · simp only [List.length_replicate]
    exact Int.toNat_of_nonneg h
  · intro e he
    rw [List.eq_of_mem_replicate he]
    exact ⟨rfl, rfl⟩

/-- Witness of C13 at `maxLatency = 3`. -/
theorem FUResultType.new_initialised_witness :
    (0 : Int) ≤ 3 ∧
    ∃ r : FUResultType Nat,
      FUResultType.new (0 : Nat) 3 = Except.ok r ∧
      r.size = 3 ∧
      (r.data.length : Int) = 3 ∧
      ∀ e ∈ r.data, e.cycles = 0 ∧ e.used = false :=
  ⟨by decide, FUResultType.new_initialised (0 : Nat) 3 (by decide)⟩

end CompiledSimulation

/-! ### `LLVMTCEPOMBuilder`: terminals and trigger moves -/

namespace LLVMTCEPOMBuilder

/-- The look-up part of `createFUTerminal` never returns `NULL`. -/
theorem fuTerminalOf_ne_null (env : FUTerminalEnv) (fuName portName operationName : String) :
    (fuTerminalOf env fuName portName operationName).result ≠ Except.ok none := by
  unfold fuTerminalOf
  split
  · simp
  · simp
  · split
    · simp
    · simp
    · split
      · split
        · simp
        · split
          · simp
          · simp only [Except.map]
            split <;> simp
      · simp

/-- C11: a call of `createFUTerminal` that returns does return `NULL` if and only if
splitting the register name at `"_"` gives exactly two pieces and the second piece
converts to an integer; in that case the call makes no look-up of a function unit or
of a port. -/
theorem createFUTerminal_null_iff_register_access (env : FUTerminalEnv)
    (regName : String) :
    (∀ t, (createFUTerminal env regName).result = Except.ok t →
      (t = none ↔
        ((env.split regName "_").length = 2 ∧
          ∃ indexStr i, (env.split regName "_").get? 1 = some indexStr ∧
            env.toInt indexStr = some i))) ∧
    (((env.split regName "_").length = 2 ∧
        ∃ indexStr i, (env.split regName "_").get? 1 = some indexStr ∧
          env.toInt indexStr = some i) →
      (createFUTerminal env regName).result = Except.ok none ∧
        (createFUTerminal env regName).lookups = []) := by
  have hc : ((env.split regName "_").length = 2 ∧
      (((env.split regName "_").get? 1).bind env.toInt).isSome = true) ↔
      ((env.split regName "_").length = 2 ∧
        ∃ indexStr i, (env.split regName "_").get? 1 = some indexStr ∧
          env.toInt indexStr = some i) := by
    constructor
    · rintro ⟨h2, h⟩
      refine ⟨h2, ?_⟩
      cases hp : (env.split regName "_").get? 1 with
      | none => rw [hp] at h; simp at h
      | some p =>
        rw [hp] at h
        cases hi : env.toInt p with
        | none => simp [hi] at h
        | some i => exact ⟨p, i, rfl, hi⟩
    · rintro ⟨h2, p, i, hp, hi⟩
      refine ⟨h2, ?_⟩
      rw [hp]
      simp [hi]
  by_cases hrf : ((env.split regName "_").length = 2 ∧
      (((env.split regName "_").get? 1).bind env.toInt).isSome = true)
  · have hres : createFUTerminal env regName = { lookups := [], result := Except.ok none } := by
      unfold createFUTerminal
      simp only
      rw [if_pos hrf]
    refine ⟨?_, fun _ => by rw [hres]; exact ⟨rfl, rfl⟩⟩
    intro t ht
    rw [hres] at ht
    simp only [Except.ok.injEq] at ht
    exact ⟨fun _ => hc.1 hrf, fun _ => ht.symm⟩
  · refine ⟨?_, fun h => absurd (hc.2 h) hrf⟩
    intro t ht
    constructor
    · intro htn
      exfalso
      subst htn
      unfold createFUTerminal at ht
      simp only at ht
      rw [if_neg hrf] at ht
      split at ht
      · simp at ht
      · split at ht
        · exact fuTerminalOf_ne_null _ _ _ _ ht
        · simp at ht
    · intro h
      exact absurd (hc.2 h) hrf

/-- Runs of `createFUTerminal` on the sample machine: a register-file access returns
`NULL` without a look-up, a port name and a trigger port with an operation return a
terminal, and a name without an underscore ends in a failure. -/
theorem createFUTerminal_samples :
    createFUTerminal Sample.fuEnv "RF_4" = { lookups := [], result := Except.ok none } ∧
    (createFUTerminal Sample.fuEnv "ALU_out1").result =
      Except.ok (some (TerminalFUPort.ofPort 2)) ∧
    (createFUTerminal Sample.fuEnv "ALU_in1t_ADD").result =
      Except.ok (some (TerminalFUPort.ofOperation 0 1)) ∧
    (createFUTerminal Sample.fuEnv "ALU_in1t_ADD").lookups =
      [Lookup.functionUnit "ALU", Lookup.port 0 "in1t", Lookup.operation 0 "ADD"] ∧
    (createFUTerminal Sample.fuEnv "SP").result = Except.error "std::out_of_range" := by
  refine ⟨?_, ?_, ?_, ?_, ?_⟩ <;> rfl

end LLVMTCEPOMBuilder

namespace LLVMTCEPOMBuilder

/-- The operand indices `getNumOperands() - 2` and `getNumOperands() - 1`, computed in
`unsigned`, are the second-last and the last index when there are two operands. -/
theorem MachineInstr.operand_indices (mi : MachineInstr)
    (hn : mi.operands.length < 2 ^ 32) (h2 : 2 ≤ mi.operands.length) :
    (mi.getNumOperands + 2 ^ 32 - 2) % 2 ^ 32 = mi.operands.length - 2 ∧
    (mi.getNumOperands + 2 ^ 32 - 1) % 2 ^ 32 = mi.operands.length - 1 := by
  unfold MachineInstr.getNumOperands
  omega

/-- C12: `emitMove` on an instruction whose opcode name is not `"MOVE"` and that has at
least two operands: the call returns exactly when both terminals are created, and then
the returned instruction holds exactly one move, from the terminal of the second-last
operand to the terminal of the last operand on the universal bus, and is appended to
the code snippet. On an instruction named `"MOVE"` the result is that of the base class
`emitMove`. -/
theorem emitMove_trigger_move (env : EmitEnv) (mi : MachineInstr) (proc : CodeSnippet)
    (hn : mi.operands.length < 2 ^ 32) :
    (env.getName mi.opcode = "MOVE" → emitMove env mi proc = env.baseEmitMove mi proc) ∧
    (env.getName mi.opcode ≠ "MOVE" → 2 ≤ mi.operands.length →
      ∃ srcOp dstOp,
        mi.operands.get? (mi.operands.length - 2) = some srcOp ∧
        mi.operands.get? (mi.operands.length - 1) = some dstOp ∧
        (∀ src dst, env.createTerminal srcOp = Except.ok src →
          env.createTerminal dstOp = Except.ok dst →
          emitMove env mi proc =
            Except.ok
              ({ moves := [{ source := src, destination := dst, bus := env.universalBus }] },
                proc ++
                  [{ moves :=
                      [{ source := src, destination := dst, bus := env.universalBus }] }])) ∧
        (∀ r, emitMove env mi proc = Except.ok r →
          ∃ src dst, env.createTerminal srcOp = Except.ok src ∧
            env.createTerminal dstOp = Except.ok dst ∧
            r.1.moves = [{ source := src, destination := dst, bus := env.universalBus }] ∧
            r.2 = proc ++ [r.1])) := by
  constructor
  · intro h
    unfold emitMove
    simp only
    rw [if_pos h]
  · intro h h2
    obtain ⟨i2, i1⟩ := MachineInstr.operand_indices mi hn h2
    have hs : mi.operands.length - 2 < mi.operands.length := by omega
    have hd : mi.operands.length - 1 < mi.operands.length := by omega
    refine ⟨mi.operands.get ⟨_, hs⟩, mi.operands.get ⟨_, hd⟩,
      List.get?_eq_get hs, List.get?_eq_get hd, ?_, ?_⟩
    · intro src dst hsrc hdst
      unfold emitMove
      simp only
      rw [if_neg h, i2, i1]
      unfold MachineInstr.getOperand
      rw [List.get?_eq_get hs, List.get?_eq_get hd]
      simp only [hsrc, hdst]
      rfl
    · intro r hr
      unfold emitMove at hr
      simp only at hr
      rw [if_neg h, i2, i1] at hr
      unfold MachineInstr.getOperand at hr
      rw [List.get?_eq_get hs, List.get?_eq_get hd] at hr
      simp only at hr
      cases hsrc : env.createTerminal (mi.operands.get ⟨_, hs⟩) with
      | error e => rw [hsrc] at hr; simp at hr
      | ok src =>
        cases hdst : env.createTerminal (mi.operands.get ⟨_, hd⟩) with
        | error e => rw [hsrc, hdst] at hr; simp at hr
        | ok dst =>
          rw [hsrc, hdst] at hr
          simp only [Except.ok.injEq] at hr
          subst hr
          exact ⟨src, dst, rfl, rfl, rfl, rfl⟩

/-- Witness of C12 on the sample trigger move with operands 10, 11, 12: the emitted
instruction moves terminal 111 to terminal 112 over bus 7. -/
theorem emitMove_trigger_move_witness :
    Sample.triggerInstr.operands.length < 2 ^ 32 ∧
    emitMove Sample.emitEnv Sample.triggerInstr [] =
      Except.ok ({ moves := [{ source := 111, destination := 112, bus := 7 }] },
        [{ moves := [{ source := 111, destination := 112, bus := 7 }] }]) := by
  have hlen : Sample.triggerInstr.operands.length < 2 ^ 32 := by decide
  refine ⟨hlen, ?_⟩
  obtain ⟨srcOp, dstOp, hs, hd, hret, _⟩ :=
    (emitMove_trigger_move Sample.emitEnv Sample.triggerInstr [] hlen).2
      (by decide) (by decide)
  have e1 : srcOp = 11 := by
    have : some (11 : Nat) = some srcOp := hs
    exact (Option.some.inj this).symm
  have e2 : dstOp = 12 := by
    have : some (12 : Nat) = some dstOp := hd
    exact (Option.some.inj this).symm
  subst e1
  subst e2
  exact hret 111 112 rfl rfl

end LLVMTCEPOMBuilder
